import Mathlib

/-!
# specmill: the schema translator and the tool generator

A shallow embedding of `parser/openapi.go`, `generator/mcp.go`, `generator/types.go` and
`server/server.go`.

* Go strings are Lean strings; the library calls `strings.Split`, `strings.Contains`
  and `strings.ToUpper` are written out on character lists.
* A Go map is an association list. For a map that is part of the input (the paths, the
  properties of a schema, the content of a request body) its order is the order in which
  `range` visits the entries; Go leaves that order open, so a statement over all lists
  covers every order. The map that `GetOperations` builds is visited in the order it is
  written in by `GenerateTools` and `ExecuteTool`, and in any order, given by a
  `RangeOrder`, by `GenerateToolsIn` and `ExecuteToolIn`.
* A Go pointer is an `Option`; a nil `interface{}` is `Value.null`.
* `convertSchema` follows `$ref`s into the component table and so need not terminate.
  The embedding bounds the depth of the call stack by a fuel argument and reports
  `Fault.outOfFuel` when the bound is hit. A run-time panic of the Go code is a `Fault` too.
* A JSON payload is given by what `encoding/json` makes of it (`RawMessage`), numbers
  being integers; where Go decodes a number into an `interface{}` it becomes the nearest
  float64, and is an error out of the range of float64 (`decodeInterface`). The calls of
  `net/http` and the printing of composite values are taken from a `Library`, and the
  calls the server makes to the outside are recorded as `Event`s.
-/

namespace Specmill

/-! ## Values and maps -/

/-- A Go `interface{}` value of the kind the generator builds and `encoding/json` prints:
nil, booleans, numbers, strings, slices and string-keyed maps. -/
inductive Value where
  | null
  | bool (b : Bool)
  | num (n : Int)
  | str (s : String)
  | arr (xs : List Value)
  | obj (fields : List (String × Value))

/-- The ways in which the embedded code stops without a result. -/
inductive Fault where
  /-- Go panics with "index out of range". -/
  | indexOutOfRange
  /-- Go panics on a failed type assertion. -/
  | typeAssertion
  /-- The call stack got deeper than the fuel allows. -/
  | outOfFuel
  deriving DecidableEq

/-- Go `v, ok := m[k]`. -/
def mapGet {α : Type} (k : String) : List (String × α) → Option α
  | [] => none
  | (k', v) :: rest => if k' = k then some v else mapGet k rest

/-- Go `m[k] = v`: the entry of `k` is overwritten in place, a new key is added. -/
def mapSet {α : Type} (k : String) (v : α) : List (String × α) → List (String × α)
  | [] => [(k, v)]
  | (k', v') :: rest => if k' = k then (k, v) :: rest else (k', v') :: mapSet k v rest

/-- Go `delete(m, k)`. -/
def mapDelete {α : Type} (k : String) : List (String × α) → List (String × α)
  | [] => []
  | (k', v') :: rest => if k' = k then mapDelete k rest else (k', v') :: mapDelete k rest

/-- The keys of a map. -/
def mapKeys {α : Type} (m : List (String × α)) : List String :=
  m.map Prod.fst

/-- Go `m[k]` on a value that is a map; `none` when the key is missing or the value is
not a map. -/
def Value.get (k : String) : Value → Option Value
  | .obj fields => mapGet k fields
  | _ => none

/-- Go `xs[i]` with the run-time bounds check. -/
def index {α : Type} (xs : List α) (i : Int) : Except Fault α :=
  if i < 0 then .error .indexOutOfRange
  else match xs.get? i.toNat with
    | some x => .ok x
    | none => .error .indexOutOfRange

/-! ## Library functions on strings -/

/-- The pieces of a character list between the occurrences of `sep`. -/
def splitChars (sep : Char) : List Char → List (List Char)
  | [] => [[]]
  | c :: cs =>
    if c = sep then [] :: splitChars sep cs
    else match splitChars sep cs with
      | [] => [[c]]
      | p :: ps => (c :: p) :: ps

/-- Go `strings.Split(s, sep)` for a separator of one character, which is how the
generator calls it (`"/"`). -/
def stringsSplit (s : String) (sep : Char) : List String :=
  (splitChars sep s.data).map String.mk

/-- Whether `p` starts `s`. -/
def startsWith : List Char → List Char → Bool
  | [], _ => true
  | _ :: _, [] => false
  | a :: p, b :: s => a = b && startsWith p s

/-- Whether `sub` occurs in `s`. -/
def containsChars (sub : List Char) : List Char → Bool
  | [] => startsWith sub []
  | c :: cs => startsWith sub (c :: cs) || containsChars sub cs

/-- Go `strings.Contains(s, substr)`. -/
def stringsContains (s substr : String) : Bool :=
  containsChars substr.data s.data

/-- Go `strings.ToUpper(s)` on ASCII text, which covers the seven method names
`GetOperations` produces; Go also maps letters outside ASCII. -/
def stringsToUpper (s : String) : String :=
  String.mk (s.data.map Char.toUpper)

/-! ## The spec model (`parser/openapi.go`) -/

/-- Go `parser.Schema`. The field `Type` is spelled `Type_`. -/
structure Schema where
  Type_ : String
  Format : String
  Properties : List (String × Option Schema)
  Items : Option Schema
  Required : List String
  Ref : String
  Enum : List Value
  Description : String

/-- Go `parser.Schema{}`, the schema with every field at its zero value. -/
def emptySchema : Schema :=
  { Type_ := "", Format := "", Properties := [], Items := none, Required := [], Ref := "",
    Enum := [], Description := "" }

/-- Go `parser.Parameter`. -/
structure Parameter where
  Name : String := ""
  In : String := ""
  Description : String := ""
  Required : Bool := false
  Schema : Option Schema := none

/-- Go `parser.MediaType`. -/
structure MediaType where
  Schema : Option Schema := none

/-- Go `parser.RequestBody`; a nil `Content` map is `none`. -/
structure RequestBody where
  Description : String := ""
  Required : Bool := false
  Content : Option (List (String × MediaType)) := none

/-- Go `parser.Operation`, without `Responses` and `Tags`, which the generator never
reads. -/
structure Operation where
  OperationID : String := ""
  Summary : String := ""
  Description : String := ""
  Parameters : List Parameter := []
  RequestBody : Option RequestBody := none

/-- Go `parser.PathItem`. -/
structure PathItem where
  Get : Option Operation := none
  Post : Option Operation := none
  Put : Option Operation := none
  Delete : Option Operation := none
  Patch : Option Operation := none
  Options : Option Operation := none
  Head : Option Operation := none

/-- Go `parser.Components`; a nil `Schemas` map is `none`. -/
structure Components where
  Schemas : Option (List (String × Option Schema)) := none

/-- Go `parser.Server`. -/
structure Server where
  URL : String := ""
  Description : String := ""

/-- Go `parser.OpenAPISpec`, without `OpenAPI` and `Info`, which the generator never
reads. -/
structure OpenAPISpec where
  Servers : List Server := []
  Paths : List (String × PathItem) := []
  Components : Option Components := none

/-- Go `(*PathItem).GetOperations`. -/
def GetOperations (p : PathItem) : List (String × Operation) :=
  let ops : List (String × Operation) := []
  let ops := match p.Get with
    | some op => mapSet "get" op ops
    | none => ops
  let ops := match p.Post with
    | some op => mapSet "post" op ops
    | none => ops
  let ops := match p.Put with
    | some op => mapSet "put" op ops
    | none => ops
  let ops := match p.Delete with
    | some op => mapSet "delete" op ops
    | none => ops
  let ops := match p.Patch with
    | some op => mapSet "patch" op ops
    | none => ops
  let ops := match p.Options with
    | some op => mapSet "options" op ops
    | none => ops
  let ops := match p.Head with
    | some op => mapSet "head" op ops
    | none => ops
  ops

/-! ## The generator (`generator/mcp.go`) -/

/-- Go `generator.MCPTool`. `InputSchema` holds the map that `generateInputSchema` hands
to `json.Marshal`, before it is printed. -/
structure MCPTool where
  Name : String
  Description : String
  InputSchema : Value

/-- Go `generator.MCPGenerator`, without the HTTP client. -/
structure MCPGenerator where
  spec : OpenAPISpec
  tools : List MCPTool
  baseURL : String

/-- Go `NewMCPGenerator`. -/
def NewMCPGenerator (spec : OpenAPISpec) : MCPGenerator :=
  let baseURL := match spec.Servers with
    | server :: _ => server.URL
    | [] => ""
  { spec := spec, tools := [], baseURL := baseURL }

/-- Go `(*MCPGenerator).generateDescription`. -/
def generateDescription (op : Operation) (method path : String) : String :=
  let desc := stringsToUpper method ++ " " ++ path
  let desc := if op.Summary ≠ "" then op.Summary else desc
  let desc := if op.Description ≠ "" then desc ++ "\n" ++ op.Description else desc
  desc

/-- The loop of `convertSchema` over `schema.Properties` (lines 153-155), with the
recursive call passed in as `conv`. -/
def convertProperties (conv : Option Schema → Except Fault Value) :
    List (String × Option Schema) → List (String × Value) →
    Except Fault (List (String × Value))
  | [], properties => .ok properties
  | (name, propSchema) :: rest, properties =>
    match conv propSchema with
    | .error e => .error e
    | .ok v => convertProperties conv rest (mapSet name v properties)

/-- The lookup of a resolved reference name in the component table (lines 126-130):
`some refSchema` when `g.spec.Components` and its `Schemas` are not nil and hold the
name. -/
def lookupComponent (spec : OpenAPISpec) (schemaName : String) : Option (Option Schema) :=
  match spec.Components with
  | none => none
  | some components =>
    match components.Schemas with
    | none => none
    | some schemas => mapGet schemaName schemas

/-- Go `(*MCPGenerator).convertSchema`. The first argument bounds the depth of the call
stack: a call at depth 0 is `Fault.outOfFuel`. -/
def convertSchema (spec : OpenAPISpec) : Nat → Option Schema → Except Fault Value
  | 0, _ => .error .outOfFuel
  | _ + 1, none => .ok .null
  | fuel + 1, some schema =>
    if schema.Ref ≠ "" then
      let refParts := stringsSplit schema.Ref '/'
      let fallback : Except Fault Value := .ok (.obj [("type", .str "object")])
      if refParts.length > 0 then
        match index refParts ((refParts.length : Int) - 2) with
        | .error e => .error e
        | .ok segment =>
          if segment = "schemas" then
            match index refParts ((refParts.length : Int) - 1) with
            | .error e => .error e
            | .ok schemaName =>
              match lookupComponent spec schemaName with
              | some refSchema => convertSchema spec fuel refSchema
              | none => fallback
          else fallback
      else fallback
    else
      let result : List (String × Value) := [("type", .str schema.Type_)]
      let result :=
        if schema.Format ≠ "" then mapSet "format" (.str schema.Format) result else result
      let result :=
        if schema.Description ≠ "" then mapSet "description" (.str schema.Description) result
        else result
      let result :=
        if schema.Enum.length > 0 then mapSet "enum" (.arr schema.Enum) result else result
      let withProperties : Except Fault (List (String × Value)) :=
        if schema.Type_ = "object" ∧ schema.Properties.length > 0 then
          match convertProperties (convertSchema spec fuel) schema.Properties [] with
          | .error e => .error e
          | .ok properties =>
            let result := mapSet "properties" (.obj properties) result
            if schema.Required.length > 0 then
              .ok (mapSet "required" (.arr (schema.Required.map Value.str)) result)
            else .ok result
        else .ok result
      match withProperties with
      | .error e => .error e
      | .ok result =>
        if schema.Type_ = "array" then
          match schema.Items with
          | some items =>
            match convertSchema spec fuel (some items) with
            | .error e => .error e
            | .ok v => .ok (.obj (mapSet "items" v result))
          | none => .ok (.obj result)
        else .ok (.obj result)

/-- The argument name of a parameter (lines 83-86). -/
def paramName (param : Parameter) : String :=
  if param.In ≠ "query" ∧ param.In ≠ "path" then param.In ++ "_" ++ param.Name
  else param.Name

/-- The loop of `generateInputSchema` over `op.Parameters` (lines 75-93), threading the
`properties` map and the `required` slice. -/
def convertParameters (spec : OpenAPISpec) (fuel : Nat) :
    List Parameter → List (String × Value) → List String →
    Except Fault (List (String × Value) × List String)
  | [], properties, required => .ok (properties, required)
  | param :: rest, properties, required =>
    match convertSchema spec fuel param.Schema with
    | .error e => .error e
    | .ok converted =>
      let paramSchema : Value := match converted with
        | .null => .obj [("type", .str "string")]
        | v => v
      match paramSchema with
      | .obj fields =>
        let paramSchema := Value.obj (mapSet "description" (.str param.Description) fields)
        let properties := mapSet (paramName param) paramSchema properties
        let required := if param.Required then required ++ [paramName param] else required
        convertParameters spec fuel rest properties required
      | _ => .error .typeAssertion

/-- The first entry of the request body's content, in `range` order, that the loop of
lines 96-104 accepts: its content type contains "json" and it carries a schema. -/
def jsonContent : List (String × MediaType) → Option Schema
  | [] => none
  | (contentType, mediaType) :: rest =>
    match mediaType.Schema with
    | some schema => if stringsContains contentType "json" then some schema else jsonContent rest
    | none => jsonContent rest

/-- The request body schema that `generateInputSchema` attaches (lines 95-105), if any. -/
def attachedBody (op : Operation) : Option Schema :=
  match op.RequestBody with
  | none => none
  | some body =>
    match body.Content with
    | none => none
    | some content => jsonContent content

/-- Go `(*MCPGenerator).generateInputSchema`, up to the call of `json.Marshal`: the result
is the map `schema` that is printed. `properties` is the map stored under
`schema["properties"]`, so the writes to it show in `schema`. -/
def generateInputSchema (spec : OpenAPISpec) (fuel : Nat) (op : Operation) :
    Except Fault Value :=
  let schema : List (String × Value) :=
    [("type", .str "object"), ("properties", .obj []), ("required", .arr [])]
  match convertParameters spec fuel op.Parameters [] [] with
  | .error e => .error e
  | .ok (properties, required) =>
    let withBody : Except Fault (List (String × Value) × List String) :=
      match attachedBody op, op.RequestBody with
      | some bodySchema, some body =>
        match convertSchema spec fuel (some bodySchema) with
        | .error e => .error e
        | .ok v =>
          .ok (mapSet "body" v properties,
               if body.Required then required ++ ["body"] else required)
      | _, _ => .ok (properties, required)
    match withBody with
    | .error e => .error e
    | .ok (properties, required) =>
      let schema := mapSet "properties" (.obj properties) schema
      let schema :=
        if required.length > 0 then mapSet "required" (.arr (required.map Value.str)) schema
        else mapDelete "required" schema
      .ok (.obj schema)

/-- The inner loop of `GenerateTools` over the operations of one path (lines 36-48). -/
def generatePathTools (spec : OpenAPISpec) (fuel : Nat) (path : String) :
    List (String × Operation) → List MCPTool → Except Fault (List MCPTool)
  | [], tools => .ok tools
  | (method, operation) :: rest, tools =>
    if operation.OperationID = "" then generatePathTools spec fuel path rest tools
    else
      match generateInputSchema spec fuel operation with
      | .error e => .error e
      | .ok inputSchema =>
        let tool : MCPTool :=
          { Name := operation.OperationID
            Description := generateDescription operation method path
            InputSchema := inputSchema }
        generatePathTools spec fuel path rest (tools ++ [tool])

/-- The outer loop of `GenerateTools` over `g.spec.Paths` (lines 34-49), the operations
of a path being visited in the order `GetOperations` writes them. -/
def generateAllTools (spec : OpenAPISpec) (fuel : Nat) :
    List (String × PathItem) → List MCPTool → Except Fault (List MCPTool)
  | [], tools => .ok tools
  | (path, pathItem) :: rest, tools =>
    match generatePathTools spec fuel path (GetOperations pathItem) tools with
    | .error e => .error e
    | .ok tools => generateAllTools spec fuel rest tools

/-- Go `(*MCPGenerator).GenerateTools`: the generator after the call, in the run that
visits the maps as they are written (`GenerateToolsIn` is the run for any order). -/
def GenerateTools (g : MCPGenerator) (fuel : Nat) : Except Fault MCPGenerator :=
  match generateAllTools g.spec fuel g.spec.Paths g.tools with
  | .error e => .error e
  | .ok tools => .ok { g with tools := tools }

/-- Go `(*MCPGenerator).GetTools`. -/
def GetTools (g : MCPGenerator) : List MCPTool :=
  g.tools

/-! ## Notions the statements use -/

/-- The bare object `{"type":"object"}` that stands for a reference that is not
resolved. -/
def bareObject : Value :=
  .obj [("type", .str "object")]

/-! ## Example inputs -/

/-- A spec whose component table registers the object schema `Pet`. -/
def petSpec : OpenAPISpec :=
  { Components := some
      { Schemas := some
          [("Pet", some
            { emptySchema with
              Type_ := "object"
              Properties := [("name", some { emptySchema with Type_ := "string" })]
              Required := ["name"] })] } }

/-- The schema registered as `Pet` in `petSpec`. -/
def petSchema : Schema :=
  { emptySchema with
    Type_ := "object"
    Properties := [("name", some { emptySchema with Type_ := "string" })]
    Required := ["name"] }

/-- The node `{$ref: "#/components/schemas/Pet"}`. -/
def petRef : Schema :=
  { emptySchema with Ref := "#/components/schemas/Pet" }

/-- The node `{$ref: "Pet"}`, a reference without a separator. -/
def bareRef : Schema :=
  { emptySchema with Ref := "Pet" }

/-- The headline of a tool description as the spec words it: the operation's summary when
there is one, otherwise the uppercased method, one space, and the path. -/
def headline (op : Operation) (method path : String) : String :=
  if op.Summary = "" then stringsToUpper method ++ " " ++ path else op.Summary

/-- An operation with neither summary nor description. -/
def plainOp : Operation := {}

/-- An operation with a description and no summary. -/
def describedOp : Operation :=
  { Description := "Returns a list of all pets in the system" }

/-- A string schema with the enum `["red","green","blue"]`. -/
def colourSchema : Schema :=
  { emptySchema with Type_ := "string", Enum := [.str "red", .str "green", .str "blue"] }

/-! ## Reading an input schema -/

/-- The names listed under "required" in a schema; empty when the key is missing. -/
def requiredNames (schema : Value) : List String :=
  match schema.get "required" with
  | some (.arr xs) =>
    xs.filterMap fun x =>
      match x with
      | .str s => some s
      | _ => none
  | _ => []

/-- The keys of the "properties" mapping of a schema; empty when the key is missing. -/
def propertyNames (schema : Value) : List String :=
  match schema.get "properties" with
  | some (.obj properties) => mapKeys properties
  | _ => []

/-- Whether the operation has a JSON request body that is attached and marked
required. -/
def bodyRequired (op : Operation) : Bool :=
  match attachedBody op, op.RequestBody with
  | some _, some body => body.Required
  | _, _ => false

/-- The argument names that the operation requires: those of the parameters marked
required, in order, then "body" for a required JSON request body. -/
def requiredArgs (op : Operation) : List String :=
  (op.Parameters.filter fun p => p.Required).map paramName ++
    (if bodyRequired op then ["body"] else [])

/-! ## Example operations -/

/-- The required path parameter `petId`. -/
def petIdParam : Parameter :=
  { Name := "petId", In := "path", Required := true,
    Schema := some { emptySchema with Type_ := "string" } }

/-- The optional query parameter `limit`. -/
def limitParam : Parameter :=
  { Name := "limit", In := "query", Required := false,
    Schema := some { emptySchema with Type_ := "integer" } }

/-- The optional header parameter `X-Trace`, without a schema. -/
def traceParam : Parameter :=
  { Name := "X-Trace", In := "header", Required := false }

/-- An operation `GET /pets/{petId}` with a required path parameter, an optional query
parameter and an optional header parameter. -/
def getPetOp : Operation :=
  { OperationID := "getPet", Summary := "Get a pet",
    Parameters := [petIdParam, limitParam, traceParam] }

/-- The required header parameter `x`, whose argument name is "header_x". -/
def headerXParam : Parameter :=
  { Name := "x", In := "header", Required := true }

/-- The optional query parameter `header_x`, whose argument name is "header_x" too. -/
def queryHeaderXParam : Parameter :=
  { Name := "header_x", In := "query", Required := false }

/-- An operation with two parameters that differ in name and location and share the
argument name "header_x"; only the first is required. -/
def collidingOp : Operation :=
  { OperationID := "collide", Parameters := [headerXParam, queryHeaderXParam] }

/-- The request body schema of `createPet` in the generator's test. -/
def newPetSchema : Schema :=
  { emptySchema with
    Type_ := "object"
    Properties := [("name", some { emptySchema with Type_ := "string" }),
      ("tag", some { emptySchema with Type_ := "string" })]
    Required := ["name"] }

/-- The required JSON request body of `createPet`. -/
def newPetBody : RequestBody :=
  { Required := true, Content := some [("application/json", { Schema := some newPetSchema })] }

/-- The operation `createPet` of the generator's test: a required JSON request body. -/
def createPetOp : Operation :=
  { OperationID := "createPet", Summary := "Create a pet", RequestBody := some newPetBody }

/-- The required query parameter `body`. -/
def bodyParam : Parameter :=
  { Name := "body", In := "query", Required := true }

/-- The optional JSON request body of `bodyParamOp`. -/
def optionalBody : RequestBody :=
  { Required := false
    Content := some
      [("application/json", { Schema := some { emptySchema with Type_ := "object" } })] }

/-- An operation with a required query parameter named `body` and an optional JSON
request body. -/
def bodyParamOp : Operation :=
  { OperationID := "search", Parameters := [bodyParam], RequestBody := some optionalBody }

/-! ## The operations of a spec -/

/-- The operations that a path item defines under the seven HTTP methods. -/
def definedOperations (p : PathItem) : List Operation :=
  [p.Get, p.Post, p.Put, p.Delete, p.Patch, p.Options, p.Head].filterMap id

/-- The operations defined over all paths, path by path. -/
def allOperations : List (String × PathItem) → List Operation
  | [] => []
  | (_, pathItem) :: rest => definedOperations pathItem ++ allOperations rest

/-- The non-empty operation identifiers of a list of operations. -/
def operationIds (ops : List Operation) : List String :=
  (ops.map fun op => op.OperationID).filter fun id => id ≠ ""

/-- The operation `listPets` of the generator's test. -/
def listPetsOp : Operation :=
  { OperationID := "listPets", Summary := "List all pets", Parameters := [limitParam] }

/-- An operation without an identifier. -/
def anonymousOp : Operation :=
  { Summary := "Health check" }

/-- The spec of the generator's test, with an anonymous operation added. -/
def petsSpec : OpenAPISpec :=
  { Paths := [("/pets", { Get := some listPetsOp, Post := some createPetOp }),
      ("/health", { Get := some anonymousOp })] }

/-- An operation with the identifier "dup". -/
def dupFirstOp : Operation :=
  { OperationID := "dup", Summary := "first" }

/-- Another operation with the identifier "dup". -/
def dupSecondOp : Operation :=
  { OperationID := "dup", Summary := "second" }

/-- A spec in which the two operations of one path carry the identifier "dup". -/
def dupSpec : OpenAPISpec :=
  { Paths := [("/pets", { Get := some dupFirstOp, Post := some dupSecondOp })] }

/-- The tool that `GenerateTools` builds for `listPetsOp` under `/pets`. -/
def listPetsTool : MCPTool :=
  { Name := "listPets"
    Description := "List all pets"
    InputSchema := .obj [("type", .str "object"),
      ("properties", .obj [("limit", .obj [("type", .str "integer"),
        ("description", .str "")])])] }

/-- The tool that `GenerateTools` builds for `createPetOp` under `/pets`. -/
def createPetTool : MCPTool :=
  { Name := "createPet"
    Description := "Create a pet"
    InputSchema := .obj [("type", .str "object"),
      ("properties", .obj [("body", .obj [("type", .str "object"),
        ("properties", .obj [("name", .obj [("type", .str "string")]),
          ("tag", .obj [("type", .str "string")])]),
        ("required", .arr [.str "name"])])]),
      ("required", .arr [.str "body"])] }

/-- The generator of `petsSpec` after `GenerateTools`. -/
def petsGenerator : MCPGenerator :=
  { spec := petsSpec, tools := [listPetsTool, createPetTool], baseURL := "" }

/-- The input schema of an operation without parameters or request body. -/
def emptyInputSchema : Value :=
  .obj [("type", .str "object"), ("properties", .obj [])]

/-- The input schema of `getPetOp`: three properties, and "petId" required. -/
def getPetInputSchema : Value :=
  .obj [("type", .str "object"),
    ("properties", .obj [("petId", .obj [("type", .str "string"), ("description", .str "")]),
      ("limit", .obj [("type", .str "integer"), ("description", .str "")]),
      ("header_X-Trace", .obj [("type", .str "string"), ("description", .str "")])]),
    ("required", .arr [.str "petId"])]

/-- The generator of `dupSpec` after `GenerateTools`: two tools named "dup". -/
def dupGenerator : MCPGenerator :=
  { spec := dupSpec
    tools := [{ Name := "dup", Description := "first", InputSchema := emptyInputSchema },
      { Name := "dup", Description := "second", InputSchema := emptyInputSchema }]
    baseURL := "" }

/-! ## The parts of a fragment -/

/-- The fields that `convertSchema` writes for every node without a `$ref`
(lines 135-149): "type", then "format", "description" and "enum" when non-empty. -/
def commonFields (schema : Schema) : List (String × Value) :=
  let result : List (String × Value) := [("type", .str schema.Type_)]
  let result :=
    if schema.Format ≠ "" then mapSet "format" (.str schema.Format) result else result
  let result :=
    if schema.Description ≠ "" then mapSet "description" (.str schema.Description) result
    else result
  if schema.Enum.length > 0 then mapSet "enum" (.arr schema.Enum) result else result

/-- The object schema of the generator's test: properties `name` and `age`, `name`
required. -/
def personSchema : Schema :=
  { emptySchema with
    Type_ := "object"
    Properties := [("name", some { emptySchema with Type_ := "string" }),
      ("age", some { emptySchema with Type_ := "integer" })]
    Required := ["name"] }

/-- The array schema of the generator's test: an array of strings. -/
def stringArraySchema : Schema :=
  { emptySchema with Type_ := "array", Items := some { emptySchema with Type_ := "string" } }

/-- A string schema that carries properties, a required list and an items schema all the
same. -/
def ladenStringSchema : Schema :=
  { emptySchema with
    Type_ := "string"
    Format := "date"
    Properties := [("name", some { emptySchema with Type_ := "string" })]
    Required := ["name"]
    Items := some { emptySchema with Type_ := "string" } }

/-! ## JSON payloads (`encoding/json`, `generator/types.go`) -/

/-- A Go `json.RawMessage`, told apart by what `encoding/json` makes of its bytes: no
bytes at all (a nil or empty message, as left by a missing field), bytes that are not a
JSON text (with the error text of the decoder), or the JSON text of a value. -/
inductive RawMessage where
  | absent
  | malformed (err : String)
  | json (v : Value)

/-- Go `generator.MCPRequest`. -/
structure MCPRequest where
  Jsonrpc : String := ""
  Method : String := ""
  Params : RawMessage := .absent
  ID : Value := .null

/-- Go `generator.MCPError`, without `Data`, which the server never sets. -/
structure MCPError where
  Code : Int
  Message : String

/-- Go `generator.MCPResponse`. -/
structure MCPResponse where
  Jsonrpc : String
  Result : RawMessage
  Error : Option MCPError
  ID : Value

/-- Go `generator.CallToolParams`. -/
structure CallToolParams where
  Name : String
  Arguments : RawMessage

/-- Go `generator.ToolContent`. The field `Type` is spelled `Type_`. -/
structure ToolContent where
  Type_ : String
  Text : String

/-- Go `generator.CallToolResult`. -/
structure CallToolResult where
  Content : List ToolContent

/-- The name `encoding/json` gives the kind of a JSON value in its error texts. -/
def jsonKind : Value → String
  | .null => "null"
  | .bool _ => "bool"
  | .num _ => "number"
  | .str _ => "string"
  | .arr _ => "array"
  | .obj _ => "object"

/-- The key of a JSON member as `encoding/json` compares it with a struct field name:
letter case is ignored. Written out for ASCII letters; Go also folds U+017F to `s`. -/
def foldKey (key : String) : String :=
  String.mk (key.data.map Char.toLower)

/-- The members of a JSON object decoded into a `CallToolParams`, in the order of the
text: `name` takes a string and ignores null, `arguments` takes any value as raw bytes,
other members are skipped. A member of the wrong kind is recorded as the error, and the
first such error is the one `json.Unmarshal` returns. -/
def decodeCallToolFields :
    List (String × Value) → CallToolParams → Option String → CallToolParams × Option String
  | [], params, err => (params, err)
  | (key, value) :: rest, params, err =>
    if foldKey key = "name" then
      match value with
      | .str s => decodeCallToolFields rest { params with Name := s } err
      | .null => decodeCallToolFields rest params err
      | v =>
        decodeCallToolFields rest params
          (match err with
            | some e => some e
            | none =>
              some ("json: cannot unmarshal " ++ jsonKind v ++
                " into Go struct field CallToolParams.name of type string"))
    else if foldKey key = "arguments" then
      decodeCallToolFields rest { params with Arguments := .json value } err
    else decodeCallToolFields rest params err

/-- Go `json.Unmarshal(raw, &params)` for `var params generator.CallToolParams`: the
decoded value, or the text of the error. JSON null leaves the zero value and is no
error. -/
def unmarshalCallToolParams : RawMessage → Except String CallToolParams
  | .absent => .error "unexpected end of JSON input"
  | .malformed err => .error err
  | .json .null => .ok { Name := "", Arguments := .absent }
  | .json (.obj fields) =>
    match decodeCallToolFields fields { Name := "", Arguments := .absent } none with
    | (params, none) => .ok params
    | (_, some err) => .error err
  | .json v =>
    .error ("json: cannot unmarshal " ++ jsonKind v ++
      " into Go value of type generator.CallToolParams")

/-- The least magnitude of a JSON number that has no float64, 2^1024 - 2^970: from there
on `strconv.ParseFloat` reports a range error. -/
def float64Limit : Nat :=
  (2 ^ 54 - 1) * (2 ^ 194) ^ 5

/-- The number of binary digits of `a`, for an `a` of at most `fuel` digits. -/
def bitLength : Nat → Nat → Nat
  | 0, _ => 0
  | fuel + 1, a => if a = 0 then 0 else bitLength fuel (a / 2) + 1

/-- The float64 nearest to a natural number below `float64Limit`: the number itself up to
2^53, above it the 53 leading binary digits, rounded to nearest, ties to even. -/
def roundFloat64 (a : Nat) : Nat :=
  if a < 2 ^ 53 then a
  else
    let e := bitLength 1024 a - 53
    let q := a / 2 ^ e
    let r := a % 2 ^ e
    let half := 2 ^ (e - 1)
    let q := if r > half ∨ (r = half ∧ q % 2 = 1) then q + 1 else q
    q * 2 ^ e

mutual
/-- Go `json.Unmarshal` of a JSON value into an `interface{}`. A number becomes the
nearest float64, and is an error when it is out of the range of float64; an array becomes
a slice and an object a map, member by member. `target` is how the error text names the
destination; the number is printed in decimal digits. -/
def decodeInterface (target : String) : Value → Except String Value
  | .num n =>
    if n.natAbs ≥ float64Limit then
      .error ("json: cannot unmarshal number " ++ toString n ++ " into " ++ target ++
        " of type float64")
    else if n < 0 then .ok (.num (-(roundFloat64 n.natAbs : Int)))
    else .ok (.num (roundFloat64 n.natAbs : Int))
  | .arr xs =>
    match decodeElements target xs with
    | .error e => .error e
    | .ok ys => .ok (.arr ys)
  | .obj fields =>
    match decodeMembers target fields [] with
    | .error e => .error e
    | .ok m => .ok (.obj m)
  | v => .ok v
/-- The elements of a JSON array decoded into a `[]interface{}`; the error is that of
the first element, in the order of the text, that does not decode. -/
def decodeElements (target : String) : List Value → Except String (List Value)
  | [] => .ok []
  | x :: xs =>
    match decodeInterface target x, decodeElements target xs with
    | .ok y, .ok ys => .ok (y :: ys)
    | .error e, _ => .error e
    | _, .error e => .error e
/-- The members of a JSON object decoded into a `map[string]interface{}`, in the order
of the text: a later member with the same key overwrites an earlier one. The error is that
of the first member that does not decode. -/
def decodeMembers (target : String) :
    List (String × Value) → List (String × Value) → Except String (List (String × Value))
  | [], m => .ok m
  | (key, value) :: rest, m =>
    match decodeInterface target value with
    | .error e => .error e
    | .ok v => decodeMembers target rest (mapSet key v m)
end

/-- Go `json.Unmarshal(raw, &args)` for `var args map[string]interface{}`: the decoded
map, or the text of the error. JSON null leaves the nil map, which reads as the empty
map, and is no error. -/
def unmarshalArguments : RawMessage → Except String (List (String × Value))
  | .absent => .error "unexpected end of JSON input"
  | .malformed err => .error err
  | .json .null => .ok []
  | .json (.obj fields) => decodeMembers "Go value" fields []
  | .json v =>
    .error ("json: cannot unmarshal " ++ jsonKind v ++
      " into Go value of type map[string]interface {}")

/-! ## The tool executor (`generator/mcp.go`, `ExecuteTool`) -/

/-- The request that `ExecuteTool` hands to `client.Do`: the method and the URL given to
`http.NewRequest`, and the pairs added to the query with `q.Add`, in order. -/
structure HTTPRequest where
  Method : String
  URL : String
  Query : List (String × String)

/-- The library calls whose outcome the embedding takes as given. -/
structure Library where
  /-- Go `fmt.Sprint(v)` for a number, a slice or a map. -/
  Sprint : Value → String
  /-- Go `http.NewRequest(method, url, nil)`: the text of its error, when it fails. -/
  NewRequest : String → String → Option String
  /-- Go `client.Do(req)`: the status code of the response, or the text of the error. -/
  Do : HTTPRequest → Except String Nat

/-- What the server does to the outside, in order. -/
inductive Event where
  /-- A call of `ExecuteTool`. -/
  | executeTool (name : String) (arguments : RawMessage)
  /-- A call of `http.NewRequest`. -/
  | newRequest (method url : String)
  /-- A call of `client.Do`. -/
  | clientDo (req : HTTPRequest)

/-- Go `fmt.Sprint(v)` on a decoded JSON value. -/
def fmtSprint (lib : Library) : Value → String
  | .null => "<nil>"
  | .bool true => "true"
  | .bool false => "false"
  | .str s => s
  | v => lib.Sprint v

/-- The first occurrence of `old` in a character list replaced by `new`. -/
def replaceFirstChars (old new : List Char) : List Char → List Char
  | [] => if startsWith old [] then new else []
  | c :: cs =>
    if startsWith old (c :: cs) then new ++ (c :: cs).drop old.length
    else c :: replaceFirstChars old new cs

/-- Go `strings.Replace(s, old, new, 1)`. -/
def stringsReplaceFirst (s old new : String) : String :=
  String.mk (replaceFirstChars old.data new.data s.data)

/-- The inner loop of the lookup of `ExecuteTool` (lines 181-188). -/
def findInOperations (name : String) :
    List (String × Operation) → Option (String × Operation)
  | [] => none
  | (m, op) :: rest => if op.OperationID = name then some (m, op) else findInOperations name rest

/-- The lookup of `ExecuteTool` (lines 179-192): the path, method and operation of the
first operation whose operationId is `name`, when the maps are visited as they are
written (`findOperationIn` is the lookup for any order). -/
def findOperation (name : String) :
    List (String × PathItem) → Option (String × String × Operation)
  | [] => none
  | (p, pathItem) :: rest =>
    match findInOperations name (GetOperations pathItem) with
    | some (m, op) => some (p, m, op)
    | none => findOperation name rest

/-- The loop of `ExecuteTool` over the path parameters (lines 204-212), threading `url`
and `args`. -/
def substitutePathParams (lib : Library) :
    List Parameter → String → List (String × Value) → String × List (String × Value)
  | [], url, args => (url, args)
  | param :: rest, url, args =>
    if param.In = "path" then
      match mapGet param.Name args with
      | some value =>
        substitutePathParams lib rest
          (stringsReplaceFirst url ("\x7b" ++ param.Name ++ "\x7d") (fmtSprint lib value))
          (mapDelete param.Name args)
      | none => substitutePathParams lib rest url args
    else substitutePathParams lib rest url args

/-- The loop of `ExecuteTool` over the query parameters (lines 220-227), threading the
added pairs and `args`. -/
def addQueryParams (lib : Library) :
    List Parameter → List (String × String) → List (String × Value) →
    List (String × String) × List (String × Value)
  | [], q, args => (q, args)
  | param :: rest, q, args =>
    if param.In = "query" then
      match mapGet param.Name args with
      | some value =>
        addQueryParams lib rest (q ++ [(param.Name, fmtSprint lib value)])
          (mapDelete param.Name args)
      | none => addQueryParams lib rest q args
    else addQueryParams lib rest q args

/-- Go `(*MCPGenerator).ExecuteTool`: the calls of `http.NewRequest` and `client.Do` it
makes, and its result, an error being given by its text, in the run that visits the maps
as they are written (`ExecuteToolIn` is the run for any order). -/
def ExecuteTool (lib : Library) (g : MCPGenerator) (name : String) (arguments : RawMessage) :
    List Event × Except String CallToolResult :=
  match findOperation name g.spec.Paths with
  | none => ([], .error ("tool not found: " ++ name))
  | some (path, method, operation) =>
    match unmarshalArguments arguments with
    | .error err => ([], .error ("invalid arguments: " ++ err))
    | .ok args =>
      let url := g.baseURL ++ path
      let (url, args) := substitutePathParams lib operation.Parameters url args
      match lib.NewRequest (stringsToUpper method) url with
      | some err =>
        ([.newRequest (stringsToUpper method) url],
          .error ("failed to create request: " ++ err))
      | none =>
        let (q, _) := addQueryParams lib operation.Parameters [] args
        let req : HTTPRequest := { Method := stringsToUpper method, URL := url, Query := q }
        match lib.Do req with
        | .error err =>
          ([.newRequest (stringsToUpper method) url, .clientDo req],
            .error ("request failed: " ++ err))
        | .ok statusCode =>
          ([.newRequest (stringsToUpper method) url, .clientDo req],
            .ok { Content :=
              [{ Type_ := "text"
                 Text := "HTTP " ++ toString statusCode ++ " response received" }] })

/-! ## The dispatcher (`server/server.go`) -/

/-- Go `server.MCPServer`. -/
structure MCPServer where
  generator : MCPGenerator
  spec : OpenAPISpec

/-- Go `json.Marshal` of a `generator.MCPTool`. -/
def toolJSON (tool : MCPTool) : Value :=
  .obj [("name", .str tool.Name), ("description", .str tool.Description),
    ("inputSchema", tool.InputSchema)]

/-- Go `json.Marshal` of a `generator.CallToolResult`. -/
def callToolResultJSON (result : CallToolResult) : Value :=
  .obj [("content", .arr (result.Content.map fun c =>
    Value.obj [("type", .str c.Type_), ("text", .str c.Text)]))]

/-- Go `(*MCPServer).handleInitialize`. -/
def handleInitialize (request : MCPRequest) : MCPResponse :=
  { Jsonrpc := "2.0"
    Result := .json (.obj [("protocolVersion", .str "2025-06-18"),
      ("capabilities", .obj [("tools", .obj [])]),
      ("serverInfo", .obj [("name", .str "specmill"), ("version", .str "1.0.0")])])
    Error := none
    ID := request.ID }

/-- Go `(*MCPServer).handleListTools`. -/
def handleListTools (s : MCPServer) (request : MCPRequest) : MCPResponse :=
  { Jsonrpc := "2.0"
    Result := .json (.obj [("tools", .arr ((GetTools s.generator).map toolJSON))])
    Error := none
    ID := request.ID }

/-- Go `(*MCPServer).handleCallTool`, with the events of the call. -/
def handleCallTool (lib : Library) (s : MCPServer) (request : MCPRequest) :
    List Event × MCPResponse :=
  match unmarshalCallToolParams request.Params with
  | .error _ =>
    ([], { Jsonrpc := "2.0", Result := .absent
           Error := some { Code := -32602, Message := "Invalid params" }
           ID := request.ID })
  | .ok params =>
    match ExecuteTool lib s.generator params.Name params.Arguments with
    | (events, .error err) =>
      (.executeTool params.Name params.Arguments :: events,
        { Jsonrpc := "2.0", Result := .absent
          Error := some { Code := -32603, Message := err }
          ID := request.ID })
    | (events, .ok result) =>
      (.executeTool params.Name params.Arguments :: events,
        { Jsonrpc := "2.0", Result := .json (callToolResultJSON result)
          Error := none
          ID := request.ID })

/-- Go `(*MCPServer).handleRequest`, with the events of the call. -/
def handleRequest (lib : Library) (s : MCPServer) (request : MCPRequest) :
    List Event × MCPResponse :=
  if request.Method = "initialize" then ([], handleInitialize request)
  else if request.Method = "tools/list" then ([], handleListTools s request)
  else if request.Method = "tools/call" then handleCallTool lib s request
  else
    ([], { Jsonrpc := "2.0", Result := .absent
           Error := some { Code := -32601, Message := "Method not found" }
           ID := request.ID })

/-! ## Example servers and requests -/

/-- A library in which every request is built and answered with status 200. -/
def okLibrary : Library :=
  { Sprint := fun _ => "", NewRequest := fun _ _ => none, Do := fun _ => .ok 200 }

/-- The server of `petsSpec`, after `GenerateTools`. -/
def petsServer : MCPServer :=
  { generator := petsGenerator, spec := petsSpec }

/-- The server of `dupSpec`, after `GenerateTools`; every operation has an identifier. -/
def dupServer : MCPServer :=
  { generator := dupGenerator, spec := dupSpec }

/-- The request `{"jsonrpc":"2.0","method":"invalid/method","params":{},"id":3}` of the
server's test. -/
def invalidMethodRequest : MCPRequest :=
  { Jsonrpc := "2.0", Method := "invalid/method", Params := .json (.obj []), ID := .num 3 }

/-- An `initialize` request that declares another protocol version. -/
def initializeRequest : MCPRequest :=
  { Jsonrpc := "2.0", Method := "initialize"
    Params := .json (.obj [("protocolVersion", .str "2024-11-05")]), ID := .str "init-1" }

/-- Whether a member of a JSON object is a `name` that is neither a string nor null. -/
def nameMismatch (field : String × Value) : Bool :=
  foldKey field.1 = "name" &&
    (match field.2 with
      | .str _ => false
      | .null => false
      | _ => true)

/-- The params payloads that do not decode into a `CallToolParams`: no payload, bytes
that are not JSON, a JSON string, number, boolean or array, and an object with a `name`
member that is neither a string nor null. -/
def rejectedParams : RawMessage → Bool
  | .absent => true
  | .malformed _ => true
  | .json .null => false
  | .json (.obj fields) => fields.any nameMismatch
  | .json _ => true

/-- The request `{"jsonrpc":"2.0","method":"tools/call","params":"invalid","id":4}` of
the server's test. -/
def invalidParamsRequest : MCPRequest :=
  { Jsonrpc := "2.0", Method := "tools/call", Params := .json (.str "invalid"), ID := .num 4 }

/-- A `tools/call` request whose params is the object
`{"name":null,"arguments":{}}`: its name is not a string. -/
def nullNameRequest : MCPRequest :=
  { Jsonrpc := "2.0", Method := "tools/call"
    Params := .json (.obj [("name", .null), ("arguments", .obj [])]), ID := .num 5 }

/-- The spec `petsSpec` with a server. -/
def shopSpec : OpenAPISpec :=
  { petsSpec with Servers := [{ URL := "https://api.example.com" }] }

/-- The generator of `shopSpec` after `GenerateTools`. -/
def shopGenerator : MCPGenerator :=
  { spec := shopSpec, tools := [listPetsTool, createPetTool],
    baseURL := "https://api.example.com" }

/-- The server of `shopSpec`, after `GenerateTools`. -/
def shopServer : MCPServer :=
  { generator := shopGenerator, spec := shopSpec }

/-- A `tools/call` request for the empty tool name: `{"name":"","arguments":{}}`. -/
def emptyNameRequest : MCPRequest :=
  { Jsonrpc := "2.0", Method := "tools/call"
    Params := .json (.obj [("name", .str ""), ("arguments", .obj [])]), ID := .num 6 }

/-- A `tools/call` request for a tool that `petsSpec` does not have. -/
def unknownToolRequest : MCPRequest :=
  { Jsonrpc := "2.0", Method := "tools/call"
    Params := .json (.obj [("name", .str "deletePet"), ("arguments", .obj [])]), ID := .num 7 }

/-- The arguments payloads that do not decode into a `map[string]interface{}`: no
payload, bytes that are not JSON, and a JSON array, string, number or boolean. -/
def rejectedArguments : RawMessage → Bool
  | .absent => true
  | .malformed _ => true
  | .json .null => false
  | .json (.obj _) => false
  | .json _ => true

/-- A spec with one server and the operation `GET /pets/{petId}`. -/
def storeSpec : OpenAPISpec :=
  { Servers := [{ URL := "https://api.example.com" }]
    Paths := [("/pets/{petId}", { Get := some getPetOp })] }

/-- The required path parameter `version`. -/
def versionParam : Parameter :=
  { Name := "version", In := "path", Required := true }

/-- The operation `GET /docs/{version}`. -/
def docsOp : Operation :=
  { OperationID := "getDocs", Parameters := [versionParam] }

/-- A spec whose server URL carries the placeholder `{version}`, as does its path. -/
def versionedSpec : OpenAPISpec :=
  { Servers := [{ URL := "https://api.example.com/{version}" }]
    Paths := [("/docs/{version}", { Get := some docsOp })] }

/-- The seven method keys that `GetOperations` knows. -/
def methodKeys : List String :=
  ["get", "post", "put", "delete", "patch", "options", "head"]

/-- The method keys of the operations that are present in a path item, in the order of
the seven methods. -/
def presentKeys (p : PathItem) : List String :=
  ([("get", p.Get.isSome), ("post", p.Post.isSome), ("put", p.Put.isSome),
    ("delete", p.Delete.isSome), ("patch", p.Patch.isSome), ("options", p.Options.isSome),
    ("head", p.Head.isSome)].filter fun e => e.2).map Prod.fst

/-- The path item of the parser's test: `get`, `post` and `put` are present. -/
def testPathItem : PathItem :=
  { Get := some { OperationID := "getTest" }, Post := some { OperationID := "postTest" },
    Put := some { OperationID := "putTest" } }

/-- A spec whose component table registers the name `Nothing` with a nil schema. -/
def nothingSpec : OpenAPISpec :=
  { Components := some { Schemas := some [("Nothing", none)] } }

/-- A query parameter whose schema is a `$ref` to the component `Nothing`. -/
def nothingParam : Parameter :=
  { Name := "q", In := "query", Description := "free text",
    Schema := some { emptySchema with Ref := "#/components/schemas/Nothing" } }

/-- An operation with the parameter `nothingParam`. -/
def nothingOp : Operation :=
  { OperationID := "search", Parameters := [nothingParam] }

/-- A query parameter with a described schema and an empty description of its own. -/
def describedParam : Parameter :=
  { Name := "tag", In := "query", Description := "",
    Schema := some { emptySchema with Type_ := "string", Description := "a tag" } }

/-- An operation with the parameters `describedParam` and `traceParam`. -/
def describedParamOp : Operation :=
  { OperationID := "findByTag", Parameters := [describedParam, traceParam] }

/-- The property that `generateInputSchema` builds from the translation of a parameter's
schema (lines 76-81): the fragment, or `{"type":"string"}` when the translation is nil,
with "description" set to the parameter's description. -/
def paramProperty (param : Parameter) (converted : Value) : Value :=
  match converted with
  | .obj fields => .obj (mapSet "description" (.str param.Description) fields)
  | _ => .obj (mapSet "description" (.str param.Description) [("type", .str "string")])

/-- Whether `n` is the name of a declared parameter in "path" or "query". -/
def declaredName (params : List Parameter) (n : String) : Prop :=
  ∃ p ∈ params, (p.In = "path" ∨ p.In = "query") ∧ p.Name = n

/-- The part of `ExecuteTool` after the arguments are read (lines 214-243), as a function
of the method, the URL and the query pairs: the request is built, sent, and its status
reported. -/
def sendRequest (lib : Library) (method url : String) (q : List (String × String)) :
    List Event × Except String CallToolResult :=
  match lib.NewRequest method url with
  | some err => ([.newRequest method url], .error ("failed to create request: " ++ err))
  | none =>
    match lib.Do { Method := method, URL := url, Query := q } with
    | .error err =>
      ([.newRequest method url, .clientDo { Method := method, URL := url, Query := q }],
        .error ("request failed: " ++ err))
    | .ok statusCode =>
      ([.newRequest method url, .clientDo { Method := method, URL := url, Query := q }],
        .ok { Content :=
          [{ Type_ := "text"
             Text := "HTTP " ++ toString statusCode ++ " response received" }] })

/-- The arguments `{"petId":"42"}`. -/
def petIdArguments : RawMessage :=
  .json (.obj [("petId", .str "42")])

/-- The arguments `{"petId":"42","verbose":true,"X-Trace":"abc"}`: the names `verbose`
and `X-Trace` are no path or query parameter of `getPetOp`. -/
def petIdAndMoreArguments : RawMessage :=
  .json (.obj [("petId", .str "42"), ("verbose", .bool true), ("X-Trace", .str "abc")])

/-! ## The dispatcher loop (`server/server.go`, `Start`) -/

/-- Go `bufio.MaxScanTokenSize`, the size of the buffer of a `bufio.Scanner` that was not
given another one. -/
def maxScanTokenSize : Nat :=
  64 * 1024

/-- One line of standard input: the number of its bytes up to the line feed, and what
`encoding/json` makes of `scanner.Text()` (`absent` for the empty line). -/
structure Line where
  size : Nat
  text : RawMessage

/-- The members of a JSON object decoded into an `MCPRequest`, in the order of the text:
`jsonrpc` and `method` take a string and ignore null, `params` takes any value as raw
bytes, `id` takes any value, decoded into an `interface{}`, other members are skipped. A
member of the wrong kind, or an `id` with a number out of the range of float64, is
recorded as the error, and the first such error is the one `json.Unmarshal` returns. -/
def decodeRequestFields :
    List (String × Value) → MCPRequest → Option String → MCPRequest × Option String
  | [], request, err => (request, err)
  | (key, value) :: rest, request, err =>
    if foldKey key = "jsonrpc" then
      match value with
      | .str s => decodeRequestFields rest { request with Jsonrpc := s } err
      | .null => decodeRequestFields rest request err
      | v =>
        decodeRequestFields rest request
          (match err with
            | some e => some e
            | none =>
              some ("json: cannot unmarshal " ++ jsonKind v ++
                " into Go struct field MCPRequest.jsonrpc of type string"))
    else if foldKey key = "method" then
      match value with
      | .str s => decodeRequestFields rest { request with Method := s } err
      | .null => decodeRequestFields rest request err
      | v =>
        decodeRequestFields rest request
          (match err with
            | some e => some e
            | none =>
              some ("json: cannot unmarshal " ++ jsonKind v ++
                " into Go struct field MCPRequest.method of type string"))
    else if foldKey key = "params" then
      decodeRequestFields rest { request with Params := .json value } err
    else if foldKey key = "id" then
      match decodeInterface "Go struct field MCPRequest.id" value with
      | .ok v => decodeRequestFields rest { request with ID := v } err
      | .error e =>
        decodeRequestFields rest request
          (match err with
            | some e' => some e'
            | none => some e)
    else decodeRequestFields rest request err

/-- Go `json.Unmarshal([]byte(line), &request)` for `var request generator.MCPRequest`:
the decoded request, or the text of the error. -/
def unmarshalRequest : RawMessage → Except String MCPRequest
  | .absent => .error "unexpected end of JSON input"
  | .malformed err => .error err
  | .json .null => .ok {}
  | .json (.obj fields) =>
    match decodeRequestFields fields {} none with
    | (request, none) => .ok request
    | (_, some err) => .error err
  | .json v =>
    .error ("json: cannot unmarshal " ++ jsonKind v ++
      " into Go value of type generator.MCPRequest")

/-- The response that `writeError(writer, nil, -32700, "Parse error")` writes. -/
def parseErrorResponse : MCPResponse :=
  { Jsonrpc := "2.0", Result := .absent
    Error := some { Code := -32700, Message := "Parse error" }, ID := .null }

/-- What a run of `Start` leaves: the responses written to standard output, one line
each, the calls made to the outside, and the error that `Start` returns, if any. -/
structure Served where
  output : List MCPResponse
  events : List Event
  error : Option String

/-- Go `(*MCPServer).Start` on the lines of standard input. The scanner stops at a line
that does not fit its buffer; writing to standard output is taken to succeed. -/
def Start (lib : Library) (s : MCPServer) : List Line → Served
  | [] => { output := [], events := [], error := none }
  | line :: rest =>
    if line.size ≥ maxScanTokenSize then
      { output := [], events := []
        error := some "scanner error: bufio.Scanner: token too long" }
    else
      match line.text with
      | .absent => Start lib s rest
      | text =>
        match unmarshalRequest text with
        | .error _ =>
          let served := Start lib s rest
          { served with output := parseErrorResponse :: served.output }
        | .ok request =>
          let handled := handleRequest lib s request
          let served := Start lib s rest
          { served with
            output := handled.2 :: served.output
            events := handled.1 ++ served.events }

/-- Whether a line is not the empty line. -/
def Line.nonEmpty (line : Line) : Bool :=
  match line.text with
  | .absent => false
  | _ => true

/-- The response that a non-empty line is answered with: the parse error when the line
does not decode into a request, the response of `handleRequest` when it does. -/
def respond (lib : Library) (s : MCPServer) (line : Line) : MCPResponse :=
  match unmarshalRequest line.text with
  | .error _ => parseErrorResponse
  | .ok request => (handleRequest lib s request).2

/-- The line `{"jsonrpc":"2.0","method":"initialize","id":1}`. -/
def initializeLine : Line :=
  { size := 46
    text := .json (.obj [("jsonrpc", .str "2.0"), ("method", .str "initialize"),
      ("id", .num 1)]) }

/-- The empty line. -/
def emptyLine : Line :=
  { size := 0, text := .absent }

/-- The line `{"jsonrpc":`, which is not JSON. -/
def brokenLine : Line :=
  { size := 11, text := .malformed "unexpected end of JSON input" }

/-- The line `{"jsonrpc":"2.0","method":"ping","id":"a"}`. -/
def pingLine : Line :=
  { size := 42
    text := .json (.obj [("jsonrpc", .str "2.0"), ("method", .str "ping"),
      ("id", .str "a")]) }

/-- A line of 70000 bytes, more than the scanner's buffer holds. -/
def longLine : Line :=
  { size := 70000
    text := .json (.obj [("jsonrpc", .str "2.0"), ("method", .str "tools/list"),
      ("id", .num 2)]) }

/-! ## Reference cycles -/

/-- The fragment of a node without a `$ref` (lines 135-167), with the recursive call
passed in as `conv`. -/
def fragment (conv : Option Schema → Except Fault Value) (schema : Schema) :
    Except Fault Value :=
  match (if schema.Type_ = "object" ∧ schema.Properties.length > 0 then
      match convertProperties conv schema.Properties [] with
      | .error e => .error e
      | .ok properties =>
        if schema.Required.length > 0 then
          .ok (mapSet "required" (.arr (schema.Required.map Value.str))
            (mapSet "properties" (.obj properties) (commonFields schema)))
        else .ok (mapSet "properties" (.obj properties) (commonFields schema))
    else .ok (commonFields schema) : Except Fault (List (String × Value))) with
  | .error e => .error e
  | .ok result =>
    if schema.Type_ = "array" then
      match schema.Items with
      | some items =>
        match conv (some items) with
        | .error e => .error e
        | .ok v => .ok (.obj (mapSet "items" v result))
      | none => .ok (.obj result)
    else .ok (.obj result)

/-- The node `u` is `s` or lies inside `s`, under its properties or its items. -/
inductive Within : Schema → Schema → Prop
  | self (s : Schema) : Within s s
  | property {u t s : Schema} {name : String} :
      Within u t → (name, some t) ∈ s.Properties → Within u s
  | items {u t s : Schema} : Within u t → s.Items = some t → Within u s

/-- The `$ref` of the node names the component `M`: its last segment is `M` and the one
before is "schemas". -/
def RefersTo (u : Schema) (M : String) : Prop :=
  ∃ pre, stringsSplit u.Ref '/' = pre ++ ["schemas", M]

/-- The component table has no reference cycle, followed or not: the component names can
be ranked so that every reference inside a registered schema to a registered component
goes down in rank. -/
def NoRefCycle (spec : OpenAPISpec) : Prop :=
  ∃ rank : String → Nat, ∀ (N M : String) (S u : Schema) (T : Option Schema),
    lookupComponent spec N = some (some S) → Within u S → RefersTo u M →
    lookupComponent spec M = some T → rank M < rank N

/-- A call of `convertSchema` on the node `s` makes a call on the node `t`, unless it
panics before: `s` is a `$ref` that resolves to `t`, or an object with the property `t`,
or an array of `t`. -/
inductive Calls (spec : OpenAPISpec) : Schema → Schema → Prop
  | ref {s t : Schema} {pre : List String} {N : String} :
      stringsSplit s.Ref '/' = pre ++ ["schemas", N] →
      lookupComponent spec N = some (some t) → Calls spec s t
  | property {s t : Schema} {name : String} :
      s.Ref = "" → s.Type_ = "object" → (name, some t) ∈ s.Properties → Calls spec s t
  | items {s t : Schema} :
      s.Ref = "" → s.Type_ = "array" → s.Items = some t → Calls spec s t

/-- The call of `convertSchema` on the node ends, with a fragment or a panic, within
some depth of the call stack. -/
def Terminates (spec : OpenAPISpec) (node : Option Schema) : Prop :=
  ∃ fuel, convertSchema spec fuel node ≠ .error .outOfFuel

/-- A spec whose component `A` is a `$ref` to itself. -/
def loopSpec : OpenAPISpec :=
  { Components := some
      { Schemas := some [("A", some { emptySchema with Ref := "#/components/schemas/A" })] } }

/-- The node `{$ref: "#/components/schemas/A"}`. -/
def loopRef : Schema :=
  { emptySchema with Ref := "#/components/schemas/A" }

/-! ## The order of `range` -/

/-- The order in which the `range` loops of one call visit their maps: for the map of the
paths, and for the map of the operations of each path, given by its entries, the entries
in the order of the visit. Go leaves the order open, and it changes from one call to the
next. -/
structure RangeOrder where
  paths : List (String × PathItem) → List (String × PathItem)
  operations : String → List (String × Operation) → List (String × Operation)

/-- A visit of a map meets every entry once. -/
def RangeOrder.Valid (order : RangeOrder) : Prop :=
  (∀ m, (order.paths m).Perm m) ∧ ∀ path m, (order.operations path m).Perm m

/-- The visit of the entries as they are written. -/
def writtenOrder : RangeOrder :=
  { paths := id, operations := fun _ => id }

/-- The visit of the entries as they are written, from the last to the first. -/
def reversedOrder : RangeOrder :=
  { paths := List.reverse, operations := fun _ => List.reverse }

/-- The outer loop of `GenerateTools` over the paths in the order of their visit
(lines 34-49), the operations of each path being visited in the given order. -/
def generateAllToolsIn (order : RangeOrder) (spec : OpenAPISpec) (fuel : Nat) :
    List (String × PathItem) → List MCPTool → Except Fault (List MCPTool)
  | [], tools => .ok tools
  | (path, pathItem) :: rest, tools =>
    match generatePathTools spec fuel path (order.operations path (GetOperations pathItem))
        tools with
    | .error e => .error e
    | .ok tools => generateAllToolsIn order spec fuel rest tools

/-- Go `(*MCPGenerator).GenerateTools` when its `range` loops visit the maps in the given
order: the generator after the call. -/
def GenerateToolsIn (order : RangeOrder) (g : MCPGenerator) (fuel : Nat) :
    Except Fault MCPGenerator :=
  match generateAllToolsIn order g.spec fuel (order.paths g.spec.Paths) g.tools with
  | .error e => .error e
  | .ok tools => .ok { g with tools := tools }

/-- The operations of the paths, each with its path and its method, path by path, the
operations of each path in the order of their visit. -/
def visitedOperations (order : RangeOrder) :
    List (String × PathItem) → List (String × String × Operation)
  | [] => []
  | (path, pathItem) :: rest =>
    (order.operations path (GetOperations pathItem)).map (fun e => (path, e.1, e.2)) ++
      visitedOperations order rest

/-- The tool is the one that `GenerateTools` builds from the operation under its path and
method (lines 41-45). -/
def BuiltFrom (spec : OpenAPISpec) (fuel : Nat) (entry : String × String × Operation)
    (tool : MCPTool) : Prop :=
  tool.Name = entry.2.2.OperationID ∧
  tool.Description = generateDescription entry.2.2 entry.2.1 entry.1 ∧
  generateInputSchema spec fuel entry.2.2 = .ok tool.InputSchema

/-- The translator returns a fragment, within the depth `fuel`, on the schema of every
parameter of the operation and on the schema of its attached request body. -/
def Translates (spec : OpenAPISpec) (fuel : Nat) (op : Operation) : Prop :=
  (∀ p ∈ op.Parameters, ∃ v, convertSchema spec fuel p.Schema = .ok v) ∧
  ∀ s, attachedBody op = some s → ∃ v, convertSchema spec fuel (some s) = .ok v

/-- The generator of `dupSpec` after a run of `GenerateTools` that visits `post` before
`get`: two tools named "dup". -/
def dupGeneratorReversed : MCPGenerator :=
  { spec := dupSpec
    tools := [{ Name := "dup", Description := "second", InputSchema := emptyInputSchema },
      { Name := "dup", Description := "first", InputSchema := emptyInputSchema }]
    baseURL := "" }

/-! ## `ExecuteTool` under any order of `range` -/

/-- The lookup of `ExecuteTool` (lines 179-192) over the paths in the order of their
visit, the operations of each path being visited in the given order: the path, method and
operation of the first operation met whose operationId is `name`. -/
def findOperationIn (order : RangeOrder) (name : String) :
    List (String × PathItem) → Option (String × String × Operation)
  | [] => none
  | (p, pathItem) :: rest =>
    match findInOperations name (order.operations p (GetOperations pathItem)) with
    | some (m, op) => some (p, m, op)
    | none => findOperationIn order name rest

/-- The part of `ExecuteTool` after the lookup (lines 198-243), on the operation that was
found. -/
def callOperation (lib : Library) (g : MCPGenerator) (path method : String)
    (operation : Operation) (arguments : RawMessage) :
    List Event × Except String CallToolResult :=
  match unmarshalArguments arguments with
  | .error err => ([], .error ("invalid arguments: " ++ err))
  | .ok args =>
    let url := g.baseURL ++ path
    let (url, args) := substitutePathParams lib operation.Parameters url args
    match lib.NewRequest (stringsToUpper method) url with
    | some err =>
      ([.newRequest (stringsToUpper method) url],
        .error ("failed to create request: " ++ err))
    | none =>
      let (q, _) := addQueryParams lib operation.Parameters [] args
      let req : HTTPRequest := { Method := stringsToUpper method, URL := url, Query := q }
      match lib.Do req with
      | .error err =>
        ([.newRequest (stringsToUpper method) url, .clientDo req],
          .error ("request failed: " ++ err))
      | .ok statusCode =>
        ([.newRequest (stringsToUpper method) url, .clientDo req],
          .ok { Content :=
            [{ Type_ := "text"
               Text := "HTTP " ++ toString statusCode ++ " response received" }] })

/-- Go `(*MCPGenerator).ExecuteTool` when the `range` loops of its lookup visit the maps
in the given order. -/
def ExecuteToolIn (order : RangeOrder) (lib : Library) (g : MCPGenerator) (name : String)
    (arguments : RawMessage) : List Event × Except String CallToolResult :=
  match findOperationIn order name (order.paths g.spec.Paths) with
  | none => ([], .error ("tool not found: " ++ name))
  | some (path, method, operation) => callOperation lib g path method operation arguments

/-- The spec `dupSpec` with a server. -/
def dupShopSpec : OpenAPISpec :=
  { dupSpec with Servers := [{ URL := "https://api.example.com" }] }

/-- The arguments `{"petId":"42","retries":1e400}`: the name `retries` is no parameter of
`getPetOp`, and its value is out of the range of float64. -/
def petIdAndHugeArguments : RawMessage :=
  .json (.obj [("petId", .str "42"), ("retries", .num (Int.ofNat ((10 ^ 200) * (10 ^ 200))))])

/-! ## The URL of a request -/

/-- Whether an occurrence of `old` in `base ++ s`, for some `s`, can begin inside `base`:
an end of `base` that is not empty starts with `old`, or is the start of `old`. -/
def meetsChars (old : List Char) : List Char → Bool
  | [] => false
  | c :: cs => startsWith old (c :: cs) || startsWith (c :: cs) old || meetsChars old cs

/-- Whether a replacement of `old` in a string that starts with `base` can touch
`base`. -/
def stringsMeets (base old : String) : Bool :=
  meetsChars old.data base.data

/-- The path template after the substitution as the spec words it: for each declared
path-location parameter that is present in the arguments, in the order of declaration, the
first occurrence of "{name}" is replaced by the textual form of its value. -/
def substitutedPath (lib : Library) (args : List (String × Value)) :
    List Parameter → String → String
  | [], path => path
  | param :: rest, path =>
    if param.In = "path" then
      match mapGet param.Name args with
      | some value =>
        substitutedPath lib args rest
          (stringsReplaceFirst path ("\x7b" ++ param.Name ++ "\x7d") (fmtSprint lib value))
      | none => substitutedPath lib args rest path
    else substitutedPath lib args rest path

/-- A spec whose server URL carries the placeholder `{tenant}`, which is the name of no
parameter, with the operation `GET /pets/{petId}`. -/
def tenantSpec : OpenAPISpec :=
  { Servers := [{ URL := "https://api.example.com/{tenant}" }]
    Paths := [("/pets/{petId}", { Get := some getPetOp })] }

/-! ## Chains of calls -/

/-- A call of `convertSchema` on the node starts a chain of calls that has no end: the
node belongs to a set of nodes each of which calls a node of the set. A component table
being finite, such a chain runs through a cycle of references that `convertSchema`
follows. -/
def Recurs (spec : OpenAPISpec) (s : Schema) : Prop :=
  ∃ C : Schema → Prop, C s ∧ ∀ x, C x → ∃ y, C y ∧ Calls spec x y

/-- Every `$ref` of the node and of the nodes inside it has at least two segments. -/
def TwoSegments (s : Schema) : Prop :=
  ∀ u, Within u s → u.Ref ≠ "" → 2 ≤ (stringsSplit u.Ref '/').length

/-- Every `$ref` in a registered component has at least two segments. -/
def WellFormedRefs (spec : OpenAPISpec) : Prop :=
  ∀ (N : String) (S : Schema), lookupComponent spec N = some (some S) → TwoSegments S

/-- The node `{$ref: "#/components/schemas/Node"}`. -/
def nodeRef : Schema :=
  { emptySchema with Ref := "#/components/schemas/Node" }

/-- A node without a type that has the property `next`, a `$ref` to `Node`. -/
def nodeSchema : Schema :=
  { emptySchema with Properties := [("next", some nodeRef)] }

/-- A spec whose component `Node` refers to itself under a property, and declares no
type. -/
def untypedSpec : OpenAPISpec :=
  { Components := some { Schemas := some [("Node", some nodeSchema)] } }

/-- The node `{$ref: "#/components/schemas/Tree"}`. -/
def treeRef : Schema :=
  { emptySchema with Ref := "#/components/schemas/Tree" }

/-- An object with the property `label`, a `$ref` of one segment, and the property
`child`, a `$ref` to `Tree`. -/
def treeSchema : Schema :=
  { emptySchema with
    Type_ := "object"
    Properties := [("label", some { emptySchema with Ref := "Label" }),
      ("child", some treeRef)] }

/-- A spec whose component `Tree` refers to itself under a property of an object, after
a property that is a `$ref` of one segment. -/
def brokenTreeSpec : OpenAPISpec :=
  { Components := some { Schemas := some [("Tree", some treeSchema)] } }

/-- The object `treeSchema` when its property `child` is read before its property
`label`. -/
def treeSchemaChildFirst : Schema :=
  { emptySchema with
    Type_ := "object"
    Properties := [("child", some treeRef),
      ("label", some { emptySchema with Ref := "Label" })] }

/-- The spec `brokenTreeSpec` when the property `child` of `Tree` is read before the
property `label`. -/
def brokenTreeSpecChildFirst : OpenAPISpec :=
  { Components := some { Schemas := some [("Tree", some treeSchemaChildFirst)] } }

/-! ## References in order -/

/-- The schemas that `generateInputSchema` hands to the translator for an operation:
those of its parameters, then the attached request body schema. -/
def operationSchemas (op : Operation) : List (Option Schema) :=
  op.Parameters.map (fun p => p.Schema) ++
    (match attachedBody op with
      | some s => [some s]
      | none => [])

/-- The references of the spec are in order for the generator: every `$ref` in a
registered component and in a schema of an operation that has an identifier has at least
two segments, and no registered component starts a chain of calls without end. -/
def SoundRefs (spec : OpenAPISpec) : Prop :=
  WellFormedRefs spec ∧
  (∀ (N : String) (S : Schema), lookupComponent spec N = some (some S) → ¬ Recurs spec S) ∧
  ∀ op ∈ allOperations spec.Paths, op.OperationID ≠ "" →
    ∀ s, some s ∈ operationSchemas op → TwoSegments s

/-- A required JSON request body whose schema is a `$ref` to the component `Pet`. -/
def adoptPetBody : RequestBody :=
  { Required := true, Content := some [("application/json", { Schema := some petRef })] }

/-- The operation `adoptPet`, whose request body is a `$ref` to the component `Pet`. -/
def adoptPetOp : Operation :=
  { OperationID := "adoptPet", RequestBody := some adoptPetBody }

/-- The spec `petSpec`, which registers the component `Pet`, with the operation
`POST /adoptions`. -/
def adoptSpec : OpenAPISpec :=
  { petSpec with Paths := [("/adoptions", { Post := some adoptPetOp })] }

/-! # Theorems -/

/-! ## Maps: lookups after writes -/

theorem mapGet_mapSet_self {α : Type} (k : String) (v : α) (m : List (String × α)) :
    mapGet k (mapSet k v m) = some v := by
  induction m with
  | nil => simp [mapSet, mapGet]
  | cons e rest ih =>
    obtain ⟨k', v'⟩ := e
    by_cases h : k' = k
    · simp [mapSet, mapGet, h]
    · simp [mapSet, mapGet, h, ih]

theorem mapGet_mapSet_ne {α : Type} (k k' : String) (v : α) (m : List (String × α))
    (hne : k' ≠ k) : mapGet k' (mapSet k v m) = mapGet k' m := by
  induction m with
  | nil => simp [mapSet, mapGet, Ne.symm hne]
  | cons e rest ih =>
    obtain ⟨k₀, v₀⟩ := e
    by_cases h : k₀ = k
    · subst h
      simp [mapSet, mapGet, Ne.symm hne]
    · by_cases h' : k₀ = k'
      · subst h'
        simp [mapSet, mapGet, h]
      · simp [mapSet, mapGet, h, h', ih]

theorem mem_mapKeys_mapSet {α : Type} (a k : String) (v : α) (m : List (String × α)) :
    a ∈ mapKeys (mapSet k v m) ↔ a = k ∨ a ∈ mapKeys m := by
  induction m with
  | nil => simp [mapSet, mapKeys]
  | cons e rest ih =>
    obtain ⟨k₀, v₀⟩ := e
    by_cases h : k₀ = k
    · subst h
      simp [mapSet, mapKeys]
    · have ih' : a ∈ List.map Prod.fst (mapSet k v rest) ↔ a = k ∨ a ∈ List.map Prod.fst rest := ih
      simp only [mapSet, h, if_false, mapKeys, List.map_cons, List.mem_cons, ih']
      tauto

theorem mapGet_isSome_iff {α : Type} (k : String) (m : List (String × α)) :
    (mapGet k m).isSome ↔ k ∈ mapKeys m := by
  induction m with
  | nil => simp [mapGet, mapKeys]
  | cons e rest ih =>
    obtain ⟨k₀, v₀⟩ := e
    have ih' : (mapGet k rest).isSome = true ↔ k ∈ List.map Prod.fst rest := ih
    by_cases h : k₀ = k
    · simp [mapGet, mapKeys, h]
    · simp [mapGet, mapKeys, h, ih', Ne.symm h]

/-! ## Indexing from the end of a slice -/

theorem get?_secondToLast {α : Type} (pre : List α) (a b : α) :
    (pre ++ [a, b]).get? pre.length = some a := by
  induction pre with
  | nil => rfl
  | cons x xs ih => simpa using ih

theorem get?_last {α : Type} (pre : List α) (a b : α) :
    (pre ++ [a, b]).get? (pre.length + 1) = some b := by
  induction pre with
  | nil => rfl
  | cons x xs ih => simpa using ih

theorem index_secondToLast {α : Type} (pre : List α) (a b : α) :
    index (pre ++ [a, b]) (((pre ++ [a, b]).length : Int) - 2) = .ok a := by
  have hlen : (((pre ++ [a, b]).length : Int) - 2) = (pre.length : Int) := by
    simp
  have hneg : ¬ ((pre.length : Int) < 0) := by omega
  rw [hlen]
  simp only [index, hneg, if_false, Int.toNat_ofNat, get?_secondToLast]

theorem index_last {α : Type} (pre : List α) (a b : α) :
    index (pre ++ [a, b]) (((pre ++ [a, b]).length : Int) - 1) = .ok b := by
  have hlen : (((pre ++ [a, b]).length : Int) - 1) = ((pre.length + 1 : Nat) : Int) := by
    simp
    ring
  have hneg : ¬ (((pre.length + 1 : Nat) : Int) < 0) := by omega
  rw [hlen]
  simp only [index, hneg, if_false, Int.toNat_ofNat, get?_last]

theorem splitChars_ne_nil (sep : Char) (cs : List Char) : splitChars sep cs ≠ [] := by
  cases cs with
  | nil => simp [splitChars]
  | cons c cs =>
    by_cases h : c = sep
    · simp [splitChars, h]
    · simp only [splitChars, h, if_false]
      cases splitChars sep cs <;> simp

theorem splitChars_of_not_mem (sep : Char) (cs : List Char) (h : sep ∉ cs) :
    splitChars sep cs = [cs] := by
  induction cs with
  | nil => rfl
  | cons c cs ih =>
    have hc : c ≠ sep := fun e => h (by simp [e])
    have hcs : sep ∉ cs := fun e => h (by simp [e])
    simp [splitChars, hc, ih hcs]

theorem stringsSplit_empty (s : String) (sep : Char) (h : s = "") :
    stringsSplit s sep = [""] := by
  subst h
  rfl

/-! ## `convertSchema` on a reference node -/

/-- A reference whose last two segments are `a` and `b` is looked up under the name `b`
when `a` is "schemas", and is the bare object otherwise. -/
theorem convertSchema_ref_segments (spec : OpenAPISpec) (fuel : Nat) (schema : Schema)
    (pre : List String) (a b : String)
    (hparts : stringsSplit schema.Ref '/' = pre ++ [a, b]) :
    convertSchema spec (fuel + 1) (some schema) =
      if a = "schemas" then
        match lookupComponent spec b with
        | some refSchema => convertSchema spec fuel refSchema
        | none => .ok (.obj [("type", .str "object")])
      else .ok (.obj [("type", .str "object")]) := by
  have href : schema.Ref ≠ "" := by
    intro h
    have h1 := stringsSplit_empty schema.Ref '/' h
    rw [hparts] at h1
    have h2 := congrArg List.length h1
    simp at h2
  have hlen : (pre ++ [a, b]).length > 0 := by simp
  simp only [convertSchema, href, ne_eq, not_false_eq_true, if_true, hparts, hlen,
    index_secondToLast, index_last]

/-- A reference of at least two segments that does not name a registered component
schema is the bare object. -/
theorem convertSchema_ref_unresolved (spec : OpenAPISpec) (fuel : Nat) (schema : Schema)
    (pre : List String) (a b : String)
    (hparts : stringsSplit schema.Ref '/' = pre ++ [a, b])
    (hmiss : a ≠ "schemas" ∨ lookupComponent spec b = none) :
    convertSchema spec (fuel + 1) (some schema) = .ok bareObject := by
  rw [convertSchema_ref_segments spec fuel schema pre a b hparts]
  rcases hmiss with h | h
  · simp [h, bareObject]
  · simp [h, bareObject]

/-- C1. When the component table maps the name `N` to the schema `S`, a node whose
reference ends in the segments "schemas" and `N` translates one call deeper to exactly
what `S` translates to; so every outcome other than running out of fuel (a fragment or a
panic) is an outcome of the reference node if and only if it is an outcome of `S`. -/
theorem convertSchema_ref_registered (spec : OpenAPISpec) (schema : Schema) (N : String)
    (S : Option Schema) (pre : List String)
    (hN : lookupComponent spec N = some S)
    (hparts : stringsSplit schema.Ref '/' = pre ++ ["schemas", N]) :
    (∀ fuel, convertSchema spec (fuel + 1) (some schema) = convertSchema spec fuel S) ∧
    ∀ r : Except Fault Value, r ≠ .error .outOfFuel →
      ((∃ fuel, convertSchema spec fuel (some schema) = r) ↔
        (∃ fuel, convertSchema spec fuel S = r)) := by
  have step : ∀ fuel, convertSchema spec (fuel + 1) (some schema) = convertSchema spec fuel S := by
    intro fuel
    rw [convertSchema_ref_segments spec fuel schema pre "schemas" N hparts]
    simp [hN]
  refine ⟨step, ?_⟩
  intro r hr
  constructor
  · rintro ⟨fuel, h⟩
    cases fuel with
    | zero =>
      exfalso
      apply hr
      rw [← h]
      rfl
    | succ n => exact ⟨n, by rw [← step n]; exact h⟩
  · rintro ⟨fuel, h⟩
    exact ⟨fuel + 1, by rw [step fuel]; exact h⟩

/-- Witness of C1: in `petSpec` the node `{$ref: "#/components/schemas/Pet"}` translates
to what the registered schema `Pet` translates to. -/
theorem convertSchema_ref_registered_witness :
    lookupComponent petSpec "Pet" = some (some petSchema) ∧
    stringsSplit petRef.Ref '/' = ["#", "components"] ++ ["schemas", "Pet"] ∧
    convertSchema petSpec 3 (some petRef) = convertSchema petSpec 2 (some petSchema) ∧
    convertSchema petSpec 2 (some petSchema) =
      .ok (.obj [("type", .str "object"),
        ("properties", .obj [("name", .obj [("type", .str "string")])]),
        ("required", .arr [.str "name"])]) :=
  ⟨rfl, rfl,
    (convertSchema_ref_registered petSpec petRef "Pet" (some petSchema) ["#", "components"]
      rfl rfl).1 2, rfl⟩

/-- C2, where the code departs from it. A node whose non-empty reference has no "/" makes
`convertSchema` panic: the reference splits into one segment, the guard
`len(refParts) > 0` lets it pass, and `refParts[len(refParts)-2]` reads index -1. -/
theorem convertSchema_ref_without_slash_panics (spec : OpenAPISpec) (fuel : Nat)
    (schema : Schema) (hne : schema.Ref ≠ "") (hno : '/' ∉ schema.Ref.data) :
    convertSchema spec (fuel + 1) (some schema) = .error .indexOutOfRange := by
  have hsplit : stringsSplit schema.Ref '/' = [String.mk schema.Ref.data] := by
    simp [stringsSplit, splitChars_of_not_mem '/' schema.Ref.data hno]
  have hidx : index [String.mk schema.Ref.data] (((1 : Nat) : Int) - 2) =
      .error .indexOutOfRange := by
    simp [index]
  simp only [convertSchema, hne, ne_eq, not_false_eq_true, if_true, hsplit,
    List.length_singleton, gt_iff_lt, Nat.lt_one_iff, Nat.zero_lt_one, hidx]

/-- Witness of the panic of C2: the node `{$ref: "Pet"}`, in any spec. -/
theorem convertSchema_ref_without_slash_panics_witness :
    bareRef.Ref ≠ "" ∧ '/' ∉ bareRef.Ref.data ∧
    convertSchema petSpec 1 (some bareRef) = .error .indexOutOfRange :=
  ⟨by decide, by decide,
    convertSchema_ref_without_slash_panics petSpec 0 bareRef (by decide) (by decide)⟩

/-! ## `generateDescription` -/

/-- C8. `generateDescription` returns the headline (the summary when non-empty, else the
uppercased method, a space and the path), followed by one newline and the operation's
description when that description is non-empty. With neither summary nor description the
result is "<METHOD> <path>"; a description without a summary is appended to the
method/path headline. -/
theorem generateDescription_headline (op : Operation) (method path : String) :
    generateDescription op method path =
      headline op method path ++ (if op.Description = "" then "" else "\n" ++ op.Description) ∧
    (op.Summary = "" → op.Description = "" →
      generateDescription op method path = stringsToUpper method ++ " " ++ path) ∧
    (op.Summary = "" → op.Description ≠ "" →
      generateDescription op method path =
        stringsToUpper method ++ " " ++ path ++ "\n" ++ op.Description) ∧
    (op.Summary ≠ "" → op.Description = "" → generateDescription op method path = op.Summary) ∧
    (op.Summary ≠ "" → op.Description ≠ "" →
      generateDescription op method path = op.Summary ++ "\n" ++ op.Description) := by
  refine ⟨?_, ?_, ?_, ?_, ?_⟩
  · by_cases hs : op.Summary = "" <;> by_cases hd : op.Description = "" <;>
      simp [generateDescription, headline, hs, hd, String.append_assoc]
  · intro hs hd
    simp [generateDescription, hs, hd]
  · intro hs hd
    simp [generateDescription, hs, hd]
  · intro hs hd
    simp [generateDescription, hs, hd]
  · intro hs hd
    simp [generateDescription, hs, hd]

/-- Witness of C8: `GET /pets` without summary or description, and with a description
only. -/
theorem generateDescription_headline_witness :
    generateDescription plainOp "get" "/pets" = "GET /pets" ∧
    generateDescription describedOp "get" "/pets" =
      "GET /pets\nReturns a list of all pets in the system" :=
  ⟨(generateDescription_headline plainOp "get" "/pets").2.1 rfl rfl,
    (generateDescription_headline describedOp "get" "/pets").2.2.1 rfl (by decide)⟩

/-! ## `convertSchema` on a node without a reference -/

/-- The fields that the later steps of `convertSchema` leave alone: a write of
"properties", "required" or "items" does not change another key. -/
theorem convertSchema_nonref_fields (spec : OpenAPISpec) (fuel : Nat) (schema : Schema)
    (v : Value) (href : schema.Ref = "")
    (hv : convertSchema spec fuel (some schema) = .ok v) :
    ∃ fields, v = .obj fields ∧
      ∀ k, k ≠ "properties" → k ≠ "required" → k ≠ "items" →
        mapGet k fields =
          mapGet k
            (let result : List (String × Value) := [("type", .str schema.Type_)]
             let result :=
               if schema.Format ≠ "" then mapSet "format" (.str schema.Format) result
               else result
             let result :=
               if schema.Description ≠ "" then
                 mapSet "description" (.str schema.Description) result
               else result
             if schema.Enum.length > 0 then mapSet "enum" (.arr schema.Enum) result
             else result) := by
  cases fuel with
  | zero => simp [convertSchema] at hv
  | succ fuel =>
    simp only [convertSchema, href, ne_eq, not_true_eq_false, if_false] at hv
    split at hv
    · simp at hv
    · rename_i result hres
      have hresult : ∀ k, k ≠ "properties" → k ≠ "required" → k ≠ "items" →
          mapGet k result = mapGet k
            (let result : List (String × Value) := [("type", .str schema.Type_)]
             let result :=
               if schema.Format ≠ "" then mapSet "format" (.str schema.Format) result
               else result
             let result :=
               if schema.Description ≠ "" then
                 mapSet "description" (.str schema.Description) result
               else result
             if schema.Enum.length > 0 then mapSet "enum" (.arr schema.Enum) result
             else result) := by
        intro k hp hr hi
        split at hres
        · split at hres
          · simp at hres
          · split at hres
            · simp only [Except.ok.injEq] at hres
              rw [← hres, mapGet_mapSet_ne _ _ _ _ hr, mapGet_mapSet_ne _ _ _ _ hp]
            · simp only [Except.ok.injEq] at hres
              rw [← hres, mapGet_mapSet_ne _ _ _ _ hp]
        · simp only [Except.ok.injEq] at hres
          rw [← hres]
      split at hv
      · split at hv
        · split at hv
          · simp at hv
          · simp only [Except.ok.injEq] at hv
            refine ⟨_, hv.symm, ?_⟩
            intro k hp hr hi
            rw [mapGet_mapSet_ne _ _ _ _ hi]
            exact hresult k hp hr hi
        · simp only [Except.ok.injEq] at hv
          exact ⟨_, hv.symm, hresult⟩
      · simp only [Except.ok.injEq] at hv
        exact ⟨_, hv.symm, hresult⟩

/-- C10. The fragment that `convertSchema` returns for a node without a `$ref` has "type"
equal to the node's type, also when that is empty, and has "format", "description" and
"enum" exactly when the node's value is non-empty, each equal to the node's value; the
enum is the node's sequence of values, in the same order. -/
theorem convertSchema_nonref_common (spec : OpenAPISpec) (fuel : Nat) (schema : Schema)
    (v : Value) (href : schema.Ref = "")
    (hv : convertSchema spec fuel (some schema) = .ok v) :
    v.get "type" = some (.str schema.Type_) ∧
    v.get "format" = (if schema.Format = "" then none else some (.str schema.Format)) ∧
    v.get "description" =
      (if schema.Description = "" then none else some (.str schema.Description)) ∧
    v.get "enum" = (if schema.Enum.length = 0 then none else some (.arr schema.Enum)) := by
  obtain ⟨fields, hfields, hget⟩ := convertSchema_nonref_fields spec fuel schema v href hv
  subst hfields
  refine ⟨?_, ?_, ?_, ?_⟩
  · rw [Value.get, hget "type" (by decide) (by decide) (by decide)]
    by_cases hf : schema.Format = "" <;> by_cases hd : schema.Description = "" <;>
      by_cases he : schema.Enum.length = 0 <;>
      simp [hf, hd, he, Nat.pos_iff_ne_zero, mapSet, mapGet]
  · rw [Value.get, hget "format" (by decide) (by decide) (by decide)]
    by_cases hf : schema.Format = "" <;> by_cases hd : schema.Description = "" <;>
      by_cases he : schema.Enum.length = 0 <;>
      simp [hf, hd, he, Nat.pos_iff_ne_zero, mapSet, mapGet]
  · rw [Value.get, hget "description" (by decide) (by decide) (by decide)]
    by_cases hf : schema.Format = "" <;> by_cases hd : schema.Description = "" <;>
      by_cases he : schema.Enum.length = 0 <;>
      simp [hf, hd, he, Nat.pos_iff_ne_zero, mapSet, mapGet]
  · rw [Value.get, hget "enum" (by decide) (by decide) (by decide)]
    by_cases hf : schema.Format = "" <;> by_cases hd : schema.Description = "" <;>
      by_cases he : schema.Enum.length = 0 <;>
      simp [hf, hd, he, Nat.pos_iff_ne_zero, mapSet, mapGet]

/-- Witness of C10: the string schema with enum `["red","green","blue"]` keeps its enum,
in order. -/
theorem convertSchema_nonref_common_witness :
    colourSchema.Ref = "" ∧
    convertSchema petSpec 1 (some colourSchema) =
      .ok (.obj [("type", .str "string"),
        ("enum", .arr [.str "red", .str "green", .str "blue"])]) ∧
    (Value.obj [("type", .str "string"),
        ("enum", .arr [.str "red", .str "green", .str "blue"])]).get "enum" =
      some (.arr [.str "red", .str "green", .str "blue"]) :=
  ⟨rfl, rfl,
    (convertSchema_nonref_common petSpec 1 colourSchema _ rfl rfl).2.2.2⟩

/-! ## `generateInputSchema` -/

theorem filterMap_str (names : List String) :
    (names.map Value.str).filterMap (fun x =>
      match x with
      | .str s => some s
      | _ => none) = names := by
  induction names with
  | nil => rfl
  | cons n rest ih => simp [List.filterMap_cons, ih]

/-- The parameter loop appends the argument names of the required parameters, in order,
and adds one property per parameter, under its argument name. -/
theorem convertParameters_ok (spec : OpenAPISpec) (fuel : Nat) (params : List Parameter) :
    ∀ (properties : List (String × Value)) (required : List String)
      (properties' : List (String × Value)) (required' : List String),
      convertParameters spec fuel params properties required = .ok (properties', required') →
      required' = required ++ (params.filter fun p => p.Required).map paramName ∧
      ∀ a, a ∈ mapKeys properties' ↔
        a ∈ mapKeys properties ∨ ∃ p ∈ params, paramName p = a := by
  induction params with
  | nil =>
    intro properties required properties' required' h
    simp only [convertParameters, Except.ok.injEq, Prod.mk.injEq] at h
    obtain ⟨h1, h2⟩ := h
    subst h1
    subst h2
    simp
  | cons param rest ih =>
    intro properties required properties' required' h
    simp only [convertParameters] at h
    cases hc : convertSchema spec fuel param.Schema with
    | error e => simp [hc] at h
    | ok converted =>
      rw [hc] at h
      have key : ∀ fields : List (String × Value),
          convertParameters spec fuel rest
              (mapSet (paramName param)
                (Value.obj (mapSet "description" (.str param.Description) fields)) properties)
              (if param.Required then required ++ [paramName param] else required) =
            .ok (properties', required') →
          required' = required ++
              ((param :: rest).filter fun p => p.Required).map paramName ∧
            ∀ a, a ∈ mapKeys properties' ↔
              a ∈ mapKeys properties ∨ ∃ p ∈ param :: rest, paramName p = a := by
        intro fields hrest
        obtain ⟨hreq, hkeys⟩ := ih _ _ _ _ hrest
        constructor
        · rw [hreq]
          cases hR : param.Required <;> simp [hR]
        · intro a
          rw [hkeys a, mem_mapKeys_mapSet]
          simp only [List.mem_cons, exists_eq_or_imp]
          constructor
          · rintro ((h1 | h1) | h1)
            · exact Or.inr (Or.inl h1.symm)
            · exact Or.inl h1
            · exact Or.inr (Or.inr h1)
          · rintro (h1 | h1 | h1)
            · exact Or.inl (Or.inr h1)
            · exact Or.inl (Or.inl h1.symm)
            · exact Or.inr h1
      cases converted with
      | null => exact key _ h
      | obj fields => exact key _ h
      | bool b => simp at h
      | num n => simp at h
      | str s => simp at h
      | arr xs => simp at h

/-- The schema that `jsonContent` picks belongs to an entry whose content type contains
"json". -/
theorem jsonContent_some (content : List (String × MediaType)) (s : Schema)
    (h : jsonContent content = some s) :
    ∃ e ∈ content, stringsContains e.1 "json" = true ∧ e.2.Schema = some s := by
  induction content with
  | nil => simp [jsonContent] at h
  | cons e rest ih =>
    obtain ⟨contentType, mediaType⟩ := e
    simp only [jsonContent] at h
    cases hs : mediaType.Schema with
    | none =>
      rw [hs] at h
      obtain ⟨e, he, hj⟩ := ih h
      exact ⟨e, List.mem_cons_of_mem _ he, hj⟩
    | some s' =>
      rw [hs] at h
      by_cases hj : stringsContains contentType "json" = true
      · simp only [hj, if_true, Option.some.injEq] at h
        subst h
        exact ⟨(contentType, mediaType), List.mem_cons_self _ _, hj, hs⟩
      · simp only [hj] at h
        obtain ⟨e, he, hj'⟩ := ih h
        exact ⟨e, List.mem_cons_of_mem _ he, hj'⟩

/-- When some entry has a content type containing "json" and a schema, `jsonContent`
picks a schema. -/
theorem jsonContent_isSome (content : List (String × MediaType))
    (h : ∃ e ∈ content, stringsContains e.1 "json" = true ∧ e.2.Schema.isSome = true) :
    ∃ s, jsonContent content = some s := by
  induction content with
  | nil => simp at h
  | cons e rest ih =>
    obtain ⟨contentType, mediaType⟩ := e
    simp only [jsonContent]
    cases hs : mediaType.Schema with
    | none =>
      apply ih
      obtain ⟨e', he', hj, hsome⟩ := h
      rcases List.mem_cons.mp he' with heq | hmem
      · subst heq
        simp [hs] at hsome
      · exact ⟨e', hmem, hj, hsome⟩
    | some s' =>
      by_cases hj : stringsContains contentType "json" = true
      · exact ⟨s', by simp [hj]⟩
      · simp only [hj]
        apply ih
        obtain ⟨e', he', hj', hsome⟩ := h
        rcases List.mem_cons.mp he' with heq | hmem
        · subst heq
          exact absurd hj' hj
        · exact ⟨e', hmem, hj', hsome⟩

/-- The shape of a generated input schema: "type", the properties built by the parameter
loop with the request body written last, and "required" when an argument is required. -/
theorem generateInputSchema_shape (spec : OpenAPISpec) (fuel : Nat) (op : Operation)
    (schema : Value) (h : generateInputSchema spec fuel op = .ok schema) :
    ∃ (properties₀ properties : List (String × Value)) (required₀ : List String),
      convertParameters spec fuel op.Parameters [] [] = .ok (properties₀, required₀) ∧
      (attachedBody op = none ∧ properties = properties₀ ∨
        ∃ s v, attachedBody op = some s ∧ convertSchema spec fuel (some s) = .ok v ∧
          properties = mapSet "body" v properties₀) ∧
      schema = .obj ([("type", .str "object"), ("properties", .obj properties)] ++
        (if (requiredArgs op).length > 0 then
          [("required", .arr ((requiredArgs op).map Value.str))] else [])) := by
  simp only [generateInputSchema] at h
  cases hp : convertParameters spec fuel op.Parameters [] [] with
  | error e => simp [hp] at h
  | ok pr =>
    obtain ⟨properties₀, required₀⟩ := pr
    rw [hp] at h
    simp only at h
    have hreq := (convertParameters_ok spec fuel op.Parameters [] [] properties₀ required₀ hp).1
    simp only [List.nil_append] at hreq
    have finish : ∀ (properties : List (String × Value)) (required : List String),
        required = requiredArgs op →
        Except.ok (Value.obj
          (if required.length > 0 then
            mapSet "required" (.arr (required.map Value.str))
              (mapSet "properties" (.obj properties)
                [("type", .str "object"), ("properties", .obj []), ("required", .arr [])])
          else
            mapDelete "required"
              (mapSet "properties" (.obj properties)
                [("type", .str "object"), ("properties", .obj []), ("required", .arr [])]))) =
          (Except.ok schema : Except Fault Value) →
        schema = .obj ([("type", .str "object"), ("properties", .obj properties)] ++
          (if (requiredArgs op).length > 0 then
            [("required", .arr ((requiredArgs op).map Value.str))] else [])) := by
      intro properties required hr hs
      subst hr
      simp only [Except.ok.injEq] at hs
      rw [← hs]
      by_cases hl : (requiredArgs op).length > 0
      · simp [hl, mapSet]
      · simp [hl, mapSet, mapDelete]
    cases hb : attachedBody op with
    | none =>
      rw [hb] at h
      simp only at h
      refine ⟨properties₀, properties₀, required₀, rfl, Or.inl ⟨rfl, rfl⟩, ?_⟩
      apply finish properties₀ required₀ _ h
      simp [requiredArgs, bodyRequired, hb, hreq]
    | some s =>
      rw [hb] at h
      cases hrb : op.RequestBody with
      | none => simp [attachedBody, hrb] at hb
      | some body =>
        rw [hrb] at h
        simp only at h
        cases hc : convertSchema spec fuel (some s) with
        | error e => simp [hc] at h
        | ok v =>
          rw [hc] at h
          simp only at h
          refine ⟨properties₀, mapSet "body" v properties₀, required₀, rfl,
            Or.inr ⟨s, v, rfl, hc, rfl⟩, ?_⟩
          apply finish _ _ _ h
          cases hR : body.Required <;> simp [requiredArgs, bodyRequired, hb, hrb, hreq, hR]

theorem bodyRequired_iff (op : Operation) :
    bodyRequired op = true ↔
      ∃ s body, attachedBody op = some s ∧ op.RequestBody = some body ∧
        body.Required = true := by
  unfold bodyRequired
  cases hb : attachedBody op with
  | none => simp
  | some s =>
    cases hrb : op.RequestBody with
    | none => simp
    | some body => simp

theorem mem_requiredArgs (op : Operation) (a : String) :
    a ∈ requiredArgs op ↔
      (∃ q ∈ op.Parameters, q.Required = true ∧ paramName q = a) ∨
        (a = "body" ∧ bodyRequired op = true) := by
  unfold requiredArgs
  cases hb : bodyRequired op <;> simp [List.mem_filter, and_assoc]

/-- The "required" list of a generated input schema is `requiredArgs`. -/
theorem generateInputSchema_requiredNames (spec : OpenAPISpec) (fuel : Nat) (op : Operation)
    (schema : Value) (h : generateInputSchema spec fuel op = .ok schema) :
    requiredNames schema = requiredArgs op := by
  obtain ⟨p₀, p, r₀, -, -, hs⟩ := generateInputSchema_shape spec fuel op schema h
  subst hs
  by_cases hl : (requiredArgs op).length > 0
  · simp only [requiredNames, Value.get, hl, if_true]
    have : mapGet "required"
        ([("type", Value.str "object"), ("properties", Value.obj p)] ++
          [("required", Value.arr ((requiredArgs op).map Value.str))]) =
        some (Value.arr ((requiredArgs op).map Value.str)) := by
      simp [mapGet]
    rw [this]
    exact filterMap_str _
  · have hnil : requiredArgs op = [] := by
      cases hr : requiredArgs op with
      | nil => rfl
      | cons a l => simp [hr] at hl
    simp [requiredNames, Value.get, hnil, mapGet]

/-- The "properties" mapping of a generated input schema. -/
theorem generateInputSchema_properties (spec : OpenAPISpec) (fuel : Nat) (op : Operation)
    (schema : Value) (h : generateInputSchema spec fuel op = .ok schema) :
    ∃ (properties₀ properties : List (String × Value)) (required₀ : List String),
      convertParameters spec fuel op.Parameters [] [] = .ok (properties₀, required₀) ∧
      (attachedBody op = none ∧ properties = properties₀ ∨
        ∃ s v, attachedBody op = some s ∧ convertSchema spec fuel (some s) = .ok v ∧
          properties = mapSet "body" v properties₀) ∧
      schema.get "properties" = some (.obj properties) ∧
      schema.get "type" = some (.str "object") := by
  obtain ⟨p₀, p, r₀, hp, hb, hs⟩ := generateInputSchema_shape spec fuel op schema h
  refine ⟨p₀, p, r₀, hp, hb, ?_, ?_⟩
  · subst hs
    simp [Value.get, mapGet]
  · subst hs
    simp [Value.get, mapGet]

/-- C4, as the code has it. In the input schema of an operation, the argument name of a
parameter marked required is in the "required" list; the argument name of a parameter not
marked required is in that list exactly when another declared parameter with the same
argument name is marked required, or the name is "body" and a required JSON request body
was attached. -/
theorem generateInputSchema_required_param (spec : OpenAPISpec) (fuel : Nat)
    (op : Operation) (schema : Value) (p : Parameter)
    (h : generateInputSchema spec fuel op = .ok schema) (hp : p ∈ op.Parameters) :
    (p.Required = true → paramName p ∈ requiredNames schema) ∧
    (p.Required = false →
      (paramName p ∈ requiredNames schema ↔
        (∃ q ∈ op.Parameters, q.Required = true ∧ paramName q = paramName p) ∨
          (paramName p = "body" ∧
            ∃ s body, attachedBody op = some s ∧ op.RequestBody = some body ∧
              body.Required = true))) := by
  rw [generateInputSchema_requiredNames spec fuel op schema h]
  constructor
  · intro hreq
    exact (mem_requiredArgs op _).mpr (Or.inl ⟨p, hp, hreq, rfl⟩)
  · intro _
    rw [mem_requiredArgs, bodyRequired_iff]

/-- Witness of C4 as amended: in `getPetOp` the required `petId` is listed and the
optional `limit` is not. -/
theorem generateInputSchema_required_param_witness :
    "petId" ∈ requiredArgs getPetOp ∧ "limit" ∉ requiredArgs getPetOp ∧
    (paramName petIdParam ∈ requiredNames (.obj [("type", .str "object"),
      ("properties", .obj [("petId", .obj [("type", .str "string"), ("description", .str "")]),
        ("limit", .obj [("type", .str "integer"), ("description", .str "")]),
        ("header_X-Trace", .obj [("type", .str "string"), ("description", .str "")])]),
      ("required", .arr [.str "petId"])])) :=
  ⟨by decide, by decide,
    (generateInputSchema_required_param {} 1 getPetOp _ petIdParam rfl
      (List.mem_cons_self _ _)).1 rfl⟩

/-- C4 as stated fails: in `collidingOp` the query parameter `header_x` is not marked
required, yet its argument name "header_x" is in the "required" list, put there by the
required header parameter `x`. -/
theorem optional_param_listed_required :
    generateInputSchema {} 1 collidingOp =
      .ok (.obj [("type", .str "object"),
        ("properties", .obj [("header_x", .obj [("type", .str "string"),
          ("description", .str "")])]),
        ("required", .arr [.str "header_x"])]) ∧
    queryHeaderXParam ∈ collidingOp.Parameters ∧
    queryHeaderXParam.Required = false ∧
    paramName queryHeaderXParam ∈
      requiredNames (.obj [("type", .str "object"),
        ("properties", .obj [("header_x", .obj [("type", .str "string"),
          ("description", .str "")])]),
        ("required", .arr [.str "header_x"])]) :=
  ⟨rfl, List.mem_cons_of_mem _ (List.mem_cons_self _ _), rfl, by decide⟩

/-- The argument name of a parameter, as the spec words it. -/
theorem paramName_eq (p : Parameter) :
    (p.In = "path" ∨ p.In = "query" → paramName p = p.Name) ∧
    (¬ (p.In = "path" ∨ p.In = "query") → paramName p = p.In ++ "_" ++ p.Name) := by
  unfold paramName
  by_cases hq : p.In = "query" <;> by_cases hpth : p.In = "path" <;> simp [hq, hpth]

/-- C5. The "properties" mapping of the input schema has, for every declared parameter,
the key `p.Name` when the parameter is in "path" or "query", and the key
`p.In + "_" + p.Name` for every other location. -/
theorem generateInputSchema_param_key (spec : OpenAPISpec) (fuel : Nat)
    (op : Operation) (schema : Value) (p : Parameter)
    (h : generateInputSchema spec fuel op = .ok schema) (hp : p ∈ op.Parameters) :
    ∃ properties, schema.get "properties" = some (.obj properties) ∧
      (p.In = "path" ∨ p.In = "query" → (mapGet p.Name properties).isSome = true) ∧
      (¬ (p.In = "path" ∨ p.In = "query") →
        (mapGet (p.In ++ "_" ++ p.Name) properties).isSome = true) := by
  obtain ⟨p₀, props, r₀, hpar, hbody, hget, -⟩ :=
    generateInputSchema_properties spec fuel op schema h
  have hkey₀ : paramName p ∈ mapKeys p₀ :=
    ((convertParameters_ok spec fuel op.Parameters [] [] p₀ r₀ hpar).2 _).mpr
      (Or.inr ⟨p, hp, rfl⟩)
  have hkey : paramName p ∈ mapKeys props := by
    rcases hbody with ⟨-, he⟩ | ⟨s, v, -, -, he⟩
    · rw [he]
      exact hkey₀
    · rw [he, mem_mapKeys_mapSet]
      exact Or.inr hkey₀
  refine ⟨props, hget, ?_, ?_⟩
  · intro hin
    rw [mapGet_isSome_iff, ← (paramName_eq p).1 hin]
    exact hkey
  · intro hin
    rw [mapGet_isSome_iff, ← (paramName_eq p).2 hin]
    exact hkey

/-- Witness of C5: in `getPetOp` the path parameter `petId` keeps its name and the header
parameter `X-Trace` is the property "header_X-Trace". -/
theorem generateInputSchema_param_key_witness :
    traceParam ∈ getPetOp.Parameters ∧ ¬ (traceParam.In = "path" ∨ traceParam.In = "query") ∧
    ∃ properties,
      (Value.obj [("type", .str "object"),
        ("properties", .obj [("petId", .obj [("type", .str "string"),
            ("description", .str "")]),
          ("limit", .obj [("type", .str "integer"), ("description", .str "")]),
          ("header_X-Trace", .obj [("type", .str "string"), ("description", .str "")])]),
        ("required", .arr [.str "petId"])]).get "properties" = some (.obj properties) ∧
      (mapGet "header_X-Trace" properties).isSome = true :=
  ⟨List.mem_cons_of_mem _ (List.mem_cons_of_mem _ (List.mem_cons_self _ _)), by decide,
    (generateInputSchema_param_key {} 1 getPetOp _ traceParam rfl
      (List.mem_cons_of_mem _ (List.mem_cons_of_mem _ (List.mem_cons_self _ _)))).imp
      fun _ hx => ⟨hx.1, hx.2.2 (by decide)⟩⟩

/-- C6, as the code has it. When the request body has a content entry whose content type
contains "json" and whose schema is present, the "properties" mapping has the key "body",
holding the translation of the schema of such an entry, and "body" is in the "required"
list exactly when the request body is marked required or a declared parameter with the
argument name "body" is marked required. -/
theorem generateInputSchema_body (spec : OpenAPISpec) (fuel : Nat) (op : Operation)
    (schema : Value) (body : RequestBody) (content : List (String × MediaType))
    (h : generateInputSchema spec fuel op = .ok schema)
    (hrb : op.RequestBody = some body) (hcontent : body.Content = some content)
    (hjson : ∃ e ∈ content, stringsContains e.1 "json" = true ∧ e.2.Schema.isSome = true) :
    (∃ e ∈ content, ∃ s v properties,
      stringsContains e.1 "json" = true ∧ e.2.Schema = some s ∧
      convertSchema spec fuel (some s) = .ok v ∧
      schema.get "properties" = some (.obj properties) ∧
      mapGet "body" properties = some v) ∧
    ("body" ∈ requiredNames schema ↔
      body.Required = true ∨
        ∃ q ∈ op.Parameters, q.Required = true ∧ paramName q = "body") := by
  obtain ⟨s₀, hs₀⟩ := jsonContent_isSome content hjson
  have hattached : attachedBody op = some s₀ := by
    simp [attachedBody, hrb, hcontent, hs₀]
  constructor
  · obtain ⟨p₀, props, r₀, -, hbody, hget, -⟩ :=
      generateInputSchema_properties spec fuel op schema h
    rcases hbody with ⟨hnone, -⟩ | ⟨s, v, hs, hv, he⟩
    · rw [hattached] at hnone
      exact absurd hnone (by simp)
    · rw [hattached] at hs
      have hss : s₀ = s := Option.some.inj hs
      subst hss
      obtain ⟨e, he', hj, hsch⟩ := jsonContent_some content s₀ hs₀
      refine ⟨e, he', s₀, v, props, hj, hsch, hv, hget, ?_⟩
      rw [he]
      exact mapGet_mapSet_self _ _ _
  · rw [generateInputSchema_requiredNames spec fuel op schema h, mem_requiredArgs,
      bodyRequired_iff]
    constructor
    · rintro (hq | ⟨-, s, b, -, hb, hreq⟩)
      · exact Or.inr hq
      · rw [hrb] at hb
        have hbb : body = b := Option.some.inj hb
        subst hbb
        exact Or.inl hreq
    · rintro (hreq | hq)
      · exact Or.inr ⟨rfl, s₀, body, hattached, hrb, hreq⟩
      · exact Or.inl hq

/-- Witness of C6 as amended: `createPetOp` has the property "body" and requires it. -/
theorem generateInputSchema_body_witness :
    createPetOp.RequestBody = some newPetBody ∧
    newPetBody.Content = some [("application/json", { Schema := some newPetSchema })] ∧
    ("body" ∈ requiredNames (.obj [("type", .str "object"),
        ("properties", .obj [("body", .obj [("type", .str "object"),
          ("properties", .obj [("name", .obj [("type", .str "string")]),
            ("tag", .obj [("type", .str "string")])]),
          ("required", .arr [.str "name"])])]),
        ("required", .arr [.str "body"])]) ↔
      newPetBody.Required = true ∨
        ∃ q ∈ createPetOp.Parameters, q.Required = true ∧ paramName q = "body") :=
  ⟨rfl, rfl,
    (generateInputSchema_body {} 2 createPetOp _ newPetBody
      [("application/json", { Schema := some newPetSchema })] rfl rfl rfl
      ⟨_, List.mem_cons_self _ _, rfl, rfl⟩).2⟩

/-- C6 as stated fails: `bodyParamOp` has a JSON request body that is not marked
required, and "body" is in the "required" list all the same, put there by the required
query parameter `body`. -/
theorem body_required_without_required_body :
    generateInputSchema {} 1 bodyParamOp =
      .ok (.obj [("type", .str "object"),
        ("properties", .obj [("body", .obj [("type", .str "object")])]),
        ("required", .arr [.str "body"])]) ∧
    bodyParamOp.RequestBody = some optionalBody ∧
    optionalBody.Required = false ∧
    stringsContains "application/json" "json" = true ∧
    "body" ∈ requiredNames (.obj [("type", .str "object"),
        ("properties", .obj [("body", .obj [("type", .str "object")])]),
        ("required", .arr [.str "body"])]) :=
  ⟨rfl, rfl, rfl, rfl, by decide⟩

/-- C7. The input schema is an object: "type" is "object" and "properties" is a mapping.
It has a "required" key exactly when a declared parameter is marked required or a JSON
request body marked required was attached, and "required" is never the empty array: when
present it lists the required argument names. -/
theorem generateInputSchema_object (spec : OpenAPISpec) (fuel : Nat) (op : Operation)
    (schema : Value) (h : generateInputSchema spec fuel op = .ok schema) :
    schema.get "type" = some (.str "object") ∧
    (∃ properties, schema.get "properties" = some (.obj properties)) ∧
    ((schema.get "required").isSome = true ↔
      (∃ p ∈ op.Parameters, p.Required = true) ∨
        ∃ s body, attachedBody op = some s ∧ op.RequestBody = some body ∧
          body.Required = true) ∧
    schema.get "required" ≠ some (.arr []) ∧
    ((schema.get "required").isSome = true →
      schema.get "required" = some (.arr ((requiredArgs op).map Value.str)) ∧
      requiredArgs op ≠ []) := by
  obtain ⟨p₀, props, r₀, -, -, hs⟩ := generateInputSchema_shape spec fuel op schema h
  have hne : (requiredArgs op).length > 0 ↔
      (∃ p ∈ op.Parameters, p.Required = true) ∨
        ∃ s body, attachedBody op = some s ∧ op.RequestBody = some body ∧
          body.Required = true := by
    rw [← bodyRequired_iff]
    cases hr : requiredArgs op with
    | nil =>
      have hno : ∀ a, a ∉ requiredArgs op := by simp [hr]
      simp only [List.length_nil, gt_iff_lt, lt_self_iff_false, false_iff, not_or,
        not_exists, not_and]
      constructor
      · intro q hq hreq
        exact hno (paramName q) ((mem_requiredArgs op _).mpr (Or.inl ⟨q, hq, hreq, rfl⟩))
      · intro hb
        exact hno "body" ((mem_requiredArgs op _).mpr (Or.inr ⟨rfl, hb⟩))
    | cons a l =>
      have hmem : a ∈ requiredArgs op := by simp [hr]
      simp only [List.length_cons, gt_iff_lt, Nat.zero_lt_succ, true_iff]
      rcases (mem_requiredArgs op a).mp hmem with ⟨q, hq, hreq, -⟩ | ⟨-, hb⟩
      · exact Or.inl ⟨q, hq, hreq⟩
      · exact Or.inr hb
  subst hs
  by_cases hl : (requiredArgs op).length > 0
  · have hnil : requiredArgs op ≠ [] := by
      intro e
      simp [e] at hl
    have hmap : (requiredArgs op).map Value.str ≠ [] := by
      simpa using hnil
    refine ⟨by simp [Value.get, mapGet], ⟨props, by simp [Value.get, mapGet]⟩, ?_, ?_, ?_⟩
    · rw [← hne]
      simp [Value.get, mapGet, hl]
    · simp [Value.get, mapGet, hl, hnil]
    · intro _
      exact ⟨by simp [Value.get, mapGet, hl], hnil⟩
  · refine ⟨by simp [Value.get, mapGet], ⟨props, by simp [Value.get, mapGet]⟩, ?_, ?_, ?_⟩
    · rw [← hne]
      simp [Value.get, mapGet, hl]
    · simp [Value.get, mapGet, hl]
    · intro hsome
      simp [Value.get, mapGet, hl] at hsome

/-- Witness of C7. `getPetOp` has the required path parameter `petId`: its input schema
has the "required" key, which lists "petId". `createPetOp` has a required JSON request
body: its input schema has the "required" key, which lists "body". `plainOp` has neither
parameters nor a request body: its input schema has no "required" key. -/
theorem generateInputSchema_object_witness :
    generateInputSchema {} 1 getPetOp = .ok getPetInputSchema ∧
    (getPetInputSchema.get "type" = some (.str "object") ∧
      (∃ properties, getPetInputSchema.get "properties" = some (.obj properties)) ∧
      ((getPetInputSchema.get "required").isSome = true ↔
        (∃ p ∈ getPetOp.Parameters, p.Required = true) ∨
          ∃ s body, attachedBody getPetOp = some s ∧ getPetOp.RequestBody = some body ∧
            body.Required = true) ∧
      getPetInputSchema.get "required" ≠ some (.arr []) ∧
      ((getPetInputSchema.get "required").isSome = true →
        getPetInputSchema.get "required" =
          some (.arr ((requiredArgs getPetOp).map Value.str)) ∧
        requiredArgs getPetOp ≠ [])) ∧
    petIdParam ∈ getPetOp.Parameters ∧ petIdParam.Required = true ∧
    getPetInputSchema.get "required" = some (.arr [.str "petId"]) ∧
    generateInputSchema {} 2 createPetOp = .ok createPetTool.InputSchema ∧
    ((createPetTool.InputSchema.get "required").isSome = true ↔
      (∃ p ∈ createPetOp.Parameters, p.Required = true) ∨
        ∃ s body, attachedBody createPetOp = some s ∧ createPetOp.RequestBody = some body ∧
          body.Required = true) ∧
    attachedBody createPetOp = some newPetSchema ∧ newPetBody.Required = true ∧
    createPetTool.InputSchema.get "required" = some (.arr [.str "body"]) ∧
    generateInputSchema {} 1 plainOp = .ok emptyInputSchema ∧
    ((emptyInputSchema.get "required").isSome = true ↔
      (∃ p ∈ plainOp.Parameters, p.Required = true) ∨
        ∃ s body, attachedBody plainOp = some s ∧ plainOp.RequestBody = some body ∧
          body.Required = true) ∧
    plainOp.Parameters.length = 0 ∧ attachedBody plainOp = none ∧
    emptyInputSchema.get "required" = none :=
  ⟨rfl, generateInputSchema_object {} 1 getPetOp getPetInputSchema rfl,
    List.mem_cons_self _ _, rfl, rfl,
    rfl, (generateInputSchema_object {} 2 createPetOp createPetTool.InputSchema rfl).2.2.1,
    rfl, rfl, rfl,
    rfl, (generateInputSchema_object {} 1 plainOp emptyInputSchema rfl).2.2.1,
    rfl, rfl, rfl⟩

/-! ## `GenerateTools` -/

/-- `GetOperations` holds the defined operations, in the order of the seven methods. -/
theorem GetOperations_values (p : PathItem) :
    (GetOperations p).map Prod.snd = definedOperations p := by
  obtain ⟨g, po, pu, d, pa, o, hd⟩ := p
  cases g <;> cases po <;> cases pu <;> cases d <;> cases pa <;> cases o <;> cases hd <;> rfl

/-- The inner loop adds one tool per operation with a non-empty identifier, named by
that identifier. -/
theorem generatePathTools_names (spec : OpenAPISpec) (fuel : Nat) (path : String)
    (ops : List (String × Operation)) :
    ∀ (tools tools' : List MCPTool),
      generatePathTools spec fuel path ops tools = .ok tools' →
      tools'.map MCPTool.Name =
        tools.map MCPTool.Name ++ operationIds (ops.map Prod.snd) := by
  induction ops with
  | nil =>
    intro tools tools' h
    simp only [generatePathTools, Except.ok.injEq] at h
    subst h
    simp [operationIds]
  | cons e rest ih =>
    intro tools tools' h
    obtain ⟨method, operation⟩ := e
    simp only [generatePathTools] at h
    by_cases hid : operation.OperationID = ""
    · simp only [hid, if_true] at h
      rw [ih tools tools' h]
      simp [operationIds, hid]
    · simp only [hid, if_false] at h
      cases hs : generateInputSchema spec fuel operation with
      | error err => simp [hs] at h
      | ok inputSchema =>
        rw [hs] at h
        simp only at h
        rw [ih _ tools' h]
        simp [operationIds, hid]

/-- The outer loop adds one tool per operation with a non-empty identifier, over all
paths. -/
theorem generateAllTools_names (spec : OpenAPISpec) (fuel : Nat)
    (paths : List (String × PathItem)) :
    ∀ (tools tools' : List MCPTool),
      generateAllTools spec fuel paths tools = .ok tools' →
      tools'.map MCPTool.Name =
        tools.map MCPTool.Name ++ operationIds (allOperations paths) := by
  induction paths with
  | nil =>
    intro tools tools' h
    simp only [generateAllTools, Except.ok.injEq] at h
    subst h
    simp [operationIds, allOperations]
  | cons e rest ih =>
    intro tools tools' h
    obtain ⟨path, pathItem⟩ := e
    simp only [generateAllTools] at h
    cases hp : generatePathTools spec fuel path (GetOperations pathItem) tools with
    | error err => simp [hp] at h
    | ok mid =>
      rw [hp] at h
      simp only at h
      rw [ih mid tools' h, generatePathTools_names spec fuel path _ tools mid hp,
        GetOperations_values]
      simp [operationIds, allOperations]

/-- The names of the tools of a fresh generator after `GenerateTools`. -/
theorem GenerateTools_name_list (spec : OpenAPISpec) (fuel : Nat) (g : MCPGenerator)
    (h : GenerateTools (NewMCPGenerator spec) fuel = .ok g) :
    (GetTools g).map MCPTool.Name = operationIds (allOperations spec.Paths) := by
  simp only [GenerateTools, NewMCPGenerator] at h
  cases ha : generateAllTools spec fuel spec.Paths [] with
  | error err => simp [ha] at h
  | ok tools =>
    rw [ha] at h
    simp only [Except.ok.injEq] at h
    subst h
    simpa [GetTools] using generateAllTools_names spec fuel spec.Paths [] tools ha

/-! ## When the generator returns -/

/-- A fragment that `convertSchema` returns is nil or a map, so the type assertion of
`generateInputSchema` (line 81) holds. -/
theorem convertSchema_value_shape (spec : OpenAPISpec) (fuel : Nat) :
    ∀ (schema : Option Schema) (v : Value), convertSchema spec fuel schema = .ok v →
      v = .null ∨ ∃ fields, v = .obj fields := by
  induction fuel with
  | zero =>
    intro schema v h
    simp [convertSchema] at h
  | succ fuel ih =>
    intro schema v h
    cases schema with
    | none =>
      simp only [convertSchema, Except.ok.injEq] at h
      exact Or.inl h.symm
    | some schema =>
      by_cases href : schema.Ref = ""
      · obtain ⟨fields, hf, -⟩ :=
          convertSchema_nonref_fields spec (fuel + 1) schema v href h
        exact Or.inr ⟨fields, hf⟩
      · simp only [convertSchema, href, ne_eq, not_false_eq_true, if_true] at h
        split at h
        · split at h
          · simp at h
          · split at h
            · split at h
              · simp at h
              · split at h
                · exact ih _ _ h
                · simp only [Except.ok.injEq] at h
                  exact Or.inr ⟨_, h.symm⟩
            · simp only [Except.ok.injEq] at h
              exact Or.inr ⟨_, h.symm⟩
        · simp only [Except.ok.injEq] at h
          exact Or.inr ⟨_, h.symm⟩

/-- The parameter loop returns whenever `convertSchema` returns on the schema of every
parameter. -/
theorem convertParameters_returns (spec : OpenAPISpec) (fuel : Nat)
    (params : List Parameter) :
    ∀ (properties : List (String × Value)) (required : List String),
      (∀ p ∈ params, ∃ v, convertSchema spec fuel p.Schema = .ok v) →
      ∃ r, convertParameters spec fuel params properties required = .ok r := by
  induction params with
  | nil =>
    intro properties required _
    exact ⟨_, rfl⟩
  | cons param rest ih =>
    intro properties required hall
    obtain ⟨v, hv⟩ := hall param (List.mem_cons_self _ _)
    have hrest : ∀ p ∈ rest, ∃ v, convertSchema spec fuel p.Schema = .ok v :=
      fun p hp => hall p (List.mem_cons_of_mem _ hp)
    simp only [convertParameters, hv]
    rcases convertSchema_value_shape spec fuel _ v hv with hnull | ⟨fields, hobj⟩
    · subst hnull
      exact ih _ _ hrest
    · subst hobj
      exact ih _ _ hrest

/-- `generateInputSchema` returns whenever `convertSchema` returns on the schema of every
parameter and on the attached request body schema: the translator is its only source of
a panic. -/
theorem generateInputSchema_returns (spec : OpenAPISpec) (fuel : Nat) (op : Operation)
    (hparams : ∀ p ∈ op.Parameters, ∃ v, convertSchema spec fuel p.Schema = .ok v)
    (hbody : ∀ s, attachedBody op = some s → ∃ v, convertSchema spec fuel (some s) = .ok v) :
    ∃ schema, generateInputSchema spec fuel op = .ok schema := by
  obtain ⟨⟨properties, required⟩, hr⟩ :=
    convertParameters_returns spec fuel op.Parameters [] [] hparams
  simp only [generateInputSchema, hr]
  cases hb : attachedBody op with
  | none => exact ⟨_, rfl⟩
  | some s =>
    cases hrb : op.RequestBody with
    | none => simp [attachedBody, hrb] at hb
    | some body =>
      obtain ⟨v, hv⟩ := hbody s hb
      simp only [hv]
      exact ⟨_, rfl⟩

/-! ## The structure of a fragment -/

/-- The body of `convertSchema` on a node without a `$ref`, in terms of `commonFields`. -/
theorem convertSchema_nonref_eq (spec : OpenAPISpec) (fuel : Nat) (schema : Schema)
    (href : schema.Ref = "") :
    convertSchema spec (fuel + 1) (some schema) =
      match (if schema.Type_ = "object" ∧ schema.Properties.length > 0 then
          match convertProperties (convertSchema spec fuel) schema.Properties [] with
          | .error e => .error e
          | .ok properties =>
            if schema.Required.length > 0 then
              .ok (mapSet "required" (.arr (schema.Required.map Value.str))
                (mapSet "properties" (.obj properties) (commonFields schema)))
            else .ok (mapSet "properties" (.obj properties) (commonFields schema))
        else .ok (commonFields schema) : Except Fault (List (String × Value))) with
      | .error e => .error e
      | .ok result =>
        if schema.Type_ = "array" then
          match schema.Items with
          | some items =>
            match convertSchema spec fuel (some items) with
            | .error e => .error e
            | .ok v => .ok (.obj (mapSet "items" v result))
          | none => .ok (.obj result)
        else .ok (.obj result) := by
  simp only [convertSchema, href, ne_eq, not_true_eq_false, if_false, commonFields]

/-- The keys of `commonFields` are among "type", "format", "description" and "enum". -/
theorem commonFields_keys (schema : Schema) (k : String)
    (hk : k ∈ mapKeys (commonFields schema)) :
    k = "type" ∨ k = "format" ∨ k = "description" ∨ k = "enum" := by
  unfold commonFields at hk
  by_cases hf : schema.Format = "" <;> by_cases hd : schema.Description = "" <;>
    by_cases he : schema.Enum.length = 0 <;>
    simp [hf, hd, he, Nat.pos_iff_ne_zero, mapSet, mapKeys] at hk <;> tauto

theorem mapGet_eq_none_of_not_mem {α : Type} (k : String) (m : List (String × α))
    (h : k ∉ mapKeys m) : mapGet k m = none := by
  cases hg : mapGet k m with
  | none => rfl
  | some v =>
    exfalso
    apply h
    rw [← mapGet_isSome_iff, hg]
    rfl

/-- The keys "properties", "required" and "items" are not among the common fields. -/
theorem commonFields_structure_absent (schema : Schema) :
    mapGet "properties" (commonFields schema) = none ∧
    mapGet "required" (commonFields schema) = none ∧
    mapGet "items" (commonFields schema) = none := by
  refine ⟨?_, ?_, ?_⟩ <;>
  · apply mapGet_eq_none_of_not_mem
    intro hk
    have := commonFields_keys schema _ hk
    revert this
    decide

/-- The property loop writes one key per source property and keeps the keys it found. -/
theorem convertProperties_keys (conv : Option Schema → Except Fault Value)
    (props : List (String × Option Schema)) :
    ∀ (acc out : List (String × Value)), convertProperties conv props acc = .ok out →
      ∀ a, a ∈ mapKeys out ↔ a ∈ mapKeys acc ∨ a ∈ mapKeys props := by
  induction props with
  | nil =>
    intro acc out h a
    simp only [convertProperties, Except.ok.injEq] at h
    subst h
    simp [mapKeys]
  | cons e rest ih =>
    intro acc out h a
    obtain ⟨name, propSchema⟩ := e
    simp only [convertProperties] at h
    cases hc : conv propSchema with
    | error err => simp [hc] at h
    | ok v =>
      rw [hc] at h
      simp only at h
      rw [ih _ out h a, mem_mapKeys_mapSet]
      simp only [mapKeys, List.map_cons, List.mem_cons]
      tauto

/-- The property loop leaves alone a key that is not a source property. -/
theorem convertProperties_untouched (conv : Option Schema → Except Fault Value)
    (props : List (String × Option Schema)) :
    ∀ (acc out : List (String × Value)) (k : String),
      convertProperties conv props acc = .ok out → k ∉ mapKeys props →
      mapGet k out = mapGet k acc := by
  induction props with
  | nil =>
    intro acc out k h _
    simp only [convertProperties, Except.ok.injEq] at h
    subst h
    rfl
  | cons e rest ih =>
    intro acc out k h hk
    obtain ⟨name, propSchema⟩ := e
    simp only [convertProperties] at h
    have hne : k ≠ name := fun heq => hk (by simp [mapKeys, heq])
    have hrest : k ∉ mapKeys rest := fun hmem => hk (by
      simp only [mapKeys, List.map_cons, List.mem_cons]
      exact Or.inr hmem)
    cases hc : conv propSchema with
    | error err => simp [hc] at h
    | ok v =>
      rw [hc] at h
      simp only at h
      rw [ih _ out k h hrest, mapGet_mapSet_ne _ _ _ _ hne]

/-- With distinct property names, the property loop maps every name to the translation
of its schema. -/
theorem convertProperties_values (conv : Option Schema → Except Fault Value)
    (props : List (String × Option Schema)) :
    ∀ (acc out : List (String × Value)), convertProperties conv props acc = .ok out →
      (mapKeys props).Nodup →
      ∀ name ps, (name, ps) ∈ props →
        ∃ pv, conv ps = .ok pv ∧ mapGet name out = some pv := by
  induction props with
  | nil =>
    intro acc out _ _ name ps hmem
    simp at hmem
  | cons e rest ih =>
    intro acc out h hnodup name ps hmem
    obtain ⟨name₀, propSchema⟩ := e
    simp only [convertProperties] at h
    simp only [mapKeys, List.map_cons, List.nodup_cons] at hnodup
    obtain ⟨hfresh, hnodup'⟩ := hnodup
    cases hc : conv propSchema with
    | error err => simp [hc] at h
    | ok v =>
      rw [hc] at h
      simp only at h
      rcases List.mem_cons.mp hmem with heq | hin
      · simp only [Prod.mk.injEq] at heq
        obtain ⟨h1, h2⟩ := heq
        subst h1
        subst h2
        refine ⟨v, hc, ?_⟩
        rw [convertProperties_untouched conv rest _ out name h hfresh]
        exact mapGet_mapSet_self _ _ _
      · exact ih _ out h hnodup' name ps hin

/-- C11. For a node without a `$ref`, of type "object" and with a non-empty properties
mapping, the fragment has a "properties" mapping whose keys are exactly the source's
property names, each mapped to `convertSchema` of the source property, and its
"required" is the source's required sequence when that is non-empty and is absent when
it is empty. -/
theorem convertSchema_object_properties (spec : OpenAPISpec) (fuel : Nat)
    (schema : Schema) (v : Value) (href : schema.Ref = "")
    (htype : schema.Type_ = "object") (hprops : schema.Properties.length > 0)
    (hnodup : (mapKeys schema.Properties).Nodup)
    (hv : convertSchema spec (fuel + 1) (some schema) = .ok v) :
    ∃ properties, v.get "properties" = some (.obj properties) ∧
      (∀ name, name ∈ mapKeys properties ↔ name ∈ mapKeys schema.Properties) ∧
      (∀ name ps, (name, ps) ∈ schema.Properties →
        ∃ pv, convertSchema spec fuel ps = .ok pv ∧ mapGet name properties = some pv) ∧
      v.get "required" =
        (if schema.Required.length = 0 then none
         else some (.arr (schema.Required.map Value.str))) := by
  rw [convertSchema_nonref_eq spec fuel schema href] at hv
  have harr : ¬ ("object" : String) = "array" := by decide
  simp only [htype, hprops, and_self, if_true, harr, if_false] at hv
  cases hp : convertProperties (convertSchema spec fuel) schema.Properties [] with
  | error e => simp [hp] at hv
  | ok properties =>
    rw [hp] at hv
    simp only at hv
    have hkeys := convertProperties_keys _ _ [] properties hp
    have hvals := convertProperties_values _ _ [] properties hp hnodup
    obtain ⟨-, hnoreq, -⟩ := commonFields_structure_absent schema
    refine ⟨properties, ?_, ?_, hvals, ?_⟩
    · by_cases hr : schema.Required.length = 0
      · simp only [hr, gt_iff_lt, lt_self_iff_false, if_false, Except.ok.injEq] at hv
        rw [← hv]
        exact mapGet_mapSet_self _ _ _
      · have hr' : schema.Required.length > 0 := Nat.pos_of_ne_zero hr
        simp only [hr', if_true, Except.ok.injEq] at hv
        rw [← hv]
        show mapGet "properties" _ = _
        rw [mapGet_mapSet_ne _ _ _ _ (by decide)]
        exact mapGet_mapSet_self _ _ _
    · intro name
      rw [hkeys name]
      simp [mapKeys]
    · by_cases hr : schema.Required.length = 0
      · simp only [hr, gt_iff_lt, lt_self_iff_false, if_false, Except.ok.injEq, if_true] at hv ⊢
        rw [← hv]
        show mapGet "required" _ = _
        rw [mapGet_mapSet_ne _ _ _ _ (by decide)]
        exact hnoreq
      · have hr' : schema.Required.length > 0 := Nat.pos_of_ne_zero hr
        simp only [hr', if_true, Except.ok.injEq, hr, if_false] at hv ⊢
        rw [← hv]
        exact mapGet_mapSet_self _ _ _

/-- Witness of C11: the object schema of the generator's test. -/
theorem convertSchema_object_properties_witness :
    convertSchema petSpec 2 (some personSchema) =
      .ok (.obj [("type", .str "object"),
        ("properties", .obj [("name", .obj [("type", .str "string")]),
          ("age", .obj [("type", .str "integer")])]),
        ("required", .arr [.str "name"])]) ∧
    ∃ properties,
      (Value.obj [("type", .str "object"),
        ("properties", .obj [("name", .obj [("type", .str "string")]),
          ("age", .obj [("type", .str "integer")])]),
        ("required", .arr [.str "name"])]).get "properties" = some (.obj properties) ∧
      (∀ name, name ∈ mapKeys properties ↔ name ∈ mapKeys personSchema.Properties) :=
  ⟨rfl,
    (convertSchema_object_properties petSpec 1 personSchema _ rfl rfl (by decide)
      (by decide) rfl).imp fun _ hx => ⟨hx.1, hx.2.1⟩⟩

/-- C12. For a node without a `$ref` and of type "array": when the items schema is
present the fragment's "items" is `convertSchema` of the items schema, and when it is
absent the fragment has no "items" key. -/
theorem convertSchema_array_items (spec : OpenAPISpec) (fuel : Nat) (schema : Schema)
    (v : Value) (href : schema.Ref = "") (htype : schema.Type_ = "array")
    (hv : convertSchema spec (fuel + 1) (some schema) = .ok v) :
    (∀ items, schema.Items = some items →
      ∃ iv, convertSchema spec fuel (some items) = .ok iv ∧ v.get "items" = some iv) ∧
    (schema.Items = none → v.get "items" = none) := by
  rw [convertSchema_nonref_eq spec fuel schema href] at hv
  have hobj : ¬ ("array" : String) = "object" := by decide
  simp only [htype, hobj, false_and, if_false, if_true] at hv
  obtain ⟨-, -, hnoitems⟩ := commonFields_structure_absent schema
  constructor
  · intro items hitems
    rw [hitems] at hv
    simp only at hv
    cases hc : convertSchema spec fuel (some items) with
    | error e => simp [hc] at hv
    | ok iv =>
      rw [hc] at hv
      simp only [Except.ok.injEq] at hv
      refine ⟨iv, rfl, ?_⟩
      rw [← hv]
      exact mapGet_mapSet_self _ _ _
  · intro hnone
    rw [hnone] at hv
    simp only [Except.ok.injEq] at hv
    rw [← hv]
    exact hnoitems

/-- Witness of C12: the array of strings of the generator's test. -/
theorem convertSchema_array_items_witness :
    convertSchema petSpec 2 (some stringArraySchema) =
      .ok (.obj [("type", .str "array"), ("items", .obj [("type", .str "string")])]) ∧
    ∃ iv, convertSchema petSpec 1 (some { emptySchema with Type_ := "string" }) = .ok iv ∧
      (Value.obj [("type", .str "array"),
        ("items", .obj [("type", .str "string")])]).get "items" = some iv :=
  ⟨rfl,
    (convertSchema_array_items petSpec 1 stringArraySchema _ rfl rfl rfl).1 _ rfl⟩

/-- C13. For a node without a `$ref` whose type is neither "object" nor "array",
`convertSchema` returns, at any depth, a fragment without the keys "properties",
"required" and "items", whatever the node carries in those fields; its keys are among
"type", "format", "description" and "enum". -/
theorem convertSchema_scalar (spec : OpenAPISpec) (fuel : Nat) (schema : Schema)
    (href : schema.Ref = "") (hobj : schema.Type_ ≠ "object")
    (harr : schema.Type_ ≠ "array") :
    ∃ fields, convertSchema spec (fuel + 1) (some schema) = .ok (.obj fields) ∧
      (Value.obj fields).get "properties" = none ∧
      (Value.obj fields).get "required" = none ∧
      (Value.obj fields).get "items" = none ∧
      ∀ k ∈ mapKeys fields, k = "type" ∨ k = "format" ∨ k = "description" ∨ k = "enum" := by
  refine ⟨commonFields schema, ?_, ?_, ?_, ?_, ?_⟩
  · rw [convertSchema_nonref_eq spec fuel schema href]
    simp [hobj, harr]
  · exact (commonFields_structure_absent schema).1
  · exact (commonFields_structure_absent schema).2.1
  · exact (commonFields_structure_absent schema).2.2
  · exact fun k hk => commonFields_keys schema k hk

/-- Witness of C13: a string schema that carries properties, a required list and an
items schema translates to its type and format alone. -/
theorem convertSchema_scalar_witness :
    ladenStringSchema.Properties.length = 1 ∧ ladenStringSchema.Required = ["name"] ∧
    convertSchema petSpec 1 (some ladenStringSchema) =
      .ok (.obj [("type", .str "string"), ("format", .str "date")]) ∧
    ∃ fields, convertSchema petSpec 1 (some ladenStringSchema) = .ok (.obj fields) ∧
      (Value.obj fields).get "properties" = none :=
  ⟨rfl, rfl, rfl,
    (convertSchema_scalar petSpec 0 ladenStringSchema rfl (by decide) (by decide)).imp
      fun _ hx => ⟨hx.1, hx.2.1⟩⟩

/-! ## `handleRequest` -/

/-- C14. A request whose method is none of "initialize", "tools/list" and "tools/call",
the empty method included, is answered with the error -32601 "Method not found" and no
result; nothing is executed. -/
theorem handleRequest_unknown_method (lib : Library) (s : MCPServer) (request : MCPRequest)
    (hinit : request.Method ≠ "initialize") (hlist : request.Method ≠ "tools/list")
    (hcall : request.Method ≠ "tools/call") :
    handleRequest lib s request =
      ([], { Jsonrpc := "2.0", Result := .absent
             Error := some { Code := -32601, Message := "Method not found" }
             ID := request.ID }) := by
  simp [handleRequest, hinit, hlist, hcall]

/-- Witness of C14: the request with method "invalid/method" of the server's test. -/
theorem handleRequest_unknown_method_witness :
    handleRequest okLibrary petsServer invalidMethodRequest =
      ([], { Jsonrpc := "2.0", Result := .absent
             Error := some { Code := -32601, Message := "Method not found" }
             ID := .num 3 }) :=
  handleRequest_unknown_method okLibrary petsServer invalidMethodRequest
    (by decide) (by decide) (by decide)

/-- C18. An "initialize" request, whatever its params, is answered with a result and no
error; the result has protocolVersion "2025-06-18", the serverInfo name "specmill" and
version "1.0.0", and a tools entry under capabilities. -/
theorem handleRequest_initialize (lib : Library) (s : MCPServer) (request : MCPRequest)
    (hinit : request.Method = "initialize") :
    ∃ result capabilities serverInfo,
      handleRequest lib s request =
        ([], { Jsonrpc := "2.0", Result := .json result, Error := none, ID := request.ID }) ∧
      result.get "protocolVersion" = some (.str "2025-06-18") ∧
      result.get "capabilities" = some capabilities ∧
      capabilities.get "tools" = some (.obj []) ∧
      result.get "serverInfo" = some serverInfo ∧
      serverInfo.get "name" = some (.str "specmill") ∧
      serverInfo.get "version" = some (.str "1.0.0") := by
  refine ⟨.obj [("protocolVersion", .str "2025-06-18"),
      ("capabilities", .obj [("tools", .obj [])]),
      ("serverInfo", .obj [("name", .str "specmill"), ("version", .str "1.0.0")])],
    .obj [("tools", .obj [])],
    .obj [("name", .str "specmill"), ("version", .str "1.0.0")],
    ?_, rfl, rfl, rfl, rfl, rfl, rfl⟩
  simp [handleRequest, hinit, handleInitialize]

/-- Witness of C18: a request that declares protocol version "2024-11-05" is answered
with "2025-06-18". -/
theorem handleRequest_initialize_witness :
    ∃ result capabilities serverInfo,
      handleRequest okLibrary petsServer initializeRequest =
        ([], { Jsonrpc := "2.0", Result := .json result, Error := none
               ID := .str "init-1" }) ∧
      result.get "protocolVersion" = some (.str "2025-06-18") ∧
      result.get "capabilities" = some capabilities ∧
      capabilities.get "tools" = some (.obj []) ∧
      result.get "serverInfo" = some serverInfo ∧
      serverInfo.get "name" = some (.str "specmill") ∧
      serverInfo.get "version" = some (.str "1.0.0") :=
  handleRequest_initialize okLibrary petsServer initializeRequest rfl

/-- C19. The response of `handleRequest` is a well-formed envelope: its jsonrpc is "2.0",
its id is the request's id, and exactly one of result and error is set. -/
theorem handleRequest_envelope (lib : Library) (s : MCPServer) (request : MCPRequest) :
    (handleRequest lib s request).2.Jsonrpc = "2.0" ∧
    (handleRequest lib s request).2.ID = request.ID ∧
    (((handleRequest lib s request).2.Result ≠ .absent ∧
        (handleRequest lib s request).2.Error = none) ∨
      ((handleRequest lib s request).2.Result = .absent ∧
        (handleRequest lib s request).2.Error ≠ none)) ∧
    ∀ err, (handleRequest lib s request).2.Result ≠ .malformed err := by
  unfold handleRequest
  by_cases hinit : request.Method = "initialize"
  · simp [hinit, handleInitialize]
  · by_cases hlist : request.Method = "tools/list"
    · simp [hinit, hlist, handleListTools]
    · by_cases hcall : request.Method = "tools/call"
      · simp only [hinit, hlist, hcall, if_true, if_false, handleCallTool]
        cases hp : unmarshalCallToolParams request.Params with
        | error e => simp
        | ok params =>
          simp only
          rcases he : ExecuteTool lib s.generator params.Name params.Arguments with
            ⟨events, result⟩
          cases result with
          | error err => simp
          | ok result => simp
      · simp [hinit, hlist, hcall]

/-! ## `handleCallTool` -/

/-- Decoding the members of an object ends without an error exactly when it started
without one and no member is a `name` of the wrong kind. -/
theorem decodeCallToolFields_error (fields : List (String × Value)) :
    ∀ (params : CallToolParams) (err : Option String),
      (decodeCallToolFields fields params err).2 = none ↔
        (err = none ∧ fields.any nameMismatch = false) := by
  induction fields with
  | nil =>
    intro params err
    simp [decodeCallToolFields]
  | cons e rest ih =>
    intro params err
    obtain ⟨key, value⟩ := e
    by_cases hname : foldKey key = "name"
    · cases value with
      | str s => simp [decodeCallToolFields, hname, ih, nameMismatch]
      | null => simp [decodeCallToolFields, hname, ih, nameMismatch]
      | bool b => cases err <;> simp [decodeCallToolFields, hname, ih, nameMismatch]
      | num n => cases err <;> simp [decodeCallToolFields, hname, ih, nameMismatch]
      | arr xs => cases err <;> simp [decodeCallToolFields, hname, ih, nameMismatch]
      | obj fs => cases err <;> simp [decodeCallToolFields, hname, ih, nameMismatch]
    · by_cases hargs : foldKey key = "arguments"
      · simp [decodeCallToolFields, hname, hargs, ih, nameMismatch]
      · simp [decodeCallToolFields, hname, hargs, ih, nameMismatch]

/-- `json.Unmarshal` into a `CallToolParams` fails exactly on the rejected payloads. -/
theorem unmarshalCallToolParams_error (raw : RawMessage) :
    (∃ err, unmarshalCallToolParams raw = .error err) ↔ rejectedParams raw = true := by
  cases raw with
  | absent => simp [unmarshalCallToolParams, rejectedParams]
  | malformed e => simp [unmarshalCallToolParams, rejectedParams]
  | json v =>
    cases v with
    | null => simp [unmarshalCallToolParams, rejectedParams]
    | bool b => simp [unmarshalCallToolParams, rejectedParams]
    | num n => simp [unmarshalCallToolParams, rejectedParams]
    | str s => simp [unmarshalCallToolParams, rejectedParams]
    | arr xs => simp [unmarshalCallToolParams, rejectedParams]
    | obj fields =>
      have h := decodeCallToolFields_error fields { Name := "", Arguments := .absent } none
      simp only [unmarshalCallToolParams, rejectedParams]
      rcases hd : decodeCallToolFields fields { Name := "", Arguments := .absent } none with
        ⟨params, err⟩
      rw [hd] at h
      cases err with
      | none =>
        have h' : fields.any nameMismatch = false := (h.mp rfl).2
        simp [h']
      | some e =>
        have h' : ¬ fields.any nameMismatch = false := fun hf => by
          have := h.mpr ⟨rfl, hf⟩
          simp at this
        simp only [Bool.not_eq_false] at h'
        simp [h']

/-- C15, as the code has it. A "tools/call" request whose params is absent, is not JSON,
is a JSON string, number, boolean or array, or is an object with a `name` member that is
neither a string nor null, is answered with the error -32602 "Invalid params" and the
tool executor is not invoked. Every other params payload (JSON null, an object without a
`name`, an object whose `name` is null) is decoded and the tool executor is invoked. -/
theorem handleRequest_invalid_params (lib : Library) (s : MCPServer) (request : MCPRequest)
    (hcall : request.Method = "tools/call") :
    (rejectedParams request.Params = true →
      handleRequest lib s request =
        ([], { Jsonrpc := "2.0", Result := .absent
               Error := some { Code := -32602, Message := "Invalid params" }
               ID := request.ID })) ∧
    (rejectedParams request.Params = false →
      ∃ params events, unmarshalCallToolParams request.Params = .ok params ∧
        (handleRequest lib s request).1 =
          .executeTool params.Name params.Arguments :: events) := by
  have hinit : ¬ request.Method = "initialize" := by
    rw [hcall]
    decide
  have hlist : ¬ request.Method = "tools/list" := by
    rw [hcall]
    decide
  constructor
  · intro hrej
    obtain ⟨err, herr⟩ := (unmarshalCallToolParams_error request.Params).mpr hrej
    simp [handleRequest, hinit, hlist, hcall, handleCallTool, herr]
  · intro hacc
    cases hp : unmarshalCallToolParams request.Params with
    | error err =>
      have := (unmarshalCallToolParams_error request.Params).mp ⟨err, hp⟩
      rw [hacc] at this
      exact absurd this (by decide)
    | ok params =>
      simp only [handleRequest, hinit, hlist, hcall, if_true, if_false, handleCallTool, hp]
      rcases he : ExecuteTool lib s.generator params.Name params.Arguments with
        ⟨events, result⟩
      cases result with
      | error err => exact ⟨params, events, rfl, rfl⟩
      | ok result => exact ⟨params, events, rfl, rfl⟩

/-- Witness of C15 as amended: the request with params "invalid" of the server's test. -/
theorem handleRequest_invalid_params_witness :
    handleRequest okLibrary petsServer invalidParamsRequest =
      ([], { Jsonrpc := "2.0", Result := .absent
             Error := some { Code := -32602, Message := "Invalid params" }
             ID := .num 4 }) :=
  (handleRequest_invalid_params okLibrary petsServer invalidParamsRequest rfl).1 rfl

/-- C15 as stated fails: the params `{"name":null,"arguments":{}}` are an object whose
name is not a string, yet they decode (to the empty name), the tool executor is invoked,
and the answer is the error -32603 of the executor, not -32602. -/
theorem null_name_invokes_executor :
    nullNameRequest.Method = "tools/call" ∧
    handleRequest okLibrary dupServer nullNameRequest =
      ([.executeTool "" (.json (.obj []))],
        { Jsonrpc := "2.0", Result := .absent
          Error := some { Code := -32603, Message := "tool not found: " }
          ID := .num 5 }) :=
  ⟨rfl, rfl⟩

/-! ## `ExecuteTool`: the lookup -/

theorem findInOperations_none (name : String) (ops : List (String × Operation)) :
    findInOperations name ops = none ↔ name ∉ (ops.map Prod.snd).map fun op => op.OperationID := by
  induction ops with
  | nil => simp [findInOperations]
  | cons e rest ih =>
    obtain ⟨m, op⟩ := e
    by_cases h : op.OperationID = name
    · simp [findInOperations, h]
    · simp only [findInOperations, h, if_false, ih, List.map_cons, List.mem_cons, not_or]
      constructor
      · intro hr
        exact ⟨fun e => h e.symm, hr⟩
      · intro hr
        exact hr.2

/-- The lookup of `ExecuteTool` fails exactly when no operation of the spec, with or
without an identifier, has the operationId `name`. -/
theorem findOperation_none (name : String) (paths : List (String × PathItem)) :
    findOperation name paths = none ↔
      name ∉ (allOperations paths).map fun op => op.OperationID := by
  induction paths with
  | nil => simp [findOperation, allOperations]
  | cons e rest ih =>
    obtain ⟨p, pathItem⟩ := e
    simp only [findOperation, allOperations, List.map_append, List.mem_append, not_or]
    cases hf : findInOperations name (GetOperations pathItem) with
    | some found =>
      obtain ⟨m, op⟩ := found
      simp only [false_iff, not_and, reduceCtorEq]
      intro hno
      exfalso
      have := (findInOperations_none name (GetOperations pathItem)).mpr
        (by rw [GetOperations_values]; exact hno)
      rw [hf] at this
      exact absurd this (by simp)
    | none =>
      have hno := (findInOperations_none name (GetOperations pathItem)).mp hf
      rw [GetOperations_values] at hno
      simp only [ih]
      exact ⟨fun hr => ⟨hno, hr⟩, fun hr => hr.2⟩

/-- `GenerateTools` keeps the spec of the generator. -/
theorem GenerateTools_spec (g g' : MCPGenerator) (fuel : Nat)
    (h : GenerateTools g fuel = .ok g') : g'.spec = g.spec ∧ g'.baseURL = g.baseURL := by
  simp only [GenerateTools] at h
  cases ha : generateAllTools g.spec fuel g.spec.Paths g.tools with
  | error err => simp [ha] at h
  | ok tools =>
    rw [ha] at h
    simp only [Except.ok.injEq] at h
    subst h
    exact ⟨rfl, rfl⟩

/-- The part of C16 that holds: a non-empty name that is not the name of a generated tool
makes `ExecuteTool` return "tool not found: <name>" without a call of `http.NewRequest`
or `client.Do`, and a "tools/call" for it is answered with the error -32603. -/
theorem ExecuteTool_unknown_tool (lib : Library) (spec : OpenAPISpec) (fuel : Nat)
    (g : MCPGenerator) (name : String) (arguments : RawMessage)
    (h : GenerateTools (NewMCPGenerator spec) fuel = .ok g) (hne : name ≠ "")
    (hunknown : name ∉ (GetTools g).map MCPTool.Name) :
    ExecuteTool lib g name arguments = ([], .error ("tool not found: " ++ name)) ∧
    ∀ (request : MCPRequest) (params : CallToolParams),
      request.Method = "tools/call" →
      unmarshalCallToolParams request.Params = .ok params → params.Name = name →
      handleRequest lib { generator := g, spec := spec } request =
        ([.executeTool name params.Arguments],
          { Jsonrpc := "2.0", Result := .absent
            Error := some { Code := -32603, Message := "tool not found: " ++ name }
            ID := request.ID }) := by
  have hspec : g.spec = spec := (GenerateTools_spec _ g fuel h).1
  have hnone : findOperation name g.spec.Paths = none := by
    rw [findOperation_none, hspec]
    intro hmem
    apply hunknown
    rw [GenerateTools_name_list spec fuel g h, operationIds, List.mem_filter]
    exact ⟨hmem, by simpa using hne⟩
  have hexec : ExecuteTool lib g name arguments = ([], .error ("tool not found: " ++ name)) := by
    simp [ExecuteTool, hnone]
  refine ⟨hexec, ?_⟩
  intro request params hcall hp hname
  have hinit : ¬ request.Method = "initialize" := by
    rw [hcall]
    decide
  have hlist : ¬ request.Method = "tools/list" := by
    rw [hcall]
    decide
  have hexec' : ExecuteTool lib g name params.Arguments =
      ([], .error ("tool not found: " ++ name)) := by
    simp [ExecuteTool, hnone]
  simp [handleRequest, hinit, hlist, hcall, handleCallTool, hp, hname, hexec']

/-- Witness of the part of C16 that holds: `deletePet` is not a tool of `petsSpec`. -/
theorem ExecuteTool_unknown_tool_witness :
    ExecuteTool okLibrary petsGenerator "deletePet" (.json (.obj [])) =
      ([], .error "tool not found: deletePet") ∧
    handleRequest okLibrary { generator := petsGenerator, spec := petsSpec }
        unknownToolRequest =
      ([.executeTool "deletePet" (.json (.obj []))],
        { Jsonrpc := "2.0", Result := .absent
          Error := some { Code := -32603, Message := "tool not found: deletePet" }
          ID := .num 7 }) :=
  ⟨(ExecuteTool_unknown_tool okLibrary petsSpec 2 petsGenerator "deletePet" _ rfl
      (by decide) (by decide)).1,
    (ExecuteTool_unknown_tool okLibrary petsSpec 2 petsGenerator "deletePet" (.json (.obj []))
      rfl (by decide) (by decide)).2 unknownToolRequest
      { Name := "deletePet", Arguments := .json (.obj []) } rfl rfl rfl⟩

/-- C16, where the code departs from it. In `shopSpec` the operation `GET /health` has no
operationId, so no tool has the empty name; `ExecuteTool` with the empty name finds that
operation all the same, builds and issues `GET https://api.example.com/health`, and the
"tools/call" is answered with a result, not with "tool not found" and the error
-32603. -/
theorem ExecuteTool_empty_name_runs_anonymous :
    GenerateTools (NewMCPGenerator shopSpec) 2 = .ok shopGenerator ∧
    "" ∉ (GetTools shopGenerator).map MCPTool.Name ∧
    ExecuteTool okLibrary shopGenerator "" (.json (.obj [])) =
      ([.newRequest "GET" "https://api.example.com/health",
        .clientDo { Method := "GET", URL := "https://api.example.com/health", Query := [] }],
        .ok { Content := [{ Type_ := "text", Text := "HTTP 200 response received" }] }) ∧
    handleRequest okLibrary shopServer emptyNameRequest =
      ([.executeTool "" (.json (.obj [])),
        .newRequest "GET" "https://api.example.com/health",
        .clientDo { Method := "GET", URL := "https://api.example.com/health", Query := [] }],
        { Jsonrpc := "2.0"
          Result := .json (.obj [("content", .arr [.obj [("type", .str "text"),
            ("text", .str "HTTP 200 response received")]])])
          Error := none
          ID := .num 6 }) :=
  ⟨rfl, by decide, rfl, rfl⟩

/-! ## `ExecuteTool`: the arguments -/

/-- `json.Unmarshal` into the arguments map fails on the rejected payloads. -/
theorem unmarshalArguments_error (raw : RawMessage) (h : rejectedArguments raw = true) :
    ∃ err, unmarshalArguments raw = .error err := by
  cases raw with
  | absent => exact ⟨_, rfl⟩
  | malformed e => exact ⟨_, rfl⟩
  | json v => cases v <;> first | exact ⟨_, rfl⟩ | simp [rejectedArguments] at h

/-- C17, as the code has it. When the tool name matches an operation and the arguments
payload is absent, is not JSON, or is a JSON array, string, number or boolean,
`ExecuteTool` fails with an "invalid arguments" error and makes no call of
`http.NewRequest` or `client.Do`. The JSON payload null is not rejected: it is executed
as the empty argument object is. -/
theorem ExecuteTool_invalid_arguments (lib : Library) (g : MCPGenerator) (name : String)
    (arguments : RawMessage) (found : String × String × Operation)
    (hfound : findOperation name g.spec.Paths = some found) :
    (rejectedArguments arguments = true →
      ∃ detail, ExecuteTool lib g name arguments =
        ([], .error ("invalid arguments: " ++ detail))) ∧
    (arguments = .json .null →
      ExecuteTool lib g name arguments = ExecuteTool lib g name (.json (.obj []))) := by
  obtain ⟨path, method, operation⟩ := found
  constructor
  · intro hrej
    obtain ⟨err, herr⟩ := unmarshalArguments_error arguments hrej
    exact ⟨err, by simp [ExecuteTool, hfound, herr]⟩
  · intro hnull
    subst hnull
    simp [ExecuteTool, hfound, unmarshalArguments, decodeMembers]

/-- Witness of C17 as amended: `listPets` with the arguments `[1,2]` and with no
arguments. -/
theorem ExecuteTool_invalid_arguments_witness :
    findOperation "listPets" petsGenerator.spec.Paths = some ("/pets", "get", listPetsOp) ∧
    ExecuteTool okLibrary petsGenerator "listPets" (.json (.arr [.num 1, .num 2])) =
      ([], .error ("invalid arguments: json: cannot unmarshal array into Go value of type " ++
        "map[string]interface {}")) ∧
    ∃ detail, ExecuteTool okLibrary petsGenerator "listPets" .absent =
      ([], .error ("invalid arguments: " ++ detail)) :=
  ⟨rfl, rfl,
    (ExecuteTool_invalid_arguments okLibrary petsGenerator "listPets" .absent
      ("/pets", "get", listPetsOp) rfl).1 rfl⟩

/-- C17 as stated fails: with the arguments payload null, `ExecuteTool` for `listPets`
does not fail; it builds and issues `GET https://api.example.com/pets`. -/
theorem null_arguments_are_executed :
    findOperation "listPets" shopGenerator.spec.Paths = some ("/pets", "get", listPetsOp) ∧
    ExecuteTool okLibrary shopGenerator "listPets" (.json .null) =
      ([.newRequest "GET" "https://api.example.com/pets",
        .clientDo { Method := "GET", URL := "https://api.example.com/pets", Query := [] }],
        .ok { Content := [{ Type_ := "text", Text := "HTTP 200 response received" }] }) :=
  ⟨rfl, rfl⟩

/-! ## `GetOperations` -/

/-- The keys of `GetOperations` are the keys of the present operations. -/
theorem GetOperations_presentKeys (p : PathItem) :
    mapKeys (GetOperations p) = presentKeys p ∧
    (GetOperations p).length = (definedOperations p).length := by
  obtain ⟨g, po, pu, d, pa, o, hd⟩ := p
  cases g <;> cases po <;> cases pu <;> cases d <;> cases pa <;> cases o <;> cases hd <;>
    exact ⟨rfl, rfl⟩

/-- The lookups in `GetOperations` give back the fields of the path item. -/
theorem GetOperations_lookup (p : PathItem) :
    mapGet "get" (GetOperations p) = p.Get ∧
    mapGet "post" (GetOperations p) = p.Post ∧
    mapGet "put" (GetOperations p) = p.Put ∧
    mapGet "delete" (GetOperations p) = p.Delete ∧
    mapGet "patch" (GetOperations p) = p.Patch ∧
    mapGet "options" (GetOperations p) = p.Options ∧
    mapGet "head" (GetOperations p) = p.Head := by
  obtain ⟨g, po, pu, d, pa, o, hd⟩ := p
  cases g <;> cases po <;> cases pu <;> cases d <;> cases pa <;> cases o <;> cases hd <;>
    exact ⟨rfl, rfl, rfl, rfl, rfl, rfl, rfl⟩

theorem presentKeys_sublist (p : PathItem) : (presentKeys p).Sublist methodKeys := by
  unfold presentKeys
  exact (List.filter_sublist _).map Prod.fst

/-- C22. The map that `GetOperations` returns holds, under each of the keys "get", "post",
"put", "delete", "patch", "options" and "head", the operation of the path item when it is
present and nothing when it is absent; it has no other key, no key twice, and as many
entries as there are present operations. -/
theorem GetOperations_map (p : PathItem) :
    mapGet "get" (GetOperations p) = p.Get ∧
    mapGet "post" (GetOperations p) = p.Post ∧
    mapGet "put" (GetOperations p) = p.Put ∧
    mapGet "delete" (GetOperations p) = p.Delete ∧
    mapGet "patch" (GetOperations p) = p.Patch ∧
    mapGet "options" (GetOperations p) = p.Options ∧
    mapGet "head" (GetOperations p) = p.Head ∧
    (∀ k ∈ mapKeys (GetOperations p), k ∈ methodKeys) ∧
    (mapKeys (GetOperations p)).Nodup ∧
    (GetOperations p).length = (definedOperations p).length := by
  obtain ⟨h1, h2, h3, h4, h5, h6, h7⟩ := GetOperations_lookup p
  obtain ⟨hkeys, hlen⟩ := GetOperations_presentKeys p
  refine ⟨h1, h2, h3, h4, h5, h6, h7, ?_, ?_, hlen⟩
  · intro k hk
    rw [hkeys] at hk
    exact (presentKeys_sublist p).subset hk
  · rw [hkeys]
    exact (presentKeys_sublist p).nodup (by decide)

/-! ## The properties of an input schema -/

/-- C26. Every name in the "required" list of a generated input schema is a key of its
"properties" mapping. -/
theorem generateInputSchema_required_described (spec : OpenAPISpec) (fuel : Nat)
    (op : Operation) (schema : Value) (h : generateInputSchema spec fuel op = .ok schema) :
    ∀ a ∈ requiredNames schema,
      ∃ properties, schema.get "properties" = some (.obj properties) ∧
        (mapGet a properties).isSome = true := by
  intro a ha
  rw [generateInputSchema_requiredNames spec fuel op schema h, mem_requiredArgs] at ha
  obtain ⟨p₀, props, r₀, hpar, hbody, hget, -⟩ :=
    generateInputSchema_properties spec fuel op schema h
  refine ⟨props, hget, ?_⟩
  rw [mapGet_isSome_iff]
  rcases ha with ⟨q, hq, -, hname⟩ | ⟨hbodyname, hreq⟩
  · have hkey₀ : a ∈ mapKeys p₀ :=
      ((convertParameters_ok spec fuel op.Parameters [] [] p₀ r₀ hpar).2 a).mpr
        (Or.inr ⟨q, hq, hname⟩)
    rcases hbody with ⟨-, he⟩ | ⟨s, v, -, -, he⟩
    · rw [he]
      exact hkey₀
    · rw [he, mem_mapKeys_mapSet]
      exact Or.inr hkey₀
  · obtain ⟨s, body, hatt, -, -⟩ := (bodyRequired_iff op).mp hreq
    rcases hbody with ⟨hnone, -⟩ | ⟨s', v, -, -, he⟩
    · rw [hatt] at hnone
      exact absurd hnone (by simp)
    · rw [he, mem_mapKeys_mapSet]
      exact Or.inl hbodyname

/-- Witness of C26: `createPetOp` requires "body" and describes it. -/
theorem generateInputSchema_required_described_witness :
    requiredNames createPetTool.InputSchema = ["body"] ∧
    ∃ properties, createPetTool.InputSchema.get "properties" = some (.obj properties) ∧
      (mapGet "body" properties).isSome = true :=
  ⟨rfl,
    generateInputSchema_required_described {} 2 createPetOp createPetTool.InputSchema rfl
      "body" (by decide)⟩

/-- The parameter loop leaves alone a key that is no argument name of its parameters. -/
theorem convertParameters_untouched (spec : OpenAPISpec) (fuel : Nat)
    (params : List Parameter) (k : String) :
    ∀ (properties : List (String × Value)) (required : List String)
      (properties' : List (String × Value)) (required' : List String),
      convertParameters spec fuel params properties required = .ok (properties', required') →
      (∀ q ∈ params, paramName q ≠ k) →
      mapGet k properties' = mapGet k properties := by
  induction params with
  | nil =>
    intro properties required properties' required' h _
    simp only [convertParameters, Except.ok.injEq, Prod.mk.injEq] at h
    rw [h.1]
  | cons param rest ih =>
    intro properties required properties' required' h hk
    have hne : k ≠ paramName param := fun e => hk param (List.mem_cons_self _ _) e.symm
    have hrest : ∀ q ∈ rest, paramName q ≠ k := fun q hq => hk q (List.mem_cons_of_mem _ hq)
    simp only [convertParameters] at h
    cases hc : convertSchema spec fuel param.Schema with
    | error e => simp [hc] at h
    | ok converted =>
      rw [hc] at h
      cases converted with
      | null =>
        rw [ih _ _ _ _ h hrest, mapGet_mapSet_ne _ _ _ _ hne]
      | obj fields =>
        rw [ih _ _ _ _ h hrest, mapGet_mapSet_ne _ _ _ _ hne]
      | bool b => simp at h
      | num n => simp at h
      | str s => simp at h
      | arr xs => simp at h

/-- The property of a parameter whose argument name no later parameter reuses. -/
theorem convertParameters_property (spec : OpenAPISpec) (fuel : Nat) (p : Parameter)
    (after : List Parameter) (hlater : ∀ q ∈ after, paramName q ≠ paramName p)
    (before : List Parameter) :
    ∀ (properties : List (String × Value)) (required : List String)
      (properties' : List (String × Value)) (required' : List String),
      convertParameters spec fuel (before ++ p :: after) properties required =
        .ok (properties', required') →
      ∃ converted, convertSchema spec fuel p.Schema = .ok converted ∧
        mapGet (paramName p) properties' = some (paramProperty p converted) := by
  induction before with
  | nil =>
    intro properties required properties' required' h
    simp only [List.nil_append, convertParameters] at h
    cases hc : convertSchema spec fuel p.Schema with
    | error e => simp [hc] at h
    | ok converted =>
      rw [hc] at h
      refine ⟨converted, rfl, ?_⟩
      cases converted with
      | null =>
        rw [convertParameters_untouched spec fuel after _ _ _ _ _ h hlater]
        exact mapGet_mapSet_self _ _ _
      | obj fields =>
        rw [convertParameters_untouched spec fuel after _ _ _ _ _ h hlater]
        exact mapGet_mapSet_self _ _ _
      | bool b => simp at h
      | num n => simp at h
      | str s => simp at h
      | arr xs => simp at h
  | cons param rest ih =>
    intro properties required properties' required' h
    simp only [List.cons_append, convertParameters] at h
    cases hc : convertSchema spec fuel param.Schema with
    | error e => simp [hc] at h
    | ok converted =>
      rw [hc] at h
      cases converted with
      | null => exact ih _ _ _ _ h
      | obj fields => exact ih _ _ _ _ h
      | bool b => simp at h
      | num n => simp at h
      | str s => simp at h
      | arr xs => simp at h

/-- C25, as the code has it. For a declared parameter whose argument name is not reused by
a later parameter or by the request body, the property generated for it is the
translation of its schema, or `{"type":"string"}` when that translation is absent (the
parameter has no schema, or its schema is a `$ref` to a component registered as nil),
with "description" set to the parameter's description, which replaces any description
of the schema, also when it is empty. -/
theorem generateInputSchema_param_property (spec : OpenAPISpec) (fuel : Nat)
    (op : Operation) (schema : Value) (p : Parameter) (before after : List Parameter)
    (h : generateInputSchema spec fuel op = .ok schema)
    (hparams : op.Parameters = before ++ p :: after)
    (hlater : ∀ q ∈ after, paramName q ≠ paramName p)
    (hbody : attachedBody op = none ∨ paramName p ≠ "body") :
    ∃ converted properties property,
      convertSchema spec fuel p.Schema = .ok converted ∧
      schema.get "properties" = some (.obj properties) ∧
      mapGet (paramName p) properties = some property ∧
      (converted = .null →
        property = .obj [("type", .str "string"), ("description", .str p.Description)]) ∧
      (∀ fields, converted = .obj fields →
        property = .obj (mapSet "description" (.str p.Description) fields)) ∧
      (converted = .null ∨ ∃ fields, converted = .obj fields) ∧
      (p.Schema = none → converted = .null) ∧
      property.get "description" = some (.str p.Description) := by
  obtain ⟨p₀, props, r₀, hpar, hb, hget, -⟩ :=
    generateInputSchema_properties spec fuel op schema h
  rw [hparams] at hpar
  obtain ⟨converted, hconv, hprop⟩ :=
    convertParameters_property spec fuel p after hlater before [] [] p₀ r₀ hpar
  have hprops : mapGet (paramName p) props = some (paramProperty p converted) := by
    rcases hb with ⟨-, he⟩ | ⟨s, v, hatt, -, he⟩
    · rw [he]
      exact hprop
    · rcases hbody with hnone | hne
      · rw [hatt] at hnone
        exact absurd hnone (by simp)
      · rw [he, mapGet_mapSet_ne _ _ _ _ hne]
        exact hprop
  have hshape := convertSchema_value_shape spec fuel p.Schema converted hconv
  refine ⟨converted, props, paramProperty p converted, hconv, hget, hprops, ?_, ?_, hshape,
    ?_, ?_⟩
  · intro hnull
    subst hnull
    simp [paramProperty, mapSet]
  · intro fields hobj
    subst hobj
    rfl
  · intro hnone
    rw [hnone] at hconv
    cases fuel with
    | zero => simp [convertSchema] at hconv
    | succ n =>
      simp only [convertSchema, Except.ok.injEq] at hconv
      exact hconv.symm
  · rcases hshape with hnull | ⟨fields, hobj⟩
    · subst hnull
      simp [paramProperty, mapSet, Value.get, mapGet]
    · subst hobj
      exact mapGet_mapSet_self _ _ _

/-- Witness of C25 as amended: in `describedParamOp` the empty description of the
parameter `tag` replaces the description "a tag" of its schema, and the parameter
`X-Trace`, which has no schema, gets the string fragment. -/
theorem generateInputSchema_param_property_witness :
    generateInputSchema {} 1 describedParamOp =
      .ok (.obj [("type", .str "object"),
        ("properties", .obj [("tag", .obj [("type", .str "string"),
            ("description", .str "")]),
          ("header_X-Trace", .obj [("type", .str "string"), ("description", .str "")])])]) ∧
    ∃ converted properties property,
      convertSchema {} 1 describedParam.Schema = .ok converted ∧
      (Value.obj [("type", .str "object"),
        ("properties", .obj [("tag", .obj [("type", .str "string"),
            ("description", .str "")]),
          ("header_X-Trace", .obj [("type", .str "string"),
            ("description", .str "")])])]).get "properties" = some (.obj properties) ∧
      mapGet (paramName describedParam) properties = some property ∧
      property.get "description" = some (.str describedParam.Description) :=
  ⟨rfl,
    (generateInputSchema_param_property {} 1 describedParamOp _ describedParam []
      [traceParam] rfl rfl
      (by
        intro q hq
        rw [List.mem_singleton] at hq
        subst hq
        decide)
      (Or.inl rfl)).imp fun _ h1 => h1.imp fun _ h2 => h2.imp fun _ h3 =>
        ⟨h3.1, h3.2.1, h3.2.2.1, h3.2.2.2.2.2.2.2⟩⟩

/-- C25 as stated fails: the parameter `q` of `nothingOp` has a schema, a `$ref` to the
component `Nothing`, which is registered as nil; the translation of that schema is nil,
and the property generated for `q` is the string fragment with the description, which
the claim gives only to a parameter without a schema. -/
theorem present_schema_gets_string_fragment :
    nothingParam.Schema ≠ none ∧
    convertSchema nothingSpec 2 nothingParam.Schema = .ok .null ∧
    generateInputSchema nothingSpec 2 nothingOp =
      .ok (.obj [("type", .str "object"),
        ("properties", .obj [("q", .obj [("type", .str "string"),
          ("description", .str "free text")])])]) :=
  ⟨by simp [nothingParam], rfl, rfl⟩

/-! ## `ExecuteTool`: arguments that are not declared -/

theorem mapGet_mapDelete {α : Type} (k n : String) (m : List (String × α)) :
    mapGet n (mapDelete k m) = if n = k then none else mapGet n m := by
  induction m with
  | nil => simp [mapDelete, mapGet]
  | cons e rest ih =>
    obtain ⟨k₀, v₀⟩ := e
    by_cases h : k₀ = k
    · subst h
      by_cases hn : n = k₀
      · subst hn
        simp [mapDelete, ih]
      · have hn' : ¬ k₀ = n := fun e => hn e.symm
        simp [mapDelete, mapGet, ih, hn, hn']
    · by_cases hn : n = k
      · subst hn
        simp [mapDelete, mapGet, h, ih]
      · simp [mapDelete, mapGet, h, ih, hn]

/-- Deleting a key keeps two argument maps in agreement. -/
theorem agree_mapDelete (names : String → Prop) (k : String)
    (a₁ a₂ : List (String × Value))
    (h : ∀ n, names n → mapGet n a₁ = mapGet n a₂) :
    ∀ n, names n → mapGet n (mapDelete k a₁) = mapGet n (mapDelete k a₂) := by
  intro n hn
  rw [mapGet_mapDelete, mapGet_mapDelete, h n hn]

/-- The path loop reads only the names of the path parameters it is given. -/
theorem substitutePathParams_agree (lib : Library) (names : String → Prop)
    (params : List Parameter) (hnames : ∀ p ∈ params, p.In = "path" → names p.Name) :
    ∀ (url : String) (a₁ a₂ : List (String × Value)),
      (∀ n, names n → mapGet n a₁ = mapGet n a₂) →
      (substitutePathParams lib params url a₁).1 = (substitutePathParams lib params url a₂).1 ∧
      ∀ n, names n →
        mapGet n (substitutePathParams lib params url a₁).2 =
          mapGet n (substitutePathParams lib params url a₂).2 := by
  induction params with
  | nil =>
    intro url a₁ a₂ h
    exact ⟨rfl, h⟩
  | cons param rest ih =>
    intro url a₁ a₂ h
    have hrest : ∀ p ∈ rest, p.In = "path" → names p.Name :=
      fun p hp => hnames p (List.mem_cons_of_mem _ hp)
    simp only [substitutePathParams]
    by_cases hin : param.In = "path"
    · have hkey := h param.Name (hnames param (List.mem_cons_self _ _) hin)
      simp only [hin, if_true]
      rw [hkey]
      cases hg : mapGet param.Name a₂ with
      | none => exact ih hrest url a₁ a₂ h
      | some value =>
        exact ih hrest _ _ _ (agree_mapDelete names param.Name a₁ a₂ h)
    · simp only [hin, if_false]
      exact ih hrest url a₁ a₂ h

/-- The query loop reads only the names of the query parameters it is given. -/
theorem addQueryParams_agree (lib : Library) (names : String → Prop)
    (params : List Parameter) (hnames : ∀ p ∈ params, p.In = "query" → names p.Name) :
    ∀ (q : List (String × String)) (a₁ a₂ : List (String × Value)),
      (∀ n, names n → mapGet n a₁ = mapGet n a₂) →
      (addQueryParams lib params q a₁).1 = (addQueryParams lib params q a₂).1 := by
  induction params with
  | nil =>
    intro q a₁ a₂ _
    rfl
  | cons param rest ih =>
    intro q a₁ a₂ h
    have hrest : ∀ p ∈ rest, p.In = "query" → names p.Name :=
      fun p hp => hnames p (List.mem_cons_of_mem _ hp)
    simp only [addQueryParams]
    by_cases hin : param.In = "query"
    · have hkey := h param.Name (hnames param (List.mem_cons_self _ _) hin)
      simp only [hin, if_true]
      rw [hkey]
      cases hg : mapGet param.Name a₂ with
      | none => exact ih hrest q a₁ a₂ h
      | some value =>
        exact ih hrest _ _ _ (agree_mapDelete names param.Name a₁ a₂ h)
    · simp only [hin, if_false]
      exact ih hrest q a₁ a₂ h

/-- `ExecuteTool` on a found operation and decoded arguments: the request of the URL and
the query that the two loops build. -/
theorem ExecuteTool_sendRequest (lib : Library) (g : MCPGenerator) (name : String)
    (arguments : RawMessage) (path method : String) (operation : Operation)
    (args : List (String × Value))
    (hfound : findOperation name g.spec.Paths = some (path, method, operation))
    (hargs : unmarshalArguments arguments = .ok args) :
    ExecuteTool lib g name arguments =
      sendRequest lib (stringsToUpper method)
        (substitutePathParams lib operation.Parameters (g.baseURL ++ path) args).1
        (addQueryParams lib operation.Parameters []
          (substitutePathParams lib operation.Parameters (g.baseURL ++ path) args).2).1 := by
  simp only [ExecuteTool, hfound, hargs, sendRequest]

/-! ## `Start` -/

/-- `Start` on lines that all fit the scanner's buffer. -/
theorem Start_output (lib : Library) (s : MCPServer) (lines : List Line)
    (hsize : ∀ line ∈ lines, line.size < maxScanTokenSize) :
    (Start lib s lines).output = (lines.filter Line.nonEmpty).map (respond lib s) ∧
    (Start lib s lines).error = none := by
  induction lines with
  | nil => exact ⟨rfl, rfl⟩
  | cons line rest ih =>
    have hline : ¬ line.size ≥ maxScanTokenSize :=
      Nat.not_le.mpr (hsize line (List.mem_cons_self _ _))
    obtain ⟨ihout, iherr⟩ := ih fun l hl => hsize l (List.mem_cons_of_mem _ hl)
    simp only [Start, hline, if_false]
    cases ht : line.text with
    | absent => simp [Line.nonEmpty, ht, ihout, iherr]
    | malformed e =>
      simp [Line.nonEmpty, ht, ihout, iherr, respond, unmarshalRequest]
    | json v =>
      cases hu : unmarshalRequest (.json v) with
      | error e => simp [Line.nonEmpty, ht, ihout, iherr, respond, hu]
      | ok request => simp [Line.nonEmpty, ht, ihout, iherr, respond, hu]

/-- `Start` up to a line that does not fit the scanner's buffer. -/
theorem Start_long_line (lib : Library) (s : MCPServer) (long : Line) (after : List Line)
    (hlong : long.size ≥ maxScanTokenSize) (before : List Line)
    (hsize : ∀ line ∈ before, line.size < maxScanTokenSize) :
    (Start lib s (before ++ long :: after)).output =
      (before.filter Line.nonEmpty).map (respond lib s) ∧
    (Start lib s (before ++ long :: after)).error =
      some "scanner error: bufio.Scanner: token too long" := by
  induction before with
  | nil => simp [Start, hlong]
  | cons line rest ih =>
    have hline : ¬ line.size ≥ maxScanTokenSize :=
      Nat.not_le.mpr (hsize line (List.mem_cons_self _ _))
    obtain ⟨ihout, iherr⟩ := ih fun l hl => hsize l (List.mem_cons_of_mem _ hl)
    simp only [List.cons_append, Start, hline, if_false]
    cases ht : line.text with
    | absent => simp [Line.nonEmpty, ht, ihout, iherr]
    | malformed e =>
      simp [Line.nonEmpty, ht, ihout, iherr, respond, unmarshalRequest]
    | json v =>
      cases hu : unmarshalRequest (.json v) with
      | error e => simp [Line.nonEmpty, ht, ihout, iherr, respond, hu]
      | ok request => simp [Line.nonEmpty, ht, ihout, iherr, respond, hu]

/-- C23, as the code has it. When every input line fits the buffer of the scanner (fewer
than 65536 bytes), `Start` writes exactly one response per non-empty line, in input
order, and none for an empty line, and returns no error; a line that does not decode
into a request is answered with the error -32700 "Parse error" and a null id, and the
lines after it are served. A line that does not fit the buffer ends the loop: the lines
before it are served, it and the lines after it are not, and `Start` returns the
scanner's error. -/
theorem Start_serves_lines (lib : Library) (s : MCPServer) :
    (∀ lines : List Line, (∀ line ∈ lines, line.size < maxScanTokenSize) →
      (Start lib s lines).output = (lines.filter Line.nonEmpty).map (respond lib s) ∧
      (Start lib s lines).output.length = (lines.filter Line.nonEmpty).length ∧
      (Start lib s lines).error = none) ∧
    (∀ line : Line, (∃ err, unmarshalRequest line.text = .error err) →
      respond lib s line =
        { Jsonrpc := "2.0", Result := .absent
          Error := some { Code := -32700, Message := "Parse error" }, ID := .null }) ∧
    (∀ (before after : List Line) (long : Line),
      (∀ line ∈ before, line.size < maxScanTokenSize) → long.size ≥ maxScanTokenSize →
      (Start lib s (before ++ long :: after)).output =
        (before.filter Line.nonEmpty).map (respond lib s) ∧
      (Start lib s (before ++ long :: after)).error =
        some "scanner error: bufio.Scanner: token too long") := by
  refine ⟨?_, ?_, ?_⟩
  · intro lines hsize
    obtain ⟨hout, herr⟩ := Start_output lib s lines hsize
    refine ⟨hout, ?_, herr⟩
    rw [hout, List.length_map]
  · rintro line ⟨err, herr⟩
    simp [respond, herr, parseErrorResponse]
  · intro before after long hsize hlong
    exact Start_long_line lib s long after hlong before hsize

/-- Witness of C23 as amended: an `initialize` line, an empty line, a broken line and a
`ping` line are answered with three responses, in order. -/
theorem Start_serves_lines_witness :
    (Start okLibrary petsServer [initializeLine, emptyLine, brokenLine, pingLine]).output =
      [(handleRequest okLibrary petsServer
          { Jsonrpc := "2.0", Method := "initialize", ID := .num 1 }).2,
        { Jsonrpc := "2.0", Result := .absent
          Error := some { Code := -32700, Message := "Parse error" }, ID := .null },
        { Jsonrpc := "2.0", Result := .absent
          Error := some { Code := -32601, Message := "Method not found" }, ID := .str "a" }] ∧
    (Start okLibrary petsServer [initializeLine, emptyLine, brokenLine, pingLine]).output.length
      = ([initializeLine, emptyLine, brokenLine, pingLine].filter Line.nonEmpty).length ∧
    (Start okLibrary petsServer [initializeLine, emptyLine, brokenLine, pingLine]).error =
      none :=
  ⟨rfl,
    ((Start_serves_lines okLibrary petsServer).1
      [initializeLine, emptyLine, brokenLine, pingLine]
      (by
        intro line hline
        simp only [List.mem_cons, List.mem_singleton, List.not_mem_nil, or_false] at hline
        rcases hline with rfl | rfl | rfl | rfl <;> decide)).2.1,
    rfl⟩

/-- C23 as stated fails: on a line of 70000 bytes followed by an `initialize` line,
`Start` writes no response at all and returns the scanner's error; the claim gives each
of the two non-empty lines a response. -/
theorem long_line_stops_the_loop :
    longLine.nonEmpty = true ∧ initializeLine.nonEmpty = true ∧
    longLine.size = 70000 ∧
    (Start okLibrary petsServer [longLine, initializeLine]).output.length = 0 ∧
    (Start okLibrary petsServer [longLine, initializeLine]).error =
      some "scanner error: bufio.Scanner: token too long" :=
  ⟨rfl, rfl, rfl, rfl, rfl⟩

/-! ## Termination of `convertSchema` -/

theorem convertSchema_fragment (spec : OpenAPISpec) (fuel : Nat) (schema : Schema)
    (href : schema.Ref = "") :
    convertSchema spec (fuel + 1) (some schema) = fragment (convertSchema spec fuel) schema :=
  convertSchema_nonref_eq spec fuel schema href

theorem sizeOf_property_lt (s t : Schema) (name : String)
    (h : (name, some t) ∈ s.Properties) : sizeOf t < sizeOf s := by
  have h1 := List.sizeOf_lt_of_mem h
  cases s
  simp only [Schema.mk.sizeOf_spec]
  simp only [Prod.mk.sizeOf_spec, Option.some.sizeOf_spec] at h1
  omega

theorem sizeOf_items_lt (s t : Schema) (h : s.Items = some t) : sizeOf t < sizeOf s := by
  cases s
  simp only at h
  subst h
  simp only [Schema.mk.sizeOf_spec, Option.some.sizeOf_spec]
  omega

theorem Within_trans {u t s : Schema} (h₁ : Within u t) (h₂ : Within t s) : Within u s := by
  induction h₂ with
  | self => exact h₁
  | property _ hmem ih => exact Within.property ih hmem
  | items _ hitems ih => exact Within.items ih hitems

/-- A fuel-bounded call of `conv'` that gives what `conv` gives whenever `conv` does not
run out of fuel. -/
theorem convertProperties_mono (conv conv' : Option Schema → Except Fault Value)
    (hmono : ∀ node r, conv node = r → r ≠ .error .outOfFuel → conv' node = r)
    (props : List (String × Option Schema)) :
    ∀ (acc : List (String × Value)) (r : Except Fault (List (String × Value))),
      convertProperties conv props acc = r → r ≠ .error .outOfFuel →
      convertProperties conv' props acc = r := by
  induction props with
  | nil =>
    intro acc r h _
    simpa [convertProperties] using h
  | cons e rest ih =>
    intro acc r h hr
    obtain ⟨name, propSchema⟩ := e
    simp only [convertProperties] at h ⊢
    cases hc : conv propSchema with
    | error err =>
      rw [hc] at h
      simp only at h
      have herr : err ≠ .outOfFuel := by
        intro e
        apply hr
        rw [← h, e]
      have := hmono propSchema (.error err) hc (by simpa using herr)
      rw [this]
      exact h
    | ok v =>
      rw [hc] at h
      simp only at h
      have := hmono propSchema (.ok v) hc (by simp)
      rw [this]
      exact ih _ r h hr

theorem fragment_mono (conv conv' : Option Schema → Except Fault Value)
    (hmono : ∀ node r, conv node = r → r ≠ .error .outOfFuel → conv' node = r)
    (schema : Schema) (r : Except Fault Value)
    (h : fragment conv schema = r) (hr : r ≠ .error .outOfFuel) :
    fragment conv' schema = r := by
  unfold fragment at h ⊢
  by_cases hobj : schema.Type_ = "object" ∧ schema.Properties.length > 0
  · have harr : ¬ schema.Type_ = "array" := by
      rw [hobj.1]
      decide
    simp only [hobj, and_self, if_true, harr, if_false] at h ⊢
    cases hp : convertProperties conv schema.Properties [] with
    | error e =>
      rw [hp] at h
      simp only at h
      have he : (Except.error e : Except Fault (List (String × Value))) ≠
          .error .outOfFuel := by
        intro e'
        apply hr
        rw [← h]
        simp only [Except.error.injEq] at e'
        rw [e']
      rw [convertProperties_mono conv conv' hmono _ _ _ hp he]
      exact h
    | ok properties =>
      rw [hp] at h
      rw [convertProperties_mono conv conv' hmono _ _ _ hp (by simp)]
      exact h
  · simp only [hobj, if_false] at h ⊢
    by_cases harr : schema.Type_ = "array"
    · simp only [harr, if_true] at h ⊢
      cases hi : schema.Items with
      | none =>
        rw [hi] at h
        exact h
      | some items =>
        rw [hi] at h
        simp only at h ⊢
        cases hc : conv (some items) with
        | error e =>
          rw [hc] at h
          simp only at h
          have he : (Except.error e : Except Fault Value) ≠ .error .outOfFuel := by
            rw [h]
            exact hr
          rw [hmono _ _ hc he]
          exact h
        | ok v =>
          rw [hc] at h
          rw [hmono _ _ hc (by simp)]
          exact h
    · simp only [harr, if_false] at h ⊢
      exact h

theorem list_last_two {α : Type} (l : List α) (hl : l ≠ []) :
    (∃ x, l = [x]) ∨ ∃ pre a b, l = pre ++ [a, b] := by
  induction l with
  | nil => exact absurd rfl hl
  | cons x rest ih =>
    cases rest with
    | nil => exact Or.inl ⟨x, rfl⟩
    | cons y rest' =>
      rcases ih (by simp) with ⟨z, hz⟩ | ⟨pre, a, b, hpre⟩
      · exact Or.inr ⟨[], x, z, by rw [hz]; rfl⟩
      · exact Or.inr ⟨x :: pre, a, b, by rw [hpre]; rfl⟩

theorem stringsSplit_ne_nil (s : String) (sep : Char) : stringsSplit s sep ≠ [] := by
  unfold stringsSplit
  intro h
  exact splitChars_ne_nil sep s.data (List.map_eq_nil_iff.mp h)

/-- A non-empty reference of one segment makes `convertSchema` panic. -/
theorem convertSchema_ref_single (spec : OpenAPISpec) (fuel : Nat) (schema : Schema)
    (x : String) (href : schema.Ref ≠ "") (hparts : stringsSplit schema.Ref '/' = [x]) :
    convertSchema spec (fuel + 1) (some schema) = .error .indexOutOfRange := by
  have hidx : index [x] (((1 : Nat) : Int) - 2) = .error .indexOutOfRange := by
    simp [index]
  simp only [convertSchema, href, ne_eq, not_false_eq_true, if_true, hparts,
    List.length_singleton, gt_iff_lt, Nat.lt_one_iff, Nat.zero_lt_one, hidx]

theorem ref_ne_empty_of_segments (schema : Schema) (pre : List String) (a b : String)
    (hparts : stringsSplit schema.Ref '/' = pre ++ [a, b]) : schema.Ref ≠ "" := by
  intro h
  have h1 := stringsSplit_empty schema.Ref '/' h
  rw [hparts] at h1
  have h2 := congrArg List.length h1
  simp at h2

/-- More fuel does not change an outcome that is not the lack of fuel. -/
theorem convertSchema_mono (spec : OpenAPISpec) (fuel : Nat) :
    ∀ (node : Option Schema) (r : Except Fault Value),
      convertSchema spec fuel node = r → r ≠ .error .outOfFuel →
      convertSchema spec (fuel + 1) node = r := by
  induction fuel with
  | zero =>
    intro node r h hr
    exfalso
    apply hr
    rw [← h]
    rfl
  | succ fuel ih =>
    intro node r h hr
    cases node with
    | none =>
      simp only [convertSchema] at h ⊢
      exact h
    | some schema =>
      by_cases href : schema.Ref = ""
      · rw [convertSchema_fragment spec fuel schema href] at h
        rw [convertSchema_fragment spec (fuel + 1) schema href]
        exact fragment_mono _ _ ih schema r h hr
      · rcases list_last_two _ (stringsSplit_ne_nil schema.Ref '/') with
          ⟨x, hx⟩ | ⟨pre, a, b, hparts⟩
        · rw [convertSchema_ref_single spec fuel schema x href hx] at h
          rw [convertSchema_ref_single spec (fuel + 1) schema x href hx]
          exact h
        · rw [convertSchema_ref_segments spec fuel schema pre a b hparts] at h
          rw [convertSchema_ref_segments spec (fuel + 1) schema pre a b hparts]
          by_cases ha : a = "schemas"
          · simp only [ha, if_true] at h ⊢
            cases hl : lookupComponent spec b with
            | none =>
              rw [hl] at h
              exact h
            | some refSchema =>
              rw [hl] at h
              simp only at h ⊢
              exact ih _ _ h hr
          · simp only [ha, if_false] at h ⊢
            exact h

/-- Any amount of additional fuel does not change an outcome that is not the lack of
fuel. -/
theorem convertSchema_mono_le (spec : OpenAPISpec) (node : Option Schema)
    (r : Except Fault Value) (hr : r ≠ .error .outOfFuel) (fuel : Nat)
    (h : convertSchema spec fuel node = r) :
    ∀ fuel', fuel ≤ fuel' → convertSchema spec fuel' node = r := by
  intro fuel' hle
  induction fuel' with
  | zero =>
    have : fuel = 0 := Nat.le_zero.mp hle
    subst this
    exact h
  | succ n ih =>
    rcases Nat.lt_or_eq_of_le hle with hlt | heq
    · exact convertSchema_mono spec n node r (ih (Nat.lt_succ_iff.mp hlt)) hr
    · rw [← heq]
      exact h

theorem convertSchema_ne_outOfFuel_le (spec : OpenAPISpec) (node : Option Schema)
    (fuel fuel' : Nat) (h : convertSchema spec fuel node ≠ .error .outOfFuel)
    (hle : fuel ≤ fuel') : convertSchema spec fuel' node ≠ .error .outOfFuel := by
  rw [convertSchema_mono_le spec node _ h fuel rfl fuel' hle]
  exact h

theorem convertProperties_ne_outOfFuel (conv : Option Schema → Except Fault Value)
    (props : List (String × Option Schema))
    (h : ∀ e ∈ props, conv e.2 ≠ .error .outOfFuel) :
    ∀ acc, convertProperties conv props acc ≠ .error .outOfFuel := by
  induction props with
  | nil =>
    intro acc
    simp [convertProperties]
  | cons e rest ih =>
    intro acc
    obtain ⟨name, propSchema⟩ := e
    have hhead := h (name, propSchema) (List.mem_cons_self _ _)
    have hrest := ih fun e he => h e (List.mem_cons_of_mem _ he)
    simp only [convertProperties]
    cases hc : conv propSchema with
    | error err =>
      simp only at hhead
      rw [hc] at hhead
      simpa using hhead
    | ok v => exact hrest _

/-- The properties of a node end within one depth when each of them ends. -/
theorem properties_uniform_fuel (spec : OpenAPISpec)
    (props : List (String × Option Schema))
    (h : ∀ e ∈ props, Terminates spec e.2) :
    ∃ fuel, ∀ e ∈ props, convertSchema spec fuel e.2 ≠ .error .outOfFuel := by
  induction props with
  | nil => exact ⟨0, fun e he => absurd he (List.not_mem_nil e)⟩
  | cons e rest ih =>
    obtain ⟨f₁, h₁⟩ := h e (List.mem_cons_self _ _)
    obtain ⟨f₂, h₂⟩ := ih fun e' he' => h e' (List.mem_cons_of_mem _ he')
    refine ⟨max f₁ f₂, ?_⟩
    intro e' he'
    rcases List.mem_cons.mp he' with heq | hmem
    · subst heq
      exact convertSchema_ne_outOfFuel_le spec _ f₁ _ h₁ (le_max_left _ _)
    · exact convertSchema_ne_outOfFuel_le spec _ f₂ _ (h₂ e' hmem) (le_max_right _ _)

theorem Terminates_none (spec : OpenAPISpec) : Terminates spec none :=
  ⟨1, by simp [convertSchema]⟩

/-! ## Reference cycles -/

/-- When the property loop returns, the translation of every property returned. -/
theorem convertProperties_all_ok (conv : Option Schema → Except Fault Value)
    (props : List (String × Option Schema)) :
    ∀ (acc out : List (String × Value)), convertProperties conv props acc = .ok out →
      ∀ e ∈ props, ∃ pv, conv e.2 = .ok pv := by
  induction props with
  | nil =>
    intro acc out _ e he
    exact absurd he (List.not_mem_nil e)
  | cons e₀ rest ih =>
    intro acc out h e he
    obtain ⟨name, propSchema⟩ := e₀
    simp only [convertProperties] at h
    cases hc : conv propSchema with
    | error err => simp [hc] at h
    | ok v =>
      rw [hc] at h
      simp only at h
      rcases List.mem_cons.mp he with heq | hmem
      · subst heq
        exact ⟨v, hc⟩
      · exact ih _ out h e hmem

/-- When a call of `convertSchema` returns a fragment, so did, one level deeper, every
call it made. -/
theorem Calls_ok (spec : OpenAPISpec) (fuel : Nat) (s t : Schema) (v : Value)
    (hcall : Calls spec s t) (hv : convertSchema spec (fuel + 1) (some s) = .ok v) :
    ∃ v', convertSchema spec fuel (some t) = .ok v' := by
  cases hcall with
  | ref hparts hlookup =>
    rw [convertSchema_ref_segments spec fuel s _ "schemas" _ hparts] at hv
    simp only [if_true, hlookup] at hv
    exact ⟨v, hv⟩
  | property href htype hmem =>
    rw [convertSchema_fragment spec fuel s href] at hv
    unfold fragment at hv
    have hlen : s.Properties.length > 0 := List.length_pos_of_mem hmem
    have harr : ¬ ("object" : String) = "array" := by decide
    simp only [htype, hlen, and_self, if_true, harr, if_false] at hv
    cases hp : convertProperties (convertSchema spec fuel) s.Properties [] with
    | error e => simp [hp] at hv
    | ok properties => exact convertProperties_all_ok _ _ _ _ hp _ hmem
  | items href htype hitems =>
    rw [convertSchema_fragment spec fuel s href] at hv
    unfold fragment at hv
    have hobj : ¬ ("array" : String) = "object" := by decide
    simp only [htype, hobj, false_and, if_false, if_true, hitems] at hv
    cases hc : convertSchema spec fuel (some t) with
    | error e => simp [hc] at hv
    | ok v' => exact ⟨v', rfl⟩

/-- On a set of nodes each of which calls into the set, no depth gives a fragment. -/
theorem no_fragment_on_cycle (spec : OpenAPISpec) (C : Schema → Prop)
    (hC : ∀ s, C s → ∃ t, C t ∧ Calls spec s t) :
    ∀ (fuel : Nat) (s : Schema), C s → ∀ v, convertSchema spec fuel (some s) ≠ .ok v := by
  intro fuel
  induction fuel with
  | zero =>
    intro s _ v
    simp [convertSchema]
  | succ fuel ih =>
    intro s hs v hv
    obtain ⟨t, ht, hcall⟩ := hC s hs
    obtain ⟨v', hv'⟩ := Calls_ok spec fuel s t v hcall hv
    exact ih t ht v' hv'

theorem Within_cases {u s : Schema} (h : Within u s) :
    u = s ∨ (∃ name t, (name, some t) ∈ s.Properties ∧ Within u t) ∨
      ∃ t, s.Items = some t ∧ Within u t := by
  cases h with
  | self => exact Or.inl rfl
  | property hw hmem => exact Or.inr (Or.inl ⟨_, _, hmem, hw⟩)
  | items hw hitems => exact Or.inr (Or.inr ⟨_, hitems, hw⟩)

theorem RefersTo_ref_ne_empty {u : Schema} {M : String} (h : RefersTo u M) : u.Ref ≠ "" := by
  obtain ⟨pre, hpre⟩ := h
  exact ref_ne_empty_of_segments u pre "schemas" M hpre

/-- The component table of `petSpec` has no reference cycle: no node of `Pet` is a
reference. -/
theorem petSpec_noRefCycle : NoRefCycle petSpec := by
  refine ⟨fun _ => 0, ?_⟩
  intro N M S u T hN hW hR hM
  exfalso
  have hlook : lookupComponent petSpec N =
      if "Pet" = N then some (some petSchema) else none := rfl
  rw [hlook] at hN
  by_cases hname : "Pet" = N
  · simp only [hname, if_true, Option.some.injEq] at hN
    subst hN
    apply RefersTo_ref_ne_empty hR
    rcases Within_cases hW with rfl | ⟨name, t, hmem, hw⟩ | ⟨t, hitems, -⟩
    · rfl
    · simp only [petSchema, emptySchema, List.mem_singleton, Prod.mk.injEq,
        Option.some.injEq] at hmem
      obtain ⟨-, ht⟩ := hmem
      subst ht
      rcases Within_cases hw with rfl | ⟨name', t', hmem', -⟩ | ⟨t', hitems', -⟩
      · rfl
      · simp at hmem'
      · simp at hitems'
    · simp [petSchema, emptySchema] at hitems
  · simp [hname] at hN

/-- The component table of `loopSpec` has a reference cycle. -/
theorem loopSpec_refCycle : ¬ NoRefCycle loopSpec := by
  rintro ⟨rank, hrank⟩
  have := hrank "A" "A" loopRef loopRef (some loopRef) rfl (Within.self _)
    ⟨["#", "components"], rfl⟩ rfl
  exact Nat.lt_irrefl _ this

/-- The parser's test of `GetOperations`: three present operations give the three keys
"get", "post" and "put", each with its operation. -/
theorem GetOperations_testPathItem :
    mapKeys (GetOperations testPathItem) = ["get", "post", "put"] ∧
    (GetOperations testPathItem).length = 3 ∧
    (mapGet "put" (GetOperations testPathItem)).map (fun op => op.OperationID) =
      some "putTest" ∧
    mapGet "delete" (GetOperations testPathItem) = none :=
  ⟨rfl, rfl, rfl, rfl⟩

/-! ## `GenerateTools` under any order of `range` -/

theorem writtenOrder_valid : writtenOrder.Valid :=
  ⟨fun _ => List.Perm.refl _, fun _ _ => List.Perm.refl _⟩

theorem reversedOrder_valid : reversedOrder.Valid :=
  ⟨fun m => List.reverse_perm m, fun _ m => List.reverse_perm m⟩

/-- `generateAllTools` is the loop that visits the entries as they are written. -/
theorem generateAllToolsIn_writtenOrder (spec : OpenAPISpec) (fuel : Nat)
    (paths : List (String × PathItem)) :
    ∀ tools, generateAllToolsIn writtenOrder spec fuel paths tools =
      generateAllTools spec fuel paths tools := by
  induction paths with
  | nil => intro tools; rfl
  | cons e rest ih =>
    intro tools
    obtain ⟨path, pathItem⟩ := e
    simp only [generateAllToolsIn, generateAllTools, writtenOrder, id]
    cases generatePathTools spec fuel path (GetOperations pathItem) tools with
    | error err => rfl
    | ok mid => exact ih mid

/-- `GenerateTools` is the run that visits the entries as they are written. -/
theorem GenerateToolsIn_writtenOrder (g : MCPGenerator) (fuel : Nat) :
    GenerateToolsIn writtenOrder g fuel = GenerateTools g fuel := by
  simp only [GenerateToolsIn, GenerateTools, generateAllToolsIn_writtenOrder]
  rfl

/-- The inner loop appends, for each visited operation with a non-empty identifier, in
the order of the visit, the tool built from it. -/
theorem generatePathTools_built (spec : OpenAPISpec) (fuel : Nat) (path : String)
    (ops : List (String × Operation)) :
    ∀ (tools tools' : List MCPTool),
      generatePathTools spec fuel path ops tools = .ok tools' →
      ∃ added, tools' = tools ++ added ∧
        List.Forall₂ (BuiltFrom spec fuel)
          ((ops.map fun e => (path, e.1, e.2)).filter fun e => e.2.2.OperationID ≠ "")
          added := by
  induction ops with
  | nil =>
    intro tools tools' h
    simp only [generatePathTools, Except.ok.injEq] at h
    subst h
    exact ⟨[], by simp, by simp⟩
  | cons e rest ih =>
    intro tools tools' h
    obtain ⟨method, operation⟩ := e
    simp only [generatePathTools] at h
    by_cases hid : operation.OperationID = ""
    · simp only [hid, if_true] at h
      obtain ⟨added, hadd, hbuilt⟩ := ih tools tools' h
      exact ⟨added, hadd, by simpa [hid] using hbuilt⟩
    · simp only [hid, if_false] at h
      cases hs : generateInputSchema spec fuel operation with
      | error err => simp [hs] at h
      | ok inputSchema =>
        rw [hs] at h
        simp only at h
        obtain ⟨added, hadd, hbuilt⟩ := ih _ tools' h
        refine ⟨{ Name := operation.OperationID
                  Description := generateDescription operation method path
                  InputSchema := inputSchema } :: added, by rw [hadd]; simp, ?_⟩
        simp only [List.map_cons, ne_eq, hid, not_false_eq_true, decide_True,
          List.filter_cons_of_pos]
        exact List.Forall₂.cons ⟨rfl, rfl, hs⟩ hbuilt

/-- The outer loop appends, for each visited operation with a non-empty identifier, in
the order of the visit, the tool built from it. -/
theorem generateAllToolsIn_built (order : RangeOrder) (spec : OpenAPISpec) (fuel : Nat)
    (paths : List (String × PathItem)) :
    ∀ (tools tools' : List MCPTool),
      generateAllToolsIn order spec fuel paths tools = .ok tools' →
      ∃ added, tools' = tools ++ added ∧
        List.Forall₂ (BuiltFrom spec fuel)
          ((visitedOperations order paths).filter fun e => e.2.2.OperationID ≠ "")
          added := by
  induction paths with
  | nil =>
    intro tools tools' h
    simp only [generateAllToolsIn, Except.ok.injEq] at h
    subst h
    exact ⟨[], by simp, by simp [visitedOperations]⟩
  | cons e rest ih =>
    intro tools tools' h
    obtain ⟨path, pathItem⟩ := e
    simp only [generateAllToolsIn] at h
    cases hp : generatePathTools spec fuel path
        (order.operations path (GetOperations pathItem)) tools with
    | error err => simp [hp] at h
    | ok mid =>
      rw [hp] at h
      simp only at h
      obtain ⟨a₁, h₁, b₁⟩ := generatePathTools_built spec fuel path _ tools mid hp
      obtain ⟨a₂, h₂, b₂⟩ := ih mid tools' h
      refine ⟨a₁ ++ a₂, by rw [h₂, h₁, List.append_assoc], ?_⟩
      simp only [visitedOperations, List.filter_append]
      exact List.rel_append b₁ b₂

/-- After `GenerateTools` on a fresh generator the tool list holds, for each visited
operation with a non-empty identifier, in the order of the visit, the tool built from
it. -/
theorem GenerateToolsIn_built (order : RangeOrder) (spec : OpenAPISpec) (fuel : Nat)
    (g : MCPGenerator) (h : GenerateToolsIn order (NewMCPGenerator spec) fuel = .ok g) :
    List.Forall₂ (BuiltFrom spec fuel)
      ((visitedOperations order (order.paths spec.Paths)).filter
        fun e => e.2.2.OperationID ≠ "")
      (GetTools g) := by
  simp only [GenerateToolsIn, NewMCPGenerator] at h
  cases ha : generateAllToolsIn order spec fuel (order.paths spec.Paths) [] with
  | error err => simp [ha] at h
  | ok tools =>
    rw [ha] at h
    simp only [Except.ok.injEq] at h
    subst h
    obtain ⟨added, hadd, hbuilt⟩ := generateAllToolsIn_built order spec fuel _ [] tools ha
    simp only [List.nil_append] at hadd
    subst hadd
    exact hbuilt

/-- The operations visited in an order are those visited as written, up to their order. -/
theorem visitedOperations_order (order : RangeOrder) (horder : order.Valid)
    (paths : List (String × PathItem)) :
    (visitedOperations order paths).Perm (visitedOperations writtenOrder paths) := by
  induction paths with
  | nil => exact List.Perm.refl _
  | cons e rest ih =>
    obtain ⟨path, pathItem⟩ := e
    simp only [visitedOperations]
    exact List.Perm.append ((horder.2 _ _).map _) ih

theorem visitedOperations_perm (order : RangeOrder) {ps qs : List (String × PathItem)}
    (h : ps.Perm qs) : (visitedOperations order ps).Perm (visitedOperations order qs) := by
  induction h with
  | nil => exact List.Perm.refl _
  | cons x _ ih =>
    obtain ⟨path, pathItem⟩ := x
    simp only [visitedOperations]
    exact List.Perm.append_left _ ih
  | swap x y l =>
    obtain ⟨p₁, i₁⟩ := x
    obtain ⟨p₂, i₂⟩ := y
    simp only [visitedOperations, ← List.append_assoc]
    exact List.Perm.append_right _ List.perm_append_comm
  | trans _ _ ih₁ ih₂ => exact ih₁.trans ih₂

/-- Whatever the order of the visit, the operations visited are the operations of the
spec, each once. -/
theorem visitedOperations_valid (order : RangeOrder) (horder : order.Valid)
    (paths : List (String × PathItem)) :
    (visitedOperations order (order.paths paths)).Perm (visitedOperations writtenOrder paths) :=
  (visitedOperations_order order horder _).trans
    (visitedOperations_perm writtenOrder (horder.1 paths))

theorem visitedOperations_operations (paths : List (String × PathItem)) :
    (visitedOperations writtenOrder paths).map (fun e => e.2.2) = allOperations paths := by
  induction paths with
  | nil => rfl
  | cons e rest ih =>
    obtain ⟨path, pathItem⟩ := e
    simp only [visitedOperations, allOperations, List.map_append, List.map_map, ih]
    rw [← GetOperations_values]
    rfl

theorem forall₂_names (spec : OpenAPISpec) (fuel : Nat)
    (entries : List (String × String × Operation)) (tools : List MCPTool)
    (h : List.Forall₂ (BuiltFrom spec fuel) entries tools) :
    tools.map MCPTool.Name = entries.map fun e => e.2.2.OperationID := by
  induction h with
  | nil => rfl
  | cons hb _ ih =>
    simp only [List.map_cons, ih, hb.1]

/-- The names of the tools after `GenerateTools`, up to their order. -/
theorem GenerateToolsIn_names_perm (order : RangeOrder) (horder : order.Valid)
    (spec : OpenAPISpec) (fuel : Nat) (g : MCPGenerator)
    (h : GenerateToolsIn order (NewMCPGenerator spec) fuel = .ok g) :
    ((GetTools g).map MCPTool.Name).Perm (operationIds (allOperations spec.Paths)) := by
  rw [forall₂_names spec fuel _ _ (GenerateToolsIn_built order spec fuel g h)]
  have hp := ((visitedOperations_valid order horder spec.Paths).filter
    fun e => e.2.2.OperationID ≠ "").map fun e => e.2.2.OperationID
  refine hp.trans ?_
  rw [operationIds, ← visitedOperations_operations, List.map_map, List.filter_map]
  exact List.Perm.refl _

/-- The inner loop returns when `generateInputSchema` returns on every operation with a
non-empty identifier. -/
theorem generatePathTools_returns (spec : OpenAPISpec) (fuel : Nat) (path : String)
    (ops : List (String × Operation))
    (h : ∀ e ∈ ops, e.2.OperationID ≠ "" → ∃ schema, generateInputSchema spec fuel e.2 = .ok schema) :
    ∀ tools, ∃ tools', generatePathTools spec fuel path ops tools = .ok tools' := by
  induction ops with
  | nil => intro tools; exact ⟨_, rfl⟩
  | cons e rest ih =>
    intro tools
    obtain ⟨method, operation⟩ := e
    have hrest := ih fun e he => h e (List.mem_cons_of_mem _ he)
    simp only [generatePathTools]
    by_cases hid : operation.OperationID = ""
    · simp only [hid, if_true]
      exact hrest tools
    · simp only [hid, if_false]
      obtain ⟨schema, hs⟩ := h (method, operation) (List.mem_cons_self _ _) hid
      simp only [hs]
      exact hrest _

theorem mem_allOperations (paths : List (String × PathItem)) (path : String)
    (pathItem : PathItem) (hp : (path, pathItem) ∈ paths) (e : String × Operation)
    (he : e ∈ GetOperations pathItem) : e.2 ∈ allOperations paths := by
  induction paths with
  | nil => exact absurd hp (List.not_mem_nil _)
  | cons x rest ih =>
    obtain ⟨p, item⟩ := x
    simp only [allOperations, List.mem_append]
    rcases List.mem_cons.mp hp with heq | hmem
    · simp only [Prod.mk.injEq] at heq
      obtain ⟨-, rfl⟩ := heq
      left
      rw [← GetOperations_values]
      exact List.mem_map_of_mem _ he
    · exact Or.inr (ih hmem)

theorem generateAllToolsIn_returns (order : RangeOrder) (horder : order.Valid)
    (spec : OpenAPISpec) (fuel : Nat) (all : List (String × PathItem))
    (h : ∀ op ∈ allOperations all, op.OperationID ≠ "" →
      ∃ schema, generateInputSchema spec fuel op = .ok schema)
    (paths : List (String × PathItem)) (hsub : ∀ x ∈ paths, x ∈ all) :
    ∀ tools, ∃ tools', generateAllToolsIn order spec fuel paths tools = .ok tools' := by
  induction paths with
  | nil => intro tools; exact ⟨_, rfl⟩
  | cons x rest ih =>
    intro tools
    obtain ⟨path, pathItem⟩ := x
    have hin := hsub (path, pathItem) (List.mem_cons_self _ _)
    obtain ⟨mid, hmid⟩ := generatePathTools_returns spec fuel path
      (order.operations path (GetOperations pathItem))
      (fun e he hid => h e.2
        (mem_allOperations all path pathItem hin e ((horder.2 _ _).mem_iff.mp he)) hid) tools
    simp only [generateAllToolsIn, hmid]
    exact ih (fun x hx => hsub x (List.mem_cons_of_mem _ hx)) mid

/-- `GenerateTools` returns when the translator returns on the schemas of every operation
that has an identifier: the translator is its only source of a panic and of an endless
recursion. -/
theorem GenerateToolsIn_returns (order : RangeOrder) (horder : order.Valid)
    (spec : OpenAPISpec) (fuel : Nat)
    (h : ∀ op ∈ allOperations spec.Paths, op.OperationID ≠ "" → Translates spec fuel op) :
    ∃ g, GenerateToolsIn order (NewMCPGenerator spec) fuel = .ok g := by
  obtain ⟨tools, ht⟩ := generateAllToolsIn_returns order horder spec fuel spec.Paths
    (fun op hop hid => generateInputSchema_returns spec fuel op (h op hop hid).1 (h op hop hid).2)
    (order.paths spec.Paths) (fun x hx => (horder.1 _).mem_iff.mp hx) []
  refine ⟨{ spec := spec, tools := tools, baseURL := (NewMCPGenerator spec).baseURL }, ?_⟩
  simp only [GenerateToolsIn, NewMCPGenerator] at ht ⊢
  rw [ht]

/-- When the parameter loop returns, the translator returned on the schema of every
parameter. -/
theorem convertParameters_translated (spec : OpenAPISpec) (fuel : Nat)
    (params : List Parameter) :
    ∀ (properties : List (String × Value)) (required : List String)
      (r : List (String × Value) × List String),
      convertParameters spec fuel params properties required = .ok r →
      ∀ p ∈ params, ∃ v, convertSchema spec fuel p.Schema = .ok v := by
  induction params with
  | nil =>
    intro _ _ _ _ p hp
    exact absurd hp (List.not_mem_nil p)
  | cons param rest ih =>
    intro properties required r h p hp
    simp only [convertParameters] at h
    cases hc : convertSchema spec fuel param.Schema with
    | error e => simp [hc] at h
    | ok converted =>
      rw [hc] at h
      rcases List.mem_cons.mp hp with heq | hmem
      · subst heq
        exact ⟨converted, hc⟩
      · simp only at h
        split at h
        · exact ih _ _ r h p hmem
        · simp at h

/-- `generateInputSchema` returns exactly when the translator returns on the schema of
every parameter and on the attached request body schema. -/
theorem generateInputSchema_returns_iff (spec : OpenAPISpec) (fuel : Nat) (op : Operation) :
    (∃ schema, generateInputSchema spec fuel op = .ok schema) ↔ Translates spec fuel op := by
  constructor
  · rintro ⟨schema, h⟩
    obtain ⟨p₀, props, r₀, hp, hbody, -⟩ := generateInputSchema_shape spec fuel op schema h
    refine ⟨convertParameters_translated spec fuel op.Parameters [] [] _ hp, ?_⟩
    intro s hs
    rcases hbody with ⟨hnone, -⟩ | ⟨s', v, hs', hv, -⟩
    · rw [hnone] at hs
      simp at hs
    · rw [hs'] at hs
      simp only [Option.some.injEq] at hs
      subst hs
      exact ⟨v, hv⟩
  · intro h
    exact generateInputSchema_returns spec fuel op h.1 h.2

/-- `GenerateTools` returns exactly when the translator returns on the schemas of every
operation that has an identifier: the translator is its only source of a panic and of an
endless recursion. -/
theorem GenerateToolsIn_returns_iff (order : RangeOrder) (horder : order.Valid)
    (spec : OpenAPISpec) (fuel : Nat) :
    (∃ g, GenerateToolsIn order (NewMCPGenerator spec) fuel = .ok g) ↔
      ∀ op ∈ allOperations spec.Paths, op.OperationID ≠ "" → Translates spec fuel op := by
  constructor
  · rintro ⟨g, hg⟩ op hop hid
    rw [← generateInputSchema_returns_iff]
    have hbuilt := GenerateToolsIn_built order spec fuel g hg
    rw [← visitedOperations_operations, List.mem_map] at hop
    obtain ⟨e, he, rfl⟩ := hop
    have hv : e ∈ (visitedOperations order (order.paths spec.Paths)).filter
        fun e => e.2.2.OperationID ≠ "" := by
      rw [List.mem_filter]
      exact ⟨(visitedOperations_valid order horder spec.Paths).mem_iff.mpr he, by simpa using hid⟩
    obtain ⟨i, hi, rfl⟩ := List.getElem_of_mem hv
    have hlen := hbuilt.length_eq
    have := List.Forall₂.get hbuilt hi (hlen ▸ hi)
    exact ⟨_, this.2.2⟩
  · exact GenerateToolsIn_returns order horder spec fuel

theorem count_eq_length_filter_map {α : Type} (f : α → String) (n : String) (l : List α) :
    (l.filter fun x => f x = n).length = (l.map f).count n := by
  induction l with
  | nil => rfl
  | cons x rest ih =>
    by_cases h : f x = n
    · simp [List.filter_cons, h, ih]
    · have h' : ¬ (f x == n) = true := by simpa using h
      simp [List.filter_cons, h, ih, List.count_cons, h']

/-! ## `ExecuteTool` under any order of `range` -/

theorem ExecuteTool_callOperation (lib : Library) (g : MCPGenerator) (name : String)
    (arguments : RawMessage) :
    ExecuteTool lib g name arguments =
      match findOperation name g.spec.Paths with
      | none => ([], .error ("tool not found: " ++ name))
      | some (path, method, operation) =>
        callOperation lib g path method operation arguments := by
  unfold ExecuteTool callOperation
  rfl

theorem findOperationIn_writtenOrder (name : String) (paths : List (String × PathItem)) :
    findOperationIn writtenOrder name paths = findOperation name paths := by
  induction paths with
  | nil => rfl
  | cons e rest ih =>
    obtain ⟨p, pathItem⟩ := e
    simp only [findOperationIn, findOperation, writtenOrder, id]
    cases findInOperations name (GetOperations pathItem) with
    | some found => rfl
    | none => exact ih

/-- `ExecuteTool` is the run that visits the entries as they are written. -/
theorem ExecuteToolIn_writtenOrder (lib : Library) (g : MCPGenerator) (name : String)
    (arguments : RawMessage) :
    ExecuteToolIn writtenOrder lib g name arguments = ExecuteTool lib g name arguments := by
  rw [ExecuteTool_callOperation, ExecuteToolIn, findOperationIn_writtenOrder]
  rfl

theorem findInOperations_find (name path : String) (ops : List (String × Operation)) :
    (findInOperations name ops).map (fun e => (path, e.1, e.2)) =
      (ops.map fun e => (path, e.1, e.2)).find? fun e => e.2.2.OperationID = name := by
  induction ops with
  | nil => rfl
  | cons e rest ih =>
    obtain ⟨m, op⟩ := e
    by_cases h : op.OperationID = name
    · simp [findInOperations, h]
    · simp only [findInOperations, h, if_false, ih, List.map_cons, List.find?_cons, decide_False]

/-- The lookup gives the first visited operation whose operationId is `name`. -/
theorem findOperationIn_find (order : RangeOrder) (name : String)
    (paths : List (String × PathItem)) :
    findOperationIn order name paths =
      (visitedOperations order paths).find? fun e => e.2.2.OperationID = name := by
  induction paths with
  | nil => rfl
  | cons e rest ih =>
    obtain ⟨p, pathItem⟩ := e
    simp only [findOperationIn, visitedOperations, List.find?_append,
      ← findInOperations_find name p]
    cases findInOperations name (order.operations p (GetOperations pathItem)) with
    | some found => rfl
    | none => simpa using ih

/-- When one operation of the spec carries the name, every visit finds that operation. -/
theorem findOperationIn_unique (order : RangeOrder) (horder : order.Valid) (name : String)
    (paths : List (String × PathItem))
    (hunique : ((allOperations paths).map fun op => op.OperationID).count name = 1) :
    ∃ found, (visitedOperations writtenOrder paths).filter
        (fun e => e.2.2.OperationID = name) = [found] ∧
      findOperationIn order name (order.paths paths) = some found := by
  have hlen : ((visitedOperations writtenOrder paths).filter
      fun e => e.2.2.OperationID = name).length = 1 := by
    rw [count_eq_length_filter_map (fun e : String × String × Operation => e.2.2.OperationID)
      name, ← hunique, ← visitedOperations_operations, List.map_map]
    rfl
  obtain ⟨found, hfound⟩ := List.length_eq_one.mp hlen
  refine ⟨found, hfound, ?_⟩
  rw [findOperationIn_find, ← List.filter_head?]
  have hperm := (visitedOperations_valid order horder paths).filter
    fun e => e.2.2.OperationID = name
  rw [hfound] at hperm
  rw [List.perm_singleton.mp hperm]
  rfl

theorem callOperation_sendRequest (lib : Library) (g : MCPGenerator)
    (arguments : RawMessage) (path method : String) (operation : Operation)
    (args : List (String × Value)) (hargs : unmarshalArguments arguments = .ok args) :
    callOperation lib g path method operation arguments =
      sendRequest lib (stringsToUpper method)
        (substitutePathParams lib operation.Parameters (g.baseURL ++ path) args).1
        (addQueryParams lib operation.Parameters []
          (substitutePathParams lib operation.Parameters (g.baseURL ++ path) args).2).1 := by
  unfold callOperation
  rw [hargs]
  rfl

/-- The members decoded one after the other. -/
theorem decodeMembers_append (target : String) (xs ys : List (String × Value)) :
    ∀ m, decodeMembers target (xs ++ ys) m =
      match decodeMembers target xs m with
      | .error e => .error e
      | .ok m' => decodeMembers target ys m' := by
  induction xs with
  | nil => intro m; simp [decodeMembers]
  | cons x rest ih =>
    intro m
    obtain ⟨key, value⟩ := x
    simp only [List.cons_append, decodeMembers]
    cases decodeInterface target value with
    | error e => rfl
    | ok v => exact ih _

/-- Two maps that hold the same under every name but `k` are decoded into alike: the same
error, or maps that hold the same under every name but `k`. -/
theorem decodeMembers_agree (target k : String) (ys : List (String × Value)) :
    ∀ m₁ m₂ : List (String × Value), (∀ n, n ≠ k → mapGet n m₁ = mapGet n m₂) →
      (∀ e, decodeMembers target ys m₁ = .error e ↔ decodeMembers target ys m₂ = .error e) ∧
      ∀ a b, decodeMembers target ys m₁ = .ok a → decodeMembers target ys m₂ = .ok b →
        ∀ n, n ≠ k → mapGet n a = mapGet n b := by
  induction ys with
  | nil =>
    intro m₁ m₂ h
    simp only [decodeMembers, reduceCtorEq, implies_true, true_and, Except.ok.injEq, iff_self]
    intro a b ha hb
    subst ha
    subst hb
    exact h
  | cons y rest ih =>
    intro m₁ m₂ h
    obtain ⟨key, value⟩ := y
    simp only [decodeMembers]
    cases decodeInterface target value with
    | error e => simp
    | ok v =>
      simp only
      apply ih
      intro n hn
      by_cases hkey : n = key
      · subst hkey
        rw [mapGet_mapSet_self, mapGet_mapSet_self]
      · rw [mapGet_mapSet_ne _ _ _ _ hkey, mapGet_mapSet_ne _ _ _ _ hkey]
        exact h n hn

/-- A member that decodes, added to a JSON object, changes the decoded map under its own
name only, and does not make the decoding fail. -/
theorem decodeMembers_insert (target k : String) (v v' : Value)
    (hv : decodeInterface target v = .ok v') (before after : List (String × Value)) :
    (∀ e, decodeMembers target (before ++ (k, v) :: after) [] = .error e ↔
      decodeMembers target (before ++ after) [] = .error e) ∧
    ∀ a b, decodeMembers target (before ++ (k, v) :: after) [] = .ok a →
      decodeMembers target (before ++ after) [] = .ok b →
      ∀ n, n ≠ k → mapGet n a = mapGet n b := by
  rw [decodeMembers_append, decodeMembers_append]
  cases decodeMembers target before [] with
  | error e => simp
  | ok m =>
    simp only [decodeMembers, hv]
    apply decodeMembers_agree
    intro n hn
    exact mapGet_mapSet_ne _ _ _ _ hn

/-- C21, as the code has it. Two runs of `ExecuteTool` that find the same operation for the
tool name, as every two runs do when exactly one operation of the spec carries the name,
in whatever order they visit the paths and the operations of a path: for two argument
objects that decode and then hold the same value, or both none, under the name of every
declared path and query parameter of the operation, the two runs build the same URL and
the same query, and so call `http.NewRequest` and `client.Do` alike, with the same method,
and return the same result. An argument whose name is no declared path or query parameter
and whose value decodes changes nothing, wherever it stands in the object: with it the
call does what it does without it, and fails only if it fails without it. -/
theorem ExecuteTool_undeclared_arguments (lib : Library) (g : MCPGenerator) (name : String)
    (order₁ order₂ : RangeOrder) (h₁ : order₁.Valid) (h₂ : order₂.Valid) :
    (((allOperations g.spec.Paths).map fun op => op.OperationID).count name = 1 →
      ∃ found, findOperationIn order₁ name (order₁.paths g.spec.Paths) = some found ∧
        findOperationIn order₂ name (order₂.paths g.spec.Paths) = some found) ∧
    ∀ (path method : String) (operation : Operation),
      findOperationIn order₁ name (order₁.paths g.spec.Paths) =
        some (path, method, operation) →
      findOperationIn order₂ name (order₂.paths g.spec.Paths) =
        some (path, method, operation) →
      (∀ (raw₁ raw₂ : RawMessage) (args₁ args₂ : List (String × Value)),
        unmarshalArguments raw₁ = .ok args₁ → unmarshalArguments raw₂ = .ok args₂ →
        (∀ n, declaredName operation.Parameters n → mapGet n args₁ = mapGet n args₂) →
        (substitutePathParams lib operation.Parameters (g.baseURL ++ path) args₁).1 =
          (substitutePathParams lib operation.Parameters (g.baseURL ++ path) args₂).1 ∧
        (addQueryParams lib operation.Parameters []
            (substitutePathParams lib operation.Parameters (g.baseURL ++ path) args₁).2).1 =
          (addQueryParams lib operation.Parameters []
            (substitutePathParams lib operation.Parameters (g.baseURL ++ path) args₂).2).1 ∧
        ExecuteToolIn order₁ lib g name raw₁ = ExecuteToolIn order₂ lib g name raw₂) ∧
      (∀ (before after : List (String × Value)) (k : String) (v v' : Value),
        ¬ declaredName operation.Parameters k → decodeInterface "Go value" v = .ok v' →
        ExecuteToolIn order₁ lib g name (.json (.obj (before ++ (k, v) :: after))) =
          ExecuteToolIn order₂ lib g name (.json (.obj (before ++ after)))) := by
  constructor
  · intro hunique
    obtain ⟨found, hfilter, hf₁⟩ := findOperationIn_unique order₁ h₁ name g.spec.Paths hunique
    obtain ⟨found', hfilter', hf₂⟩ :=
      findOperationIn_unique order₂ h₂ name g.spec.Paths hunique
    rw [hfilter] at hfilter'
    simp only [List.cons.injEq, and_true] at hfilter'
    subst hfilter'
    exact ⟨found, hf₁, hf₂⟩
  intro path method operation hf₁ hf₂
  have main : ∀ (raw₁ raw₂ : RawMessage) (args₁ args₂ : List (String × Value)),
      unmarshalArguments raw₁ = .ok args₁ → unmarshalArguments raw₂ = .ok args₂ →
      (∀ n, declaredName operation.Parameters n → mapGet n args₁ = mapGet n args₂) →
      (substitutePathParams lib operation.Parameters (g.baseURL ++ path) args₁).1 =
        (substitutePathParams lib operation.Parameters (g.baseURL ++ path) args₂).1 ∧
      (addQueryParams lib operation.Parameters []
          (substitutePathParams lib operation.Parameters (g.baseURL ++ path) args₁).2).1 =
        (addQueryParams lib operation.Parameters []
          (substitutePathParams lib operation.Parameters (g.baseURL ++ path) args₂).2).1 ∧
      ExecuteToolIn order₁ lib g name raw₁ = ExecuteToolIn order₂ lib g name raw₂ := by
    intro raw₁ raw₂ args₁ args₂ ha₁ ha₂ hagree
    have hpath : ∀ p ∈ operation.Parameters, p.In = "path" →
        declaredName operation.Parameters p.Name :=
      fun p hp hin => ⟨p, hp, Or.inl hin, rfl⟩
    have hquery : ∀ p ∈ operation.Parameters, p.In = "query" →
        declaredName operation.Parameters p.Name :=
      fun p hp hin => ⟨p, hp, Or.inr hin, rfl⟩
    obtain ⟨hurl, hrest⟩ := substitutePathParams_agree lib _ operation.Parameters hpath
      (g.baseURL ++ path) args₁ args₂ hagree
    have hq := addQueryParams_agree lib _ operation.Parameters hquery [] _ _ hrest
    refine ⟨hurl, hq, ?_⟩
    simp only [ExecuteToolIn, hf₁, hf₂]
    rw [callOperation_sendRequest lib g raw₁ path method operation args₁ ha₁,
      callOperation_sendRequest lib g raw₂ path method operation args₂ ha₂, hurl, hq]
  refine ⟨main, ?_⟩
  intro before after k v v' hk hv
  obtain ⟨herr, hok⟩ := decodeMembers_insert "Go value" k v v' hv before after
  cases hw : decodeMembers "Go value" (before ++ (k, v) :: after) [] with
  | error e =>
    have hwo := (herr e).mp hw
    simp only [ExecuteToolIn, hf₁, hf₂, callOperation, unmarshalArguments, hw, hwo]
  | ok a =>
    cases hwo : decodeMembers "Go value" (before ++ after) [] with
    | error e =>
      have := (herr e).mpr hwo
      rw [hw] at this
      exact absurd this (by simp)
    | ok b =>
      refine (main (.json (.obj (before ++ (k, v) :: after))) (.json (.obj (before ++ after)))
        a b hw hwo ?_).2.2
      intro n hn
      exact hok a b hw hwo n fun e => hk (e ▸ hn)

theorem getPetOp_undeclared (k : String) (h₁ : k ≠ "petId") (h₂ : k ≠ "limit") :
    ¬ declaredName getPetOp.Parameters k := by
  rintro ⟨p, hp, hin, rfl⟩
  simp only [getPetOp, List.mem_cons, List.mem_singleton, List.not_mem_nil,
    or_false] at hp
  rcases hp with rfl | rfl | rfl
  · exact h₁ rfl
  · exact h₂ rfl
  · exact absurd hin (by decide)

/-- Witness of C21 as amended: `getPet`, the only operation of `storeSpec`, is found
whether the maps are visited as written or backwards, and with the arguments
`{"petId":"42"}` and with the undeclared arguments `verbose` and `X-Trace` added it
requests `GET https://api.example.com/pets/42` each time. -/
theorem ExecuteTool_undeclared_arguments_witness :
    (∃ found,
      findOperationIn writtenOrder "getPet"
        (writtenOrder.paths (NewMCPGenerator storeSpec).spec.Paths) = some found ∧
      findOperationIn reversedOrder "getPet"
        (reversedOrder.paths (NewMCPGenerator storeSpec).spec.Paths) = some found) ∧
    ExecuteToolIn writtenOrder okLibrary (NewMCPGenerator storeSpec) "getPet"
        petIdAndMoreArguments =
      ExecuteToolIn reversedOrder okLibrary (NewMCPGenerator storeSpec) "getPet"
        (.json (.obj [("petId", .str "42"), ("X-Trace", .str "abc")])) ∧
    ExecuteToolIn writtenOrder okLibrary (NewMCPGenerator storeSpec) "getPet"
        (.json (.obj [("petId", .str "42"), ("X-Trace", .str "abc")])) =
      ExecuteToolIn reversedOrder okLibrary (NewMCPGenerator storeSpec) "getPet"
        petIdArguments ∧
    ExecuteToolIn reversedOrder okLibrary (NewMCPGenerator storeSpec) "getPet"
        petIdArguments =
      ([.newRequest "GET" "https://api.example.com/pets/42",
        .clientDo { Method := "GET", URL := "https://api.example.com/pets/42", Query := [] }],
        .ok { Content := [{ Type_ := "text", Text := "HTTP 200 response received" }] }) :=
  ⟨(ExecuteTool_undeclared_arguments okLibrary (NewMCPGenerator storeSpec) "getPet"
      writtenOrder reversedOrder writtenOrder_valid reversedOrder_valid).1 (by decide),
    ((ExecuteTool_undeclared_arguments okLibrary (NewMCPGenerator storeSpec) "getPet"
      writtenOrder reversedOrder writtenOrder_valid reversedOrder_valid).2
      "/pets/{petId}" "get" getPetOp rfl rfl).2
      [("petId", .str "42")] [("X-Trace", .str "abc")] "verbose" (.bool true) (.bool true)
      (getPetOp_undeclared _ (by decide) (by decide)) rfl,
    ((ExecuteTool_undeclared_arguments okLibrary (NewMCPGenerator storeSpec) "getPet"
      writtenOrder reversedOrder writtenOrder_valid reversedOrder_valid).2
      "/pets/{petId}" "get" getPetOp rfl rfl).2
      [("petId", .str "42")] [] "X-Trace" (.str "abc") (.str "abc")
      (getPetOp_undeclared _ (by decide) (by decide)) rfl,
    rfl⟩

/-- C21 as stated fails, twice. The argument `retries` is no parameter of `getPet`, and
with the value 1e400, which is out of the range of float64, it makes the call fail with
"invalid arguments" and no request, where without it `GET
https://api.example.com/pets/42` is requested. And in `dupShopSpec`, where the `get` and
the `post` operation of `/pets` both carry the identifier "dup", a call with the same
arguments requests `GET https://api.example.com/pets` when `get` is visited first and
`POST https://api.example.com/pets` when `post` is visited first. -/
theorem undeclared_argument_fails_and_lookup_varies :
    (∀ p ∈ getPetOp.Parameters, p.Name ≠ "retries") ∧
    ExecuteTool okLibrary (NewMCPGenerator storeSpec) "getPet" petIdArguments =
      ([.newRequest "GET" "https://api.example.com/pets/42",
        .clientDo { Method := "GET", URL := "https://api.example.com/pets/42", Query := [] }],
        .ok { Content := [{ Type_ := "text", Text := "HTTP 200 response received" }] }) ∧
    (∃ detail, ExecuteTool okLibrary (NewMCPGenerator storeSpec) "getPet"
        petIdAndHugeArguments = ([], .error ("invalid arguments: " ++ detail))) ∧
    (allOperations dupShopSpec.Paths).map (fun op => op.OperationID) = ["dup", "dup"] ∧
    ExecuteToolIn writtenOrder okLibrary (NewMCPGenerator dupShopSpec) "dup" (.json (.obj [])) =
      ([.newRequest "GET" "https://api.example.com/pets",
        .clientDo { Method := "GET", URL := "https://api.example.com/pets", Query := [] }],
        .ok { Content := [{ Type_ := "text", Text := "HTTP 200 response received" }] }) ∧
    ExecuteToolIn reversedOrder okLibrary (NewMCPGenerator dupShopSpec) "dup"
        (.json (.obj [])) =
      ([.newRequest "POST" "https://api.example.com/pets",
        .clientDo { Method := "POST", URL := "https://api.example.com/pets", Query := [] }],
        .ok { Content := [{ Type_ := "text", Text := "HTTP 200 response received" }] }) :=
  ⟨by decide, rfl, ⟨_, rfl⟩, rfl, rfl, rfl⟩

/-! ## `ExecuteTool`: the URL -/

theorem startsWith_append_cases (p : List Char) :
    ∀ (a s : List Char), startsWith p (a ++ s) = true →
      startsWith p a = true ∨ startsWith a p = true := by
  induction p with
  | nil =>
    intro a s _
    left
    cases a <;> rfl
  | cons x p' ih =>
    intro a s h
    cases a with
    | nil =>
      right
      rfl
    | cons y a' =>
      simp only [List.cons_append, startsWith, Bool.and_eq_true, decide_eq_true_eq] at h ⊢
      obtain ⟨hxy, hrest⟩ := h
      rcases ih a' s hrest with h' | h'
      · exact Or.inl ⟨hxy, h'⟩
      · exact Or.inr ⟨hxy.symm, h'⟩

/-- A replacement whose pattern cannot begin inside `base` leaves `base` alone. -/
theorem replaceFirstChars_base (old new s : List Char) :
    ∀ base : List Char, meetsChars old base = false →
      replaceFirstChars old new (base ++ s) = base ++ replaceFirstChars old new s := by
  intro base
  induction base with
  | nil => intro _; rfl
  | cons c cs ih =>
    intro h
    simp only [meetsChars, Bool.or_eq_false_iff] at h
    obtain ⟨⟨h₁, h₂⟩, h₃⟩ := h
    have hno : startsWith old (c :: (cs ++ s)) = false := by
      cases hs : startsWith old (c :: (cs ++ s)) with
      | false => rfl
      | true =>
        rcases startsWith_append_cases old (c :: cs) s hs with h' | h'
        · rw [h₁] at h'
          exact absurd h' (by simp)
        · rw [h₂] at h'
          exact absurd h' (by simp)
    have hstep : replaceFirstChars old new (c :: (cs ++ s)) =
        c :: replaceFirstChars old new (cs ++ s) := by
      simp only [replaceFirstChars, hno, Bool.false_eq_true, if_false]
    rw [List.cons_append, hstep, ih h₃]
    rfl

theorem stringsReplaceFirst_base (base p old new : String)
    (h : stringsMeets base old = false) :
    stringsReplaceFirst (base ++ p) old new = base ++ stringsReplaceFirst p old new := by
  unfold stringsReplaceFirst
  rw [String.data_append, replaceFirstChars_base _ _ _ _ h]
  apply String.ext
  simp [String.data_append]

/-- When no placeholder of a declared path parameter that is present in the arguments can
begin inside the base URL, the substitution in `baseURL + path` is the base URL followed
by the substitution in the path. -/
theorem substitutePathParams_base (lib : Library) (base : String) (params : List Parameter) :
    ∀ (p : String) (args : List (String × Value)),
      (∀ q ∈ params, q.In = "path" → (mapGet q.Name args).isSome = true →
        stringsMeets base ("\x7b" ++ q.Name ++ "\x7d") = false) →
      substitutePathParams lib params (base ++ p) args =
        (base ++ (substitutePathParams lib params p args).1,
          (substitutePathParams lib params p args).2) := by
  induction params with
  | nil =>
    intro p args _
    rfl
  | cons param rest ih =>
    intro p args h
    have hrest : ∀ q ∈ rest, q.In = "path" → (mapGet q.Name args).isSome = true →
        stringsMeets base ("\x7b" ++ q.Name ++ "\x7d") = false :=
      fun q hq => h q (List.mem_cons_of_mem _ hq)
    simp only [substitutePathParams]
    by_cases hin : param.In = "path"
    · simp only [hin, if_true]
      cases hg : mapGet param.Name args with
      | none => exact ih p args hrest
      | some value =>
        simp only
        rw [stringsReplaceFirst_base base p _ _
          (h param (List.mem_cons_self _ _) hin (by simp [hg]))]
        apply ih
        intro q hq hqin hsome
        apply hrest q hq hqin
        rw [mapGet_mapDelete] at hsome
        split at hsome
        · simp at hsome
        · exact hsome
    · simp only [hin, if_false]
      exact ih p args hrest

/-- When the declared path parameters have names of their own, the loop of `ExecuteTool`
over them substitutes as the spec words it: consuming an argument changes nothing for the
parameters that follow. -/
theorem substitutePathParams_substitutedPath (lib : Library) (args : List (String × Value))
    (params : List Parameter) :
    ((params.filter fun p => p.In = "path").map Parameter.Name).Nodup →
    ∀ (url : String) (args' : List (String × Value)),
      (∀ p ∈ params, p.In = "path" → mapGet p.Name args' = mapGet p.Name args) →
      (substitutePathParams lib params url args').1 = substitutedPath lib args params url := by
  induction params with
  | nil =>
    intro _ url args' _
    rfl
  | cons param rest ih =>
    intro hnodup url args' h
    have hrest : ∀ p ∈ rest, p.In = "path" → mapGet p.Name args' = mapGet p.Name args :=
      fun p hp => h p (List.mem_cons_of_mem _ hp)
    simp only [substitutePathParams, substitutedPath]
    by_cases hin : param.In = "path"
    · have hfilter : (param :: rest).filter (fun p => p.In = "path") =
          param :: rest.filter fun p => p.In = "path" :=
        List.filter_cons_of_pos (by simpa using hin)
      rw [hfilter, List.map_cons, List.nodup_cons] at hnodup
      obtain ⟨hfresh, hnodup'⟩ := hnodup
      simp only [hin, if_true]
      rw [h param (List.mem_cons_self _ _) hin]
      cases hg : mapGet param.Name args with
      | none => exact ih hnodup' url args' hrest
      | some value =>
        simp only
        apply ih hnodup'
        intro p hp hpin
        have hne : p.Name ≠ param.Name := by
          intro e
          apply hfresh
          rw [← e]
          exact List.mem_map_of_mem _ (List.mem_filter.mpr ⟨hp, by simpa using hpin⟩)
        rw [mapGet_mapDelete, if_neg hne]
        exact hrest p hp hpin
    · have hfilter : (param :: rest).filter (fun p => p.In = "path") =
          rest.filter fun p => p.In = "path" :=
        List.filter_cons_of_neg (by simpa using hin)
      rw [hfilter] at hnodup
      simp only [hin, if_false]
      exact ih hnodup url args' hrest

/-- C20, what the code does. When the operation of the tool is found and the arguments
decode, the URL that `ExecuteTool` hands to `http.NewRequest`, and requests, is the result
of the loop over the declared path parameters on the string `baseURL + path`, and the
method is the uppercased method of the operation. The loop replaces in the whole string,
the base URL included. It gives what the claim says, the base URL, unchanged, followed by
the path template with the placeholders of the present path parameters replaced, when no
placeholder of a present path parameter can begin inside the base URL; the substitution in
the path is the one the spec words when the path parameters have names of their own. -/
theorem ExecuteTool_url (order : RangeOrder) (lib : Library) (g : MCPGenerator)
    (name : String) (arguments : RawMessage) (path method : String) (operation : Operation)
    (args : List (String × Value))
    (hfound : findOperationIn order name (order.paths g.spec.Paths) =
      some (path, method, operation))
    (hargs : unmarshalArguments arguments = .ok args) :
    (∃ rest, (ExecuteToolIn order lib g name arguments).1 =
      .newRequest (stringsToUpper method)
        (substitutePathParams lib operation.Parameters (g.baseURL ++ path) args).1 :: rest) ∧
    (∀ req, .clientDo req ∈ (ExecuteToolIn order lib g name arguments).1 →
      req.Method = stringsToUpper method ∧
      req.URL = (substitutePathParams lib operation.Parameters (g.baseURL ++ path) args).1) ∧
    ((∀ p ∈ operation.Parameters, p.In = "path" → (mapGet p.Name args).isSome = true →
        stringsMeets g.baseURL ("\x7b" ++ p.Name ++ "\x7d") = false) →
      (substitutePathParams lib operation.Parameters (g.baseURL ++ path) args).1 =
        g.baseURL ++ (substitutePathParams lib operation.Parameters path args).1) ∧
    (((operation.Parameters.filter fun p => p.In = "path").map Parameter.Name).Nodup →
      (substitutePathParams lib operation.Parameters path args).1 =
        substitutedPath lib args operation.Parameters path) := by
  have hexec : ExecuteToolIn order lib g name arguments =
      sendRequest lib (stringsToUpper method)
        (substitutePathParams lib operation.Parameters (g.baseURL ++ path) args).1
        (addQueryParams lib operation.Parameters []
          (substitutePathParams lib operation.Parameters (g.baseURL ++ path) args).2).1 := by
    simp only [ExecuteToolIn, hfound]
    exact callOperation_sendRequest lib g arguments path method operation args hargs
  refine ⟨?_, ?_, ?_, ?_⟩
  · rw [hexec]
    unfold sendRequest
    split
    · exact ⟨_, rfl⟩
    · split <;> exact ⟨_, rfl⟩
  · intro req hreq
    rw [hexec] at hreq
    unfold sendRequest at hreq
    split at hreq
    · simp at hreq
    · split at hreq
      · simp only [List.mem_cons, reduceCtorEq, Event.clientDo.injEq, List.mem_singleton,
          List.not_mem_nil, or_false, false_or] at hreq
        subst hreq
        exact ⟨rfl, rfl⟩
      · simp only [List.mem_cons, reduceCtorEq, Event.clientDo.injEq, List.mem_singleton,
          List.not_mem_nil, or_false, false_or] at hreq
        subst hreq
        exact ⟨rfl, rfl⟩
  · intro h
    rw [substitutePathParams_base lib g.baseURL operation.Parameters path args h]
  · intro hnodup
    exact substitutePathParams_substitutedPath lib args operation.Parameters hnodup path args
      fun _ _ _ => rfl

/-- Witness of C20. In `versionedSpec` the server URL `https://api.example.com/{version}`
carries the placeholder of the path parameter `version`: with the arguments
`{"version":"v1"}` the URL requested is `https://api.example.com/v1/docs/{version}`, the
placeholder of the base URL being replaced and the one of the path left, and not the base
URL followed by `/docs/v1`. In `storeSpec` and in `tenantSpec`, whose server URL carries a
placeholder that is no parameter, `GET /pets/{petId}` with the arguments `{"petId":"42"}`
requests the base URL followed by `/pets/42`. -/
theorem ExecuteTool_url_witness :
    (NewMCPGenerator versionedSpec).baseURL = "https://api.example.com/{version}" ∧
    (∃ rest, (ExecuteToolIn writtenOrder okLibrary (NewMCPGenerator versionedSpec) "getDocs"
        (.json (.obj [("version", .str "v1")]))).1 =
      .newRequest (stringsToUpper "get")
        (substitutePathParams okLibrary docsOp.Parameters
          ((NewMCPGenerator versionedSpec).baseURL ++ "/docs/{version}")
          [("version", .str "v1")]).1 :: rest) ∧
    (substitutePathParams okLibrary docsOp.Parameters
        ((NewMCPGenerator versionedSpec).baseURL ++ "/docs/{version}")
        [("version", .str "v1")]).1 = "https://api.example.com/v1/docs/{version}" ∧
    (NewMCPGenerator versionedSpec).baseURL ++
        substitutedPath okLibrary [("version", .str "v1")] docsOp.Parameters
          "/docs/{version}" = "https://api.example.com/{version}/docs/v1" ∧
    stringsMeets (NewMCPGenerator versionedSpec).baseURL "{version}" = true ∧
    ExecuteToolIn writtenOrder okLibrary (NewMCPGenerator versionedSpec) "getDocs"
        (.json (.obj [("version", .str "v1")])) =
      ([.newRequest "GET" "https://api.example.com/v1/docs/{version}",
        .clientDo { Method := "GET", URL := "https://api.example.com/v1/docs/{version}",
                    Query := [] }],
        .ok { Content := [{ Type_ := "text", Text := "HTTP 200 response received" }] }) ∧
    (substitutePathParams okLibrary getPetOp.Parameters
        ((NewMCPGenerator tenantSpec).baseURL ++ "/pets/{petId}") [("petId", .str "42")]).1 =
      (NewMCPGenerator tenantSpec).baseURL ++
        (substitutePathParams okLibrary getPetOp.Parameters "/pets/{petId}"
          [("petId", .str "42")]).1 ∧
    ExecuteToolIn writtenOrder okLibrary (NewMCPGenerator tenantSpec) "getPet"
        (.json (.obj [("petId", .str "42")])) =
      ([.newRequest "GET" "https://api.example.com/{tenant}/pets/42",
        .clientDo { Method := "GET", URL := "https://api.example.com/{tenant}/pets/42",
                    Query := [] }],
        .ok { Content := [{ Type_ := "text", Text := "HTTP 200 response received" }] }) ∧
    ExecuteToolIn writtenOrder okLibrary (NewMCPGenerator storeSpec) "getPet"
        (.json (.obj [("petId", .str "42")])) =
      ([.newRequest "GET" "https://api.example.com/pets/42",
        .clientDo { Method := "GET", URL := "https://api.example.com/pets/42", Query := [] }],
        .ok { Content := [{ Type_ := "text", Text := "HTTP 200 response received" }] }) :=
  ⟨rfl,
    (ExecuteTool_url writtenOrder okLibrary (NewMCPGenerator versionedSpec) "getDocs"
      (.json (.obj [("version", .str "v1")])) "/docs/{version}" "get" docsOp
      [("version", .str "v1")] rfl rfl).1,
    rfl, rfl, rfl, rfl,
    (ExecuteTool_url writtenOrder okLibrary (NewMCPGenerator tenantSpec) "getPet"
      (.json (.obj [("petId", .str "42")])) "/pets/{petId}" "get" getPetOp
      [("petId", .str "42")] rfl rfl).2.2.1 (by decide),
    rfl, rfl⟩

/-! ## Chains of calls -/

/-- A node that starts a chain of calls without end calls a node that starts one. -/
theorem Recurs_step (spec : OpenAPISpec) (s : Schema) (h : Recurs spec s) :
    ∃ t, Calls spec s t ∧ Recurs spec t := by
  obtain ⟨C, hs, hC⟩ := h
  obtain ⟨t, ht, hcall⟩ := hC s hs
  exact ⟨t, hcall, C, ht, hC⟩

/-- A node that starts no chain of calls without end is reached by finitely many calls
only. -/
theorem acc_of_not_recurs (spec : OpenAPISpec) (s : Schema) (h : ¬ Recurs spec s) :
    Acc (fun t s => Calls spec s t) s := by
  by_contra hacc
  apply h
  refine ⟨fun x => ¬ Acc (fun t s => Calls spec s t) x, hacc, ?_⟩
  intro x hx
  by_contra hno
  apply hx
  constructor
  intro y hy
  by_contra hy'
  exact hno ⟨y, hy', hy⟩

theorem convertProperties_error (conv : Option Schema → Except Fault Value)
    (props : List (String × Option Schema)) :
    ∀ (acc : List (String × Value)) (e : Fault), convertProperties conv props acc = .error e →
      ∃ el ∈ props, conv el.2 = .error e := by
  induction props with
  | nil =>
    intro acc e h
    simp [convertProperties] at h
  | cons x rest ih =>
    intro acc e h
    obtain ⟨name, propSchema⟩ := x
    simp only [convertProperties] at h
    cases hc : conv propSchema with
    | error err =>
      rw [hc] at h
      simp only [Except.error.injEq] at h
      subst h
      exact ⟨(name, propSchema), List.mem_cons_self _ _, hc⟩
    | ok v =>
      rw [hc] at h
      obtain ⟨el, hel, he⟩ := ih _ e h
      exact ⟨el, List.mem_cons_of_mem _ hel, he⟩

/-- A fault of the fragment of a node is the fault of the translation of a property of
an object or of the items of an array. -/
theorem fragment_error (conv : Option Schema → Except Fault Value) (schema : Schema)
    (e : Fault) (h : fragment conv schema = .error e) :
    (schema.Type_ = "object" ∧ ∃ el ∈ schema.Properties, conv el.2 = .error e) ∨
      (schema.Type_ = "array" ∧ ∃ items, schema.Items = some items ∧
        conv (some items) = .error e) := by
  unfold fragment at h
  by_cases hobj : schema.Type_ = "object" ∧ schema.Properties.length > 0
  · have harr : ¬ schema.Type_ = "array" := by
      rw [hobj.1]
      decide
    simp only [hobj, and_self, if_true, harr, if_false] at h
    cases hp : convertProperties conv schema.Properties [] with
    | error err =>
      rw [hp] at h
      simp only [Except.error.injEq] at h
      subst h
      exact Or.inl ⟨hobj.1, convertProperties_error conv _ _ _ hp⟩
    | ok properties =>
      rw [hp] at h
      by_cases hreq : schema.Required.length > 0
      · simp [hreq] at h
      · simp [hreq] at h
  · simp only [hobj, if_false] at h
    by_cases harr : schema.Type_ = "array"
    · simp only [harr, if_true] at h
      cases hi : schema.Items with
      | none =>
        rw [hi] at h
        simp at h
      | some items =>
        rw [hi] at h
        simp only at h
        cases hc : conv (some items) with
        | error err =>
          rw [hc] at h
          simp only [Except.error.injEq] at h
          subst h
          exact Or.inr ⟨harr, items, rfl, hc⟩
        | ok v =>
          rw [hc] at h
          simp at h
    · simp only [harr, if_false] at h
      simp at h

/-- The fragment of a node does not run out of depth when the translations it needs do
not: those of the properties for an object, that of the items for an array. -/
theorem fragment_terminates (conv : Option Schema → Except Fault Value) (schema : Schema)
    (hprops : schema.Type_ = "object" → ∀ e ∈ schema.Properties, conv e.2 ≠ .error .outOfFuel)
    (hitems : schema.Type_ = "array" → ∀ items, schema.Items = some items →
      conv (some items) ≠ .error .outOfFuel) :
    fragment conv schema ≠ .error .outOfFuel := by
  intro h
  rcases fragment_error conv schema _ h with ⟨hobj, el, hel, he⟩ | ⟨harr, items, hi, he⟩
  · exact hprops hobj el hel he
  · exact hitems harr items hi he

theorem two_segments_of_length (s : String) (h : 2 ≤ (stringsSplit s '/').length) :
    ∃ pre a b, stringsSplit s '/' = pre ++ [a, b] := by
  rcases list_last_two _ (stringsSplit_ne_nil s '/') with ⟨x, hx⟩ | hparts
  · rw [hx] at h
    simp at h
  · exact hparts

/-- A call of `convertSchema` ends when every call it makes ends. -/
theorem Terminates_of_calls (spec : OpenAPISpec) (s : Schema)
    (h : ∀ t, Calls spec s t → Terminates spec (some t)) : Terminates spec (some s) := by
  by_cases href : s.Ref = ""
  · by_cases hobj : s.Type_ = "object"
    · have hprops : ∀ e ∈ s.Properties, Terminates spec e.2 := by
        intro e he
        obtain ⟨name, ps⟩ := e
        cases ps with
        | none => exact Terminates_none spec
        | some u => exact h u (Calls.property href hobj he)
      obtain ⟨f, hf⟩ := properties_uniform_fuel spec s.Properties hprops
      refine ⟨f + 1, ?_⟩
      rw [convertSchema_fragment spec _ s href]
      apply fragment_terminates
      · intro _ e he
        exact hf e he
      · intro harr
        rw [hobj] at harr
        exact absurd harr (by decide)
    · by_cases harr : s.Type_ = "array"
      · cases hi : s.Items with
        | none =>
          refine ⟨1, ?_⟩
          rw [convertSchema_fragment spec _ s href]
          apply fragment_terminates
          · intro ho
            exact absurd ho hobj
          · intro _ items hitems
            rw [hi] at hitems
            simp at hitems
        | some u =>
          obtain ⟨f, hf⟩ := h u (Calls.items href harr hi)
          refine ⟨f + 1, ?_⟩
          rw [convertSchema_fragment spec _ s href]
          apply fragment_terminates
          · intro ho
            exact absurd ho hobj
          · intro _ items hitems
            rw [hi] at hitems
            simp only [Option.some.injEq] at hitems
            subst hitems
            exact hf
      · refine ⟨1, ?_⟩
        rw [convertSchema_fragment spec _ s href]
        apply fragment_terminates
        · intro ho
          exact absurd ho hobj
        · intro ha
          exact absurd ha harr
  · rcases list_last_two _ (stringsSplit_ne_nil s.Ref '/') with ⟨x, hx⟩ | ⟨pre, a, b, hparts⟩
    · refine ⟨1, ?_⟩
      rw [convertSchema_ref_single spec 0 s x href hx]
      simp
    · by_cases ha : a = "schemas"
      · subst ha
        cases hl : lookupComponent spec b with
        | none =>
          refine ⟨1, ?_⟩
          rw [convertSchema_ref_segments spec 0 s pre "schemas" b hparts]
          simp [hl]
        | some T =>
          cases T with
          | none =>
            refine ⟨2, ?_⟩
            rw [convertSchema_ref_segments spec 1 s pre "schemas" b hparts]
            simp [hl, convertSchema]
          | some t =>
            obtain ⟨f, hf⟩ := h t (Calls.ref hparts hl)
            refine ⟨f + 1, ?_⟩
            rw [convertSchema_ref_segments spec f s pre "schemas" b hparts]
            simp only [if_true, hl]
            exact hf
      · refine ⟨1, ?_⟩
        rw [convertSchema_ref_segments spec 0 s pre a b hparts]
        simp [ha]

/-- A call of `convertSchema` on a node that starts no chain of calls without end
ends. -/
theorem Terminates_of_not_recurs (spec : OpenAPISpec) (s : Schema) (h : ¬ Recurs spec s) :
    Terminates spec (some s) := by
  have hacc : ∀ x, Acc (fun t s => Calls spec s t) x → Terminates spec (some x) := by
    intro x hx
    induction hx with
    | intro x _ ih => exact Terminates_of_calls spec x fun t ht => ih t ht
  exact hacc s (acc_of_not_recurs spec s h)

/-- A chain of calls without end passes through a registered component. -/
theorem Recurs_component (spec : OpenAPISpec) :
    ∀ (n : Nat) (s : Schema), sizeOf s < n → Recurs spec s →
      ∃ N S, lookupComponent spec N = some (some S) ∧ Recurs spec S := by
  intro n
  induction n with
  | zero =>
    intro s hs
    exact absurd hs (Nat.not_lt_zero _)
  | succ n ih =>
    intro s hs hrec
    obtain ⟨t, hcall, ht⟩ := Recurs_step spec s hrec
    cases hcall with
    | ref hparts hlookup => exact ⟨_, t, hlookup, ht⟩
    | property href htype hmem =>
      have := sizeOf_property_lt s t _ hmem
      exact ih t (by omega) ht
    | items href htype hitems =>
      have := sizeOf_items_lt s t hitems
      exact ih t (by omega) ht

/-- When the component names can be ranked so that every reference inside a registered
schema goes down in rank, no node starts a chain of calls without end. -/
theorem not_recurs_of_noRefCycle (spec : OpenAPISpec) (h : NoRefCycle spec) (s : Schema) :
    ¬ Recurs spec s := by
  obtain ⟨rank, hrank⟩ := h
  have key : ∀ (k : Nat) (N : String) (S : Schema), rank N < k →
      lookupComponent spec N = some (some S) →
      ∀ (n : Nat) (u : Schema), sizeOf u < n → Within u S → ¬ Recurs spec u := by
    intro k
    induction k with
    | zero =>
      intro N S hk
      exact absurd hk (Nat.not_lt_zero _)
    | succ k ihk =>
      intro N S hk hl n
      induction n with
      | zero =>
        intro u hu
        exact absurd hu (Nat.not_lt_zero _)
      | succ n ihn =>
        intro u hu hw hrec
        obtain ⟨t, hcall, ht⟩ := Recurs_step spec u hrec
        cases hcall with
        | ref hparts hlookup =>
          have hlt := hrank N _ S u (some t) hl hw ⟨_, hparts⟩ hlookup
          exact ihk _ t (by omega) hlookup (sizeOf t + 1) t (Nat.lt_succ_self _)
            (Within.self t) ht
        | property href htype hmem =>
          have := sizeOf_property_lt u t _ hmem
          exact ihn t (by omega) (Within_trans (Within.property (Within.self t) hmem) hw) ht
        | items href htype hitems =>
          have := sizeOf_items_lt u t hitems
          exact ihn t (by omega) (Within_trans (Within.items (Within.self t) hitems) hw) ht
  intro hrec
  obtain ⟨N, S, hl, hS⟩ := Recurs_component spec (sizeOf s + 1) s (Nat.lt_succ_self _) hrec
  exact key (rank N + 1) N S (Nat.lt_succ_self _) hl (sizeOf S + 1) S (Nat.lt_succ_self _)
    (Within.self S) hS

/-- The faults of `convertSchema` are the lack of depth and the panic of an index out of
range. -/
theorem convertSchema_error_cases (spec : OpenAPISpec) (fuel : Nat) :
    ∀ (node : Option Schema) (e : Fault), convertSchema spec fuel node = .error e →
      e = .outOfFuel ∨ e = .indexOutOfRange := by
  induction fuel with
  | zero =>
    intro node e h
    simp only [convertSchema, Except.error.injEq] at h
    exact Or.inl h.symm
  | succ fuel ih =>
    intro node e h
    cases node with
    | none => simp [convertSchema] at h
    | some s =>
      by_cases href : s.Ref = ""
      · rw [convertSchema_fragment spec fuel s href] at h
        rcases fragment_error _ s e h with ⟨-, el, -, he⟩ | ⟨-, items, -, he⟩
        · exact ih _ e he
        · exact ih _ e he
      · rcases list_last_two _ (stringsSplit_ne_nil s.Ref '/') with
          ⟨x, hx⟩ | ⟨pre, a, b, hparts⟩
        · rw [convertSchema_ref_single spec fuel s x href hx] at h
          simp only [Except.error.injEq] at h
          exact Or.inr h.symm
        · rw [convertSchema_ref_segments spec fuel s pre a b hparts] at h
          split at h
          · split at h
            · exact ih _ e h
            · simp at h
          · simp at h

/-- When every `$ref` has at least two segments, `convertSchema` does not panic. -/
theorem convertSchema_no_panic (spec : OpenAPISpec) (hspec : WellFormedRefs spec)
    (fuel : Nat) :
    ∀ (s : Schema), TwoSegments s →
      convertSchema spec fuel (some s) ≠ .error .indexOutOfRange := by
  induction fuel with
  | zero =>
    intro s _
    simp [convertSchema]
  | succ fuel ih =>
    intro s hs h
    have hnone : convertSchema spec fuel none ≠ .error .indexOutOfRange := by
      cases fuel <;> simp [convertSchema]
    by_cases href : s.Ref = ""
    · rw [convertSchema_fragment spec fuel s href] at h
      rcases fragment_error _ s _ h with ⟨-, el, hel, he⟩ | ⟨-, items, hi, he⟩
      · obtain ⟨name, ps⟩ := el
        cases ps with
        | none => exact hnone he
        | some t =>
          exact ih t (fun u hu => hs u (Within.property hu hel)) he
      · exact ih items (fun u hu => hs u (Within.items hu hi)) he
    · obtain ⟨pre, a, b, hparts⟩ := two_segments_of_length s.Ref (hs s (Within.self s) href)
      rw [convertSchema_ref_segments spec fuel s pre a b hparts] at h
      split at h
      · cases hl : lookupComponent spec b with
        | none =>
          rw [hl] at h
          simp at h
        | some T =>
          rw [hl] at h
          cases T with
          | none => exact hnone h
          | some t => exact ih t (hspec b t hl) h
      · simp at h

/-- On a set of `$ref` nodes each of which resolves to a node of the set, `convertSchema`
runs out of depth at every bound. -/
theorem reference_cycle_outOfFuel (spec : OpenAPISpec) (C : Schema → Prop)
    (hC : ∀ x, C x → x.Ref ≠ "" ∧ ∃ y, C y ∧ Calls spec x y) :
    ∀ (fuel : Nat) (s : Schema), C s → convertSchema spec fuel (some s) = .error .outOfFuel := by
  intro fuel
  induction fuel with
  | zero =>
    intro s _
    rfl
  | succ fuel ih =>
    intro s hs
    obtain ⟨href, t, ht, hcall⟩ := hC s hs
    cases hcall with
    | ref hparts hlookup =>
      rw [convertSchema_ref_segments spec fuel s _ "schemas" _ hparts]
      simp only [if_true, hlookup]
      exact ih t ht
    | property href' _ _ => exact absurd href' href
    | items href' _ _ => exact absurd href' href

/-- C24, as the code has it. `convertSchema` follows a reference only where it reads it:
the `$ref` of a node, the properties of an object without `$ref`, the items of an array
without `$ref`. When no registered component starts a chain of such calls without end,
as when the component names can be ranked so that every reference inside a registered
schema goes down in rank, `convertSchema` terminates on every node: from some depth on,
every bound on the depth gives the same outcome, a fragment or a panic. On a node that
starts a chain of calls without end, as on a cycle of references that are followed, no
bound on the depth gives a fragment: each gives the lack of depth or the panic of a
one-segment `$ref` met on the way. When every `$ref` has at least two segments, and on a
cycle of `$ref` nodes, as a component that is a `$ref` to itself, every bound gives the
lack of depth: the call never terminates. -/
theorem convertSchema_termination (spec : OpenAPISpec) :
    ((∀ N S, lookupComponent spec N = some (some S) → ¬ Recurs spec S) →
      ∀ node, ∃ fuel r, r ≠ .error .outOfFuel ∧
        ∀ fuel', fuel ≤ fuel' → convertSchema spec fuel' node = r) ∧
    (NoRefCycle spec → ∀ N S, lookupComponent spec N = some (some S) → ¬ Recurs spec S) ∧
    (∀ s, ¬ Recurs spec s → ∃ fuel r, r ≠ .error .outOfFuel ∧
      ∀ fuel', fuel ≤ fuel' → convertSchema spec fuel' (some s) = r) ∧
    (∀ s, Recurs spec s → ∀ fuel,
      convertSchema spec fuel (some s) = .error .outOfFuel ∨
        convertSchema spec fuel (some s) = .error .indexOutOfRange) ∧
    (WellFormedRefs spec → ∀ s, Recurs spec s → TwoSegments s →
      ∀ fuel, convertSchema spec fuel (some s) = .error .outOfFuel) ∧
    (∀ C : Schema → Prop, (∀ x, C x → x.Ref ≠ "" ∧ ∃ y, C y ∧ Calls spec x y) →
      ∀ s, C s → ∀ fuel, convertSchema spec fuel (some s) = .error .outOfFuel) := by
  have node_level : ∀ s, ¬ Recurs spec s → ∃ fuel r, r ≠ .error .outOfFuel ∧
      ∀ fuel', fuel ≤ fuel' → convertSchema spec fuel' (some s) = r := by
    intro s hs
    obtain ⟨fuel, hfuel⟩ := Terminates_of_not_recurs spec s hs
    exact ⟨fuel, convertSchema spec fuel (some s), hfuel,
      convertSchema_mono_le spec (some s) _ hfuel fuel rfl⟩
  have on_cycle : ∀ s, Recurs spec s → ∀ fuel,
      convertSchema spec fuel (some s) = .error .outOfFuel ∨
        convertSchema spec fuel (some s) = .error .indexOutOfRange := by
    intro s hs fuel
    obtain ⟨C, hCs, hC⟩ := hs
    cases hr : convertSchema spec fuel (some s) with
    | ok v => exact absurd hr (no_fragment_on_cycle spec C hC fuel s hCs v)
    | error e =>
      rcases convertSchema_error_cases spec fuel _ e hr with rfl | rfl
      · exact Or.inl rfl
      · exact Or.inr rfl
  refine ⟨?_, ?_, node_level, on_cycle, ?_, ?_⟩
  · intro hno node
    cases node with
    | none =>
      exact ⟨1, .ok .null, by simp, fun fuel' hle => by
        cases fuel' with
        | zero => exact absurd hle (by decide)
        | succ n => rfl⟩
    | some s =>
      apply node_level
      intro hrec
      obtain ⟨N, S, hl, hS⟩ := Recurs_component spec (sizeOf s + 1) s (Nat.lt_succ_self _) hrec
      exact hno N S hl hS
  · intro hno N S _
    exact not_recurs_of_noRefCycle spec hno S
  · intro hspec s hs htwo fuel
    rcases on_cycle s hs fuel with h | h
    · exact h
    · exact absurd h (convertSchema_no_panic spec hspec fuel s htwo)
  · intro C hC s hs fuel
    exact reference_cycle_outOfFuel spec C hC fuel s hs

theorem loopSpec_recurs : Recurs loopSpec loopRef := by
  refine ⟨fun x => x = loopRef, rfl, ?_⟩
  rintro x rfl
  exact ⟨loopRef, rfl, @Calls.ref loopSpec loopRef loopRef ["#", "components"] "A" rfl rfl⟩

theorem loopSpec_wellFormed : WellFormedRefs loopSpec ∧ TwoSegments loopRef := by
  have htwo : TwoSegments loopRef := by
    intro u hu _
    rcases Within_cases hu with rfl | ⟨name, t, hmem, -⟩ | ⟨t, hitems, -⟩
    · decide
    · simp [loopRef, emptySchema] at hmem
    · simp [loopRef, emptySchema] at hitems
  refine ⟨?_, htwo⟩
  intro N S hl
  have hlook : lookupComponent loopSpec N =
      if "A" = N then some (some loopRef) else none := rfl
  rw [hlook] at hl
  by_cases hname : "A" = N
  · simp only [hname, if_true, Option.some.injEq] at hl
    subst hl
    exact htwo
  · simp [hname] at hl

theorem brokenTreeSpec_recurs : Recurs brokenTreeSpec treeRef := by
  refine ⟨fun x => x = treeRef ∨ x = treeSchema, Or.inl rfl, ?_⟩
  rintro x (rfl | rfl)
  · exact ⟨treeSchema, Or.inr rfl,
      @Calls.ref brokenTreeSpec treeRef treeSchema ["#", "components"] "Tree" rfl rfl⟩
  · exact ⟨treeRef, Or.inl rfl,
      @Calls.property brokenTreeSpec treeSchema treeRef "child" rfl rfl
        (List.mem_cons_of_mem _ (List.mem_cons_self _ _))⟩

/-- When the property `child` of `Tree` is read before the property `label`, a reference to
`Tree` runs out of depth at every bound: the `$ref` of one segment is never reached. -/
theorem childFirst_outOfFuel :
    ∀ fuel, convertSchema brokenTreeSpecChildFirst fuel (some treeRef) = .error .outOfFuel ∧
      convertSchema brokenTreeSpecChildFirst fuel (some treeSchemaChildFirst) =
        .error .outOfFuel := by
  intro fuel
  induction fuel with
  | zero => exact ⟨rfl, rfl⟩
  | succ n ih =>
    refine ⟨?_, ?_⟩
    · rw [convertSchema_ref_segments brokenTreeSpecChildFirst n treeRef ["#", "components"]
        "schemas" "Tree" rfl]
      exact ih.2
    · rw [convertSchema_fragment brokenTreeSpecChildFirst n treeSchemaChildFirst rfl]
      have hprops : convertProperties (convertSchema brokenTreeSpecChildFirst n)
          treeSchemaChildFirst.Properties [] = .error .outOfFuel := by
        have h : treeSchemaChildFirst.Properties =
            [("child", some treeRef), ("label", some { emptySchema with Ref := "Label" })] :=
          rfl
        rw [h]
        simp only [convertProperties, ih.1]
      have htype : treeSchemaChildFirst.Type_ = "object" := rfl
      have hlen : treeSchemaChildFirst.Properties.length > 0 := by decide
      unfold fragment
      simp only [htype, hlen, and_self, if_true, hprops]

/-- Witness of C24 as amended. In `petSpec`, whose component `Pet` holds no reference, the
reference to `Pet` gives its fragment at every depth from 3 on. In `loopSpec`, where the
component `A` is a `$ref` to `A`, a reference to `A` starts a chain of calls without end
and gives the lack of depth at every bound. In `brokenTreeSpec`, where `Tree` refers to
itself under a property and holds a `$ref` of one segment under another, a reference to
`Tree` starts a chain of calls without end, and no bound gives a fragment: every bound
from 3 on gives the panic when the `$ref` of one segment is read first, and every bound
gives the lack of depth when the property that refers to `Tree` is read first. -/
theorem convertSchema_termination_witness :
    (∃ fuel r, r ≠ .error .outOfFuel ∧
      ∀ fuel', fuel ≤ fuel' → convertSchema petSpec fuel' (some petRef) = r) ∧
    convertSchema petSpec 3 (some petRef) =
      .ok (.obj [("type", .str "object"),
        ("properties", .obj [("name", .obj [("type", .str "string")])]),
        ("required", .arr [.str "name"])]) ∧
    lookupComponent loopSpec "A" = some (some loopRef) ∧
    Recurs loopSpec loopRef ∧
    (∀ fuel, convertSchema loopSpec fuel (some loopRef) = .error .outOfFuel) ∧
    Recurs brokenTreeSpec treeRef ∧
    (∀ fuel,
      convertSchema brokenTreeSpec fuel (some treeRef) = .error .outOfFuel ∨
        convertSchema brokenTreeSpec fuel (some treeRef) = .error .indexOutOfRange) ∧
    convertSchema brokenTreeSpec 3 (some treeRef) = .error .indexOutOfRange ∧
    ∀ fuel, convertSchema brokenTreeSpecChildFirst fuel (some treeRef) = .error .outOfFuel :=
  ⟨(convertSchema_termination petSpec).1
      ((convertSchema_termination petSpec).2.1 petSpec_noRefCycle) (some petRef),
    rfl, rfl, loopSpec_recurs,
    (convertSchema_termination loopSpec).2.2.2.2.1 loopSpec_wellFormed.1 loopRef
      loopSpec_recurs loopSpec_wellFormed.2,
    brokenTreeSpec_recurs,
    (convertSchema_termination brokenTreeSpec).2.2.2.1 treeRef brokenTreeSpec_recurs,
    rfl, fun fuel => (childFirst_outOfFuel fuel).1⟩

/-- C24 as stated fails. The component `Node` of `untypedSpec` holds a `$ref` to `Node`,
so its table contains a reference cycle; the node declares no type, so `convertSchema`
does not read its properties, and a reference to `Node` gives the fragment `{"type":""}`
at every depth from 2 on. The component `Tree` of `brokenTreeSpec` is an object whose
property `child` is a `$ref` to `Tree`, a cycle that is followed; its property `label` is
a `$ref` of one segment, and in a run that reads `label` before `child` a reference to
`Tree` ends in a panic at every depth from 3 on. -/
theorem reference_cycle_terminates :
    lookupComponent untypedSpec "Node" = some (some nodeSchema) ∧
    ("next", some nodeRef) ∈ nodeSchema.Properties ∧
    RefersTo nodeRef "Node" ∧
    ¬ NoRefCycle untypedSpec ∧
    (∀ fuel, 2 ≤ fuel →
      convertSchema untypedSpec fuel (some nodeRef) = .ok (.obj [("type", .str "")])) ∧
    lookupComponent brokenTreeSpec "Tree" = some (some treeSchema) ∧
    ("child", some treeRef) ∈ treeSchema.Properties ∧
    RefersTo treeRef "Tree" ∧
    Recurs brokenTreeSpec treeRef ∧
    (∀ fuel, 3 ≤ fuel →
      convertSchema brokenTreeSpec fuel (some treeRef) = .error .indexOutOfRange) :=
  ⟨rfl, List.mem_cons_self _ _, ⟨["#", "components"], rfl⟩,
    fun ⟨rank, hrank⟩ =>
      Nat.lt_irrefl _ (hrank "Node" "Node" nodeSchema nodeRef (some nodeSchema) rfl
        (Within.property (Within.self _) (List.mem_cons_self _ _))
        ⟨["#", "components"], rfl⟩ rfl),
    fun fuel hle => convertSchema_mono_le untypedSpec (some nodeRef)
      (.ok (.obj [("type", .str "")])) (by simp) 2 rfl fuel hle,
    rfl, List.mem_cons_of_mem _ (List.mem_cons_self _ _), ⟨["#", "components"], rfl⟩,
    brokenTreeSpec_recurs,
    fun fuel hle => convertSchema_mono_le brokenTreeSpec (some treeRef)
      (.error .indexOutOfRange) (by simp) 3 rfl fuel hle⟩

/-! ## When the translator returns -/

/-- When every `$ref` has at least two segments and no registered component starts a chain
of calls without end, `convertSchema` returns a fragment, or nil, from some depth on. -/
theorem convertSchema_returns (spec : OpenAPISpec) (hrefs : WellFormedRefs spec)
    (hcycle : ∀ (N : String) (S : Schema), lookupComponent spec N = some (some S) →
      ¬ Recurs spec S)
    (node : Option Schema) (hnode : ∀ s, node = some s → TwoSegments s) :
    ∃ fuel, ∀ fuel', fuel ≤ fuel' → ∃ v, convertSchema spec fuel' node = .ok v := by
  cases node with
  | none =>
    refine ⟨1, ?_⟩
    intro fuel' hle
    cases fuel' with
    | zero => exact absurd hle (by decide)
    | succ n => exact ⟨_, rfl⟩
  | some s =>
    have hno : ¬ Recurs spec s := by
      intro hrec
      obtain ⟨N, S, hl, hS⟩ := Recurs_component spec (sizeOf s + 1) s (Nat.lt_succ_self _) hrec
      exact hcycle N S hl hS
    obtain ⟨fuel, hfuel⟩ := Terminates_of_not_recurs spec s hno
    have hpanic := convertSchema_no_panic spec hrefs fuel s (hnode s rfl)
    cases hr : convertSchema spec fuel (some s) with
    | error e =>
      rcases convertSchema_error_cases spec fuel _ e hr with rfl | rfl
      · exact absurd hr hfuel
      · exact absurd hr hpanic
    | ok v =>
      refine ⟨fuel, ?_⟩
      intro fuel' hle
      exact ⟨v, convertSchema_mono_le spec (some s) (.ok v) (by simp) fuel hr fuel' hle⟩

/-- Finitely many nodes that each are translated from some depth on are all translated
from some depth on. -/
theorem convertSchema_returns_all (spec : OpenAPISpec) (nodes : List (Option Schema))
    (h : ∀ n ∈ nodes, ∃ fuel, ∀ fuel', fuel ≤ fuel' → ∃ v, convertSchema spec fuel' n = .ok v) :
    ∃ fuel, ∀ fuel', fuel ≤ fuel' → ∀ n ∈ nodes, ∃ v, convertSchema spec fuel' n = .ok v := by
  induction nodes with
  | nil => exact ⟨0, fun _ _ n hn => absurd hn (List.not_mem_nil n)⟩
  | cons x rest ih =>
    obtain ⟨f₁, h₁⟩ := h x (List.mem_cons_self _ _)
    obtain ⟨f₂, h₂⟩ := ih fun n hn => h n (List.mem_cons_of_mem _ hn)
    refine ⟨max f₁ f₂, ?_⟩
    intro fuel' hle n hn
    rcases List.mem_cons.mp hn with rfl | hmem
    · exact h₁ fuel' (le_trans (le_max_left _ _) hle)
    · exact h₂ fuel' (le_trans (le_max_right _ _) hle) n hmem

theorem Translates_of_operationSchemas (spec : OpenAPISpec) (fuel : Nat) (op : Operation)
    (h : ∀ n ∈ operationSchemas op, ∃ v, convertSchema spec fuel n = .ok v) :
    Translates spec fuel op := by
  refine ⟨?_, ?_⟩
  · intro p hp
    apply h
    unfold operationSchemas
    exact List.mem_append_left _ (List.mem_map_of_mem _ hp)
  · intro s hs
    apply h
    unfold operationSchemas
    rw [hs]
    exact List.mem_append_right _ (List.mem_singleton_self _)

/-- With references in order, the translator returns, from some depth on, on the schemas
of every operation that has an identifier. -/
theorem SoundRefs_translates (spec : OpenAPISpec) (h : SoundRefs spec) :
    ∃ fuel, ∀ fuel', fuel ≤ fuel' →
      ∀ op ∈ allOperations spec.Paths, op.OperationID ≠ "" → Translates spec fuel' op := by
  obtain ⟨hrefs, hcycle, hops⟩ := h
  have key : ∀ ops : List Operation,
      (∀ op ∈ ops, op.OperationID ≠ "" → ∀ s, some s ∈ operationSchemas op → TwoSegments s) →
      ∃ fuel, ∀ fuel', fuel ≤ fuel' →
        ∀ op ∈ ops, op.OperationID ≠ "" → Translates spec fuel' op := by
    intro ops
    induction ops with
    | nil => exact fun _ => ⟨0, fun _ _ op hop => absurd hop (List.not_mem_nil op)⟩
    | cons x rest ih =>
      intro hall
      obtain ⟨f₂, h₂⟩ := ih fun op hop => hall op (List.mem_cons_of_mem _ hop)
      by_cases hid : x.OperationID = ""
      · refine ⟨f₂, ?_⟩
        intro fuel' hle op hop hne
        rcases List.mem_cons.mp hop with rfl | hmem
        · exact absurd hid hne
        · exact h₂ fuel' hle op hmem hne
      · obtain ⟨f₁, h₁⟩ := convertSchema_returns_all spec (operationSchemas x) fun n hn =>
          convertSchema_returns spec hrefs hcycle n fun s hs =>
            hall x (List.mem_cons_self _ _) hid s (hs ▸ hn)
        refine ⟨max f₁ f₂, ?_⟩
        intro fuel' hle op hop hne
        rcases List.mem_cons.mp hop with rfl | hmem
        · exact Translates_of_operationSchemas spec fuel' _
            (h₁ fuel' (le_trans (le_max_left _ _) hle))
        · exact h₂ fuel' (le_trans (le_max_right _ _) hle) op hmem hne
  exact key _ hops

/-- With references in order, `GenerateTools` returns: from some depth of the call stack
on, every bound gives a generator. -/
theorem GenerateToolsIn_returns_eventually (order : RangeOrder) (horder : order.Valid)
    (spec : OpenAPISpec) (h : SoundRefs spec) :
    ∃ fuel, ∀ fuel', fuel ≤ fuel' →
      ∃ g, GenerateToolsIn order (NewMCPGenerator spec) fuel' = .ok g := by
  obtain ⟨fuel, hfuel⟩ := SoundRefs_translates spec h
  exact ⟨fuel, fun fuel' hle =>
    GenerateToolsIn_returns order horder spec fuel' (hfuel fuel' hle)⟩

/-- The references of `petsSpec` are in order: it has none. -/
theorem petsSpec_soundRefs : SoundRefs petsSpec := by
  refine ⟨?_, ?_, ?_⟩
  · intro N S hl
    simp [lookupComponent, petsSpec] at hl
  · intro N S hl
    simp [lookupComponent, petsSpec] at hl
  · intro op hop hid s hs u hu href
    exfalso
    apply href
    simp only [petsSpec, allOperations, definedOperations, List.filterMap_cons, id,
      List.filterMap_nil, List.append_nil, List.cons_append, List.nil_append, List.mem_cons,
      List.mem_singleton, List.not_mem_nil, or_false] at hop
    rcases hop with rfl | rfl | rfl
    · have hschemas : operationSchemas listPetsOp =
          [some { emptySchema with Type_ := "integer" }] := rfl
      rw [hschemas, List.mem_singleton, Option.some.injEq] at hs
      subst hs
      rcases Within_cases hu with rfl | ⟨name, t, hmem, -⟩ | ⟨t, hitems, -⟩
      · rfl
      · simp [emptySchema] at hmem
      · simp [emptySchema] at hitems
    · have hschemas : operationSchemas createPetOp = [some newPetSchema] := rfl
      rw [hschemas, List.mem_singleton, Option.some.injEq] at hs
      subst hs
      rcases Within_cases hu with rfl | ⟨name, t, hmem, hw⟩ | ⟨t, hitems, -⟩
      · rfl
      · simp only [newPetSchema, emptySchema, List.mem_cons, Prod.mk.injEq,
          Option.some.injEq, List.mem_singleton, List.not_mem_nil, or_false] at hmem
        rcases hmem with ⟨-, rfl⟩ | ⟨-, rfl⟩
        · rcases Within_cases hw with rfl | ⟨name', t', hmem', -⟩ | ⟨t', hitems', -⟩
          · rfl
          · simp at hmem'
          · simp at hitems'
        · rcases Within_cases hw with rfl | ⟨name', t', hmem', -⟩ | ⟨t', hitems', -⟩
          · rfl
          · simp at hmem'
          · simp at hitems'
      · simp [newPetSchema, emptySchema] at hitems
    · exact absurd rfl hid

/-- No node of the schema `Pet` is a reference. -/
theorem petSchema_no_refs (u : Schema) (hu : Within u petSchema) : u.Ref = "" := by
  rcases Within_cases hu with rfl | ⟨name, t, hmem, hw⟩ | ⟨t, hitems, -⟩
  · rfl
  · simp only [petSchema, emptySchema, List.mem_singleton, Prod.mk.injEq,
      Option.some.injEq] at hmem
    obtain ⟨-, ht⟩ := hmem
    subst ht
    rcases Within_cases hw with rfl | ⟨name', t', hmem', -⟩ | ⟨t', hitems', -⟩
    · rfl
    · simp at hmem'
    · simp at hitems'
  · simp [petSchema, emptySchema] at hitems

/-- The references of `adoptSpec` are in order: the request body of `adoptPet` refers to
`Pet`, and `Pet` holds no reference. -/
theorem adoptSpec_soundRefs : SoundRefs adoptSpec := by
  have hlook : ∀ N S, lookupComponent adoptSpec N = some (some S) → S = petSchema := by
    intro N S hl
    have h : lookupComponent adoptSpec N =
        if "Pet" = N then some (some petSchema) else none := rfl
    rw [h] at hl
    by_cases hname : "Pet" = N
    · simp only [hname, if_true, Option.some.injEq] at hl
      exact hl.symm
    · simp [hname] at hl
  refine ⟨?_, ?_, ?_⟩
  · intro N S hl u hu href
    rw [hlook N S hl] at hu
    exact absurd (petSchema_no_refs u hu) href
  · intro N S hl
    apply not_recurs_of_noRefCycle
    refine ⟨fun _ => 0, ?_⟩
    intro N' M S' u T hN hW hR _
    rw [hlook N' S' hN] at hW
    exact absurd (petSchema_no_refs u hW) (RefersTo_ref_ne_empty hR)
  · intro op hop _ s hs u hu _
    simp only [adoptSpec, allOperations, definedOperations, List.filterMap_cons, id,
      List.filterMap_nil, List.append_nil, List.mem_singleton] at hop
    subst hop
    have hschemas : operationSchemas adoptPetOp = [some petRef] := rfl
    rw [hschemas, List.mem_singleton, Option.some.injEq] at hs
    subst hs
    rcases Within_cases hu with rfl | ⟨name, t, hmem, -⟩ | ⟨t, hitems, -⟩
    · decide
    · simp [petRef, emptySchema] at hmem
    · simp [petRef, emptySchema] at hitems

/-! ## The tools of a spec -/

/-- C3. Whatever the order in which `GenerateTools` visits the paths and the operations of
a path, on a freshly constructed generator it returns exactly when the translator returns
on the schemas of every operation that has an identifier, and it does so, from some depth
of the call stack on, whenever the references of the spec are in order: at least two
segments in every `$ref`, and no cycle of references that are followed. When it returns,
the names of the generated tools are, as a multiset, the non-empty operationIds of the
operations defined over all paths and the seven HTTP methods: there are as many tools as
such operations, and no tool has an empty name. -/
theorem GenerateTools_names (order : RangeOrder) (horder : order.Valid) (spec : OpenAPISpec)
    (fuel : Nat) :
    ((∃ g, GenerateToolsIn order (NewMCPGenerator spec) fuel = .ok g) ↔
      ∀ op ∈ allOperations spec.Paths, op.OperationID ≠ "" → Translates spec fuel op) ∧
    (SoundRefs spec → ∃ fuel₀, ∀ fuel', fuel₀ ≤ fuel' →
      ∃ g, GenerateToolsIn order (NewMCPGenerator spec) fuel' = .ok g ∧
        (((GetTools g).map MCPTool.Name : List String) : Multiset String) =
          ((((allOperations spec.Paths).map fun op => op.OperationID).filter
            fun id => id ≠ "" : List String) : Multiset String)) ∧
    ∀ g, GenerateToolsIn order (NewMCPGenerator spec) fuel = .ok g →
      (((GetTools g).map MCPTool.Name : List String) : Multiset String) =
        ((((allOperations spec.Paths).map fun op => op.OperationID).filter
          fun id => id ≠ "" : List String) : Multiset String) ∧
      (GetTools g).length =
        (((allOperations spec.Paths).filter fun op => op.OperationID ≠ "")).length ∧
      ∀ tool ∈ GetTools g, tool.Name ≠ "" := by
  refine ⟨GenerateToolsIn_returns_iff order horder spec fuel, ?_, ?_⟩
  · intro hsound
    obtain ⟨fuel₀, h₀⟩ := GenerateToolsIn_returns_eventually order horder spec hsound
    refine ⟨fuel₀, fun fuel' hle => ?_⟩
    obtain ⟨g, hg⟩ := h₀ fuel' hle
    exact ⟨g, hg,
      Multiset.coe_eq_coe.mpr (GenerateToolsIn_names_perm order horder spec fuel' g hg)⟩
  intro g h
  have hnames := GenerateToolsIn_names_perm order horder spec fuel g h
  refine ⟨?_, ?_, ?_⟩
  · exact Multiset.coe_eq_coe.mpr hnames
  · have hlen := hnames.length_eq
    simp only [List.length_map, operationIds] at hlen
    rw [hlen, List.filter_map, List.length_map]
    rfl
  · intro tool htool
    have hmem : tool.Name ∈ (GetTools g).map MCPTool.Name := List.mem_map_of_mem _ htool
    rw [hnames.mem_iff] at hmem
    simp only [operationIds, List.mem_filter] at hmem
    simpa using hmem.2

theorem petsSpec_translates :
    ∀ op ∈ allOperations petsSpec.Paths, op.OperationID ≠ "" → Translates petsSpec 2 op := by
  intro op hop _
  simp only [petsSpec, allOperations, definedOperations, List.filterMap_cons, id,
    List.filterMap_nil, List.append_nil, List.cons_append, List.nil_append, List.mem_cons,
    List.mem_singleton, List.not_mem_nil, or_false] at hop
  rcases hop with rfl | rfl | rfl
  · refine ⟨?_, ?_⟩
    · intro p hp
      simp only [listPetsOp, List.mem_singleton] at hp
      subst hp
      exact ⟨_, rfl⟩
    · intro s hs
      simp [attachedBody, listPetsOp] at hs
  · refine ⟨?_, ?_⟩
    · intro p hp
      simp [createPetOp] at hp
    · intro s hs
      have : s = newPetSchema := by
        have h : attachedBody createPetOp = some newPetSchema := rfl
        rw [h] at hs
        exact (Option.some.inj hs).symm
      subst this
      exact ⟨_, rfl⟩
  · refine ⟨?_, ?_⟩
    · intro p hp
      simp [anonymousOp] at hp
    · intro s hs
      simp [attachedBody, anonymousOp] at hs

/-- Witness of C3: the spec of the generator's test, visited as written or backwards,
yields the tools `listPets` and `createPet`, and none for the anonymous operation of
`/health`; the spec `adoptSpec`, whose operation refers to the component `Pet`, yields
the tool `adoptPet` from the depth 3 on. -/
theorem GenerateTools_names_witness :
    (∃ fuel₀, ∀ fuel', fuel₀ ≤ fuel' →
      ∃ g, GenerateToolsIn reversedOrder (NewMCPGenerator petsSpec) fuel' = .ok g ∧
        (((GetTools g).map MCPTool.Name : List String) : Multiset String) =
          ((((allOperations petsSpec.Paths).map fun op => op.OperationID).filter
            fun id => id ≠ "" : List String) : Multiset String)) ∧
    (∃ fuel₀, ∀ fuel', fuel₀ ≤ fuel' →
      ∃ g, GenerateToolsIn reversedOrder (NewMCPGenerator adoptSpec) fuel' = .ok g ∧
        (((GetTools g).map MCPTool.Name : List String) : Multiset String) =
          ((((allOperations adoptSpec.Paths).map fun op => op.OperationID).filter
            fun id => id ≠ "" : List String) : Multiset String)) ∧
    (∃ g, GenerateTools (NewMCPGenerator adoptSpec) 3 = .ok g ∧
      (GetTools g).map MCPTool.Name = ["adoptPet"]) ∧
    (∃ g, GenerateToolsIn reversedOrder (NewMCPGenerator petsSpec) 2 = .ok g) ∧
    GenerateTools (NewMCPGenerator petsSpec) 2 = .ok petsGenerator ∧
    GenerateToolsIn writtenOrder (NewMCPGenerator petsSpec) 2 = .ok petsGenerator ∧
    (GetTools petsGenerator).map MCPTool.Name = ["listPets", "createPet"] ∧
    (allOperations petsSpec.Paths).map (fun op => op.OperationID) =
      ["listPets", "createPet", ""] ∧
    (((GetTools petsGenerator).map MCPTool.Name : List String) : Multiset String) =
      ((((allOperations petsSpec.Paths).map fun op => op.OperationID).filter
        fun id => id ≠ "" : List String) : Multiset String) :=
  ⟨(GenerateTools_names reversedOrder reversedOrder_valid petsSpec 2).2.1 petsSpec_soundRefs,
    (GenerateTools_names reversedOrder reversedOrder_valid adoptSpec 0).2.1
      adoptSpec_soundRefs,
    ⟨_, rfl, rfl⟩,
    (GenerateTools_names reversedOrder reversedOrder_valid petsSpec 2).1.mpr
      petsSpec_translates,
    rfl, rfl, rfl, rfl,
    ((GenerateTools_names writtenOrder writtenOrder_valid petsSpec 2).2.2 petsGenerator
      rfl).1⟩

/-- C9, as the code has it. `GenerateTools` does not deduplicate. Whatever the order in
which it visits the paths and the operations of a path, it returns exactly when the
translator returns on the schemas of every operation that has an identifier, as it does
from some depth on when the references of the spec are in order, and the tool list then
holds, in the order of the visit, one tool for each operation with a non-empty
identifier, built from that operation: its name is the operationId, its description the
one generated from the operation, its method and its path, its input schema the one
generated from the operation. The operations visited are the operations of the spec, each
once. So for every non-empty identifier there are as many tools of that name as there are
operations carrying it: two when two operations carry it. -/
theorem GenerateTools_keeps_duplicates (order : RangeOrder) (horder : order.Valid)
    (spec : OpenAPISpec) (fuel : Nat) :
    ((∃ g, GenerateToolsIn order (NewMCPGenerator spec) fuel = .ok g) ↔
      ∀ op ∈ allOperations spec.Paths, op.OperationID ≠ "" → Translates spec fuel op) ∧
    (SoundRefs spec → ∃ fuel₀, ∀ fuel', fuel₀ ≤ fuel' →
      ∃ g, GenerateToolsIn order (NewMCPGenerator spec) fuel' = .ok g) ∧
    (visitedOperations order (order.paths spec.Paths)).Perm
      (visitedOperations writtenOrder spec.Paths) ∧
    (visitedOperations writtenOrder spec.Paths).map (fun e => e.2.2) =
      allOperations spec.Paths ∧
    ∀ g, GenerateToolsIn order (NewMCPGenerator spec) fuel = .ok g →
      List.Forall₂ (BuiltFrom spec fuel)
        ((visitedOperations order (order.paths spec.Paths)).filter
          fun e => e.2.2.OperationID ≠ "")
        (GetTools g) ∧
      ∀ n, n ≠ "" →
        ((GetTools g).filter fun tool => tool.Name = n).length =
          ((allOperations spec.Paths).filter fun op => op.OperationID = n).length := by
  refine ⟨GenerateToolsIn_returns_iff order horder spec fuel,
    GenerateToolsIn_returns_eventually order horder spec,
    visitedOperations_valid order horder spec.Paths, visitedOperations_operations spec.Paths, ?_⟩
  intro g h
  refine ⟨GenerateToolsIn_built order spec fuel g h, ?_⟩
  intro n hn
  have h₁ := count_eq_length_filter_map MCPTool.Name n (GetTools g)
  have h₂ := count_eq_length_filter_map (fun op : Operation => op.OperationID) n
    (allOperations spec.Paths)
  rw [h₁, h₂, (GenerateToolsIn_names_perm order horder spec fuel g h).count_eq, operationIds,
    List.count_filter]
  simpa using hn

/-- Witness of C9 as amended: the two operations of `dupSpec` named "dup", visited as
written, give two tools named "dup", the first built from the `get` operation and the
second from the `post` operation. -/
theorem GenerateTools_keeps_duplicates_witness :
    GenerateToolsIn writtenOrder (NewMCPGenerator dupSpec) 1 = .ok dupGenerator ∧
    visitedOperations writtenOrder (writtenOrder.paths dupSpec.Paths) =
      [("/pets", "get", dupFirstOp), ("/pets", "post", dupSecondOp)] ∧
    List.Forall₂ (BuiltFrom dupSpec 1)
      [("/pets", "get", dupFirstOp), ("/pets", "post", dupSecondOp)]
      (GetTools dupGenerator) ∧
    ((GetTools dupGenerator).filter fun tool => tool.Name = "dup").length =
      ((allOperations dupSpec.Paths).filter fun op => op.OperationID = "dup").length ∧
    ((allOperations dupSpec.Paths).filter fun op => op.OperationID = "dup").length = 2 :=
  ⟨rfl, rfl,
    ((GenerateTools_keeps_duplicates writtenOrder writtenOrder_valid dupSpec 1).2.2.2.2
      dupGenerator rfl).1,
    ((GenerateTools_keeps_duplicates writtenOrder writtenOrder_valid dupSpec 1).2.2.2.2
      dupGenerator rfl).2 "dup" (by decide),
    by decide⟩

/-- C9 as stated fails: in `dupSpec` two operations carry the identifier "dup", and the
tool list after `GenerateTools` holds two tools of that name, not one, in either order in
which the two operations can be visited: one tool is built from the `get` operation
(description "first") and one from the `post` operation (description "second"). -/
theorem duplicate_operationId_two_tools :
    (allOperations dupSpec.Paths).map (fun op => op.OperationID) = ["dup", "dup"] ∧
    GenerateTools (NewMCPGenerator dupSpec) 1 = .ok dupGenerator ∧
    GenerateToolsIn writtenOrder (NewMCPGenerator dupSpec) 1 = .ok dupGenerator ∧
    (GetTools dupGenerator).map MCPTool.Name = ["dup", "dup"] ∧
    (GetTools dupGenerator).map MCPTool.Description = ["first", "second"] ∧
    ((GetTools dupGenerator).filter fun tool => tool.Name = "dup").length ≠ 1 ∧
    GenerateToolsIn reversedOrder (NewMCPGenerator dupSpec) 1 = .ok dupGeneratorReversed ∧
    (GetTools dupGeneratorReversed).map MCPTool.Name = ["dup", "dup"] ∧
    (GetTools dupGeneratorReversed).map MCPTool.Description = ["second", "first"] ∧
    ((GetTools dupGeneratorReversed).filter fun tool => tool.Name = "dup").length ≠ 1 :=
  ⟨rfl, rfl, rfl, rfl, rfl, by decide, rfl, rfl, rfl, by decide⟩

end Specmill
